import Mathlib

/-!
# Sidecar mounter configuration: option translation and config-file tree

A shallow embedding of `pkg/sidecar_mounter/sidecar_mounter_config.go`.

Conventions of the embedding
* A Go `string` is a Lean `String`, read as its sequence of characters.  The
  separators the code looks for (`:`, `=`, `https`) are ASCII, so cutting a
  string at a character position is the same as cutting it at the byte
  position Go computes.
* A Go `map[string]string` is a `StrMap`: a list of entries with `get`/`set`;
  `range` visits the entries in list order, and statements about "any visit
  order" quantify over the permutations of that list.
* The nested `map[string]interface{}` document is a `Node` whose mappings are
  functions `String → Option Node` (never iterated by the code).
* The package variable `prometheusPort` is passed in and returned explicitly.
* `util.DisableMetricsForGKE` is declared outside this file: it is a parameter
  of every definition that reads it.
-/

namespace strings

/-- First position at which `sub` occurs in `s`. -/
def indexAux (sub : List Char) : List Char → Option Nat
  | [] => if sub.isEmpty then some 0 else none
  | c :: cs =>
    if sub.isPrefixOf (c :: cs) then some 0 else (indexAux sub cs).map (· + 1)

/-- Last position at which `sub` occurs in `s`. -/
def lastIndexAux (sub : List Char) : List Char → Option Nat
  | [] => if sub.isEmpty then some 0 else none
  | c :: cs =>
    match lastIndexAux sub cs with
    | some i => some (i + 1)
    | none => if sub.isPrefixOf (c :: cs) then some 0 else none

/-- Go `strings.Index`: the first index of `substr` in `s`, or `-1`. -/
def Index (s substr : String) : Int :=
  match indexAux substr.data s.data with
  | some i => (i : Int)
  | none => -1

/-- Go `strings.LastIndex`: the last index of `substr` in `s`, or `-1`. -/
def LastIndex (s substr : String) : Int :=
  match lastIndexAux substr.data s.data with
  | some i => (i : Int)
  | none => -1

/-- Go `strings.Contains`, which is `Index(s, substr) >= 0`. -/
def Contains (s substr : String) : Bool :=
  decide (0 ≤ Index s substr)

/-- Go slice expression `s[:i]`. -/
def sliceTo (s : String) (i : Int) : String :=
  ⟨s.data.take i.toNat⟩

/-- Go slice expression `s[i:]`. -/
def sliceFrom (s : String) (i : Int) : String :=
  ⟨s.data.drop i.toNat⟩

/-- The cutting loop of Go `genSplit` for a non-empty separator: at most
`k` cuts at successive first occurrences of `sep`, then the remainder. -/
def splitAux (sep : List Char) : Nat → List Char → List (List Char)
  | 0, s => [s]
  | k + 1, s =>
    match indexAux sep s with
    | none => [s]
    | some m => s.take m :: splitAux sep k (s.drop (m + sep.length))

/-- Go `strings.SplitN(s, sep, n)` for a non-empty `sep` and `n ≥ 0`:
no substrings for `n = 0`, otherwise at most `n` substrings, the last one
being the unsplit remainder. -/
def SplitN (s sep : String) (n : Nat) : List String :=
  match n with
  | 0 => []
  | k + 1 => (splitAux sep.data k s.data).map String.mk

/-- Go `strings.Split(s, sep)` for a non-empty `sep`: all substrings
between occurrences of `sep` (a string of length `n` has at most `n` cuts). -/
def Split (s sep : String) : List String :=
  (splitAux sep.data s.data.length s.data).map String.mk

end strings

/-- A Go `map[string]string`, as the list of its entries. -/
def StrMap := List (String × String)

namespace StrMap

instance : DecidableEq StrMap := inferInstanceAs (DecidableEq (List (String × String)))

/-- The entries, in the order a `range` loop visits them. -/
def entries (m : StrMap) : List (String × String) := m

/-- The empty map literal. -/
def empty : StrMap := ([] : List (String × String))

/-- Map read `v, ok := m[k]`. -/
def get : StrMap → String → Option String
  | [], _ => none
  | (k', v) :: rest, k => if k' = k then some v else get rest k

/-- Map write `m[k] = v`: rebinds `k` when present, adds an entry otherwise. -/
def set : StrMap → String → String → StrMap
  | [], k, v => [(k, v)]
  | (k', v') :: rest, k, v =>
    if k' = k then (k, v) :: rest else (k', v') :: set rest k v

/-- Membership test `_, ok := m[k]`. -/
def has (m : StrMap) (k : String) : Bool := (m.get k).isSome

/-- The keys, in entry order. -/
def keys (m : StrMap) : List String := m.entries.map Prod.fst

end StrMap

namespace strconv

/-- Decimal digit character of `d < 10`. -/
def digitChar (d : Nat) : Char := Char.ofNat (48 + d)

/-- Digits of `n`, least significant pushed first onto `acc`; `fuel` bounds
the number of digits. -/
def digitsAux : Nat → Nat → List Char → List Char
  | 0, _, acc => acc
  | fuel + 1, n, acc =>
    if n / 10 = 0 then digitChar (n % 10) :: acc
    else digitsAux fuel (n / 10) (digitChar (n % 10) :: acc)

/-- Decimal rendering of a natural number (`n + 1` digits always suffice). -/
def formatNat (n : Nat) : String := ⟨digitsAux (n + 1) n []⟩

/-- Go `strconv.Itoa`: decimal rendering, with a leading `-` when negative. -/
def Itoa : Int → String
  | Int.ofNat n => formatNat n
  | Int.negSucc n => "-" ++ formatNat (n + 1)

/-- Value of one decimal digit character. -/
def digitVal (c : Char) : Option Nat :=
  if '0' ≤ c ∧ c ≤ '9' then some (c.toNat - 48) else none

/-- Value of a string of decimal digits read left to right, starting from
`acc`; `none` at the first character that is not a digit. -/
def parseDigitsAux : List Char → Nat → Option Nat
  | [], acc => some acc
  | c :: cs, acc =>
    match digitVal c with
    | some d => parseDigitsAux cs (10 * acc + d)
    | none => none

/-- Go `strconv.ParseUint(s, 10, _)` before the range check: a non-empty
string of decimal digits. -/
def parseDigits (s : List Char) : Option Nat :=
  match s with
  | [] => none
  | _ :: _ => parseDigitsAux s 0

/-- Go `strconv.ParseInt(s, 10, 64)`: an optional sign, then one or more
decimal digits, the value within the signed 64-bit range; `none` is any
error (syntax or range). -/
def ParseInt (s : String) : Option Int :=
  match s.data with
  | [] => none
  | c :: cs =>
    if c = '+' then
      match parseDigits cs with
      | some n => if n < 2 ^ 63 then some (n : Int) else none
      | none => none
    else if c = '-' then
      match parseDigits cs with
      | some n => if n ≤ 2 ^ 63 then some (-(n : Int)) else none
      | none => none
    else
      match parseDigits (c :: cs) with
      | some n => if n < 2 ^ 63 then some (n : Int) else none
      | none => none

/-- Go `strconv.ParseBool`: accepts exactly `1 t T TRUE true True` and
`0 f F FALSE false False`; `none` is the error. -/
def ParseBool (s : String) : Option Bool :=
  if s = "1" ∨ s = "t" ∨ s = "T" ∨ s = "TRUE" ∨ s = "true" ∨ s = "True" then some true
  else if s = "0" ∨ s = "f" ∨ s = "F" ∨ s = "FALSE" ∨ s = "false" ∨ s = "False" then some false
  else none

/-- The number a string of decimal digits denotes. -/
def digitsValue : List Char → Nat
  | [] => 0
  | c :: cs => (c.toNat - 48) * 10 ^ cs.length + digitsValue cs

end strconv

namespace util

/-- Modelled from the spec: `util.TrueStr` is declared outside this file; the
spec calls it the truthy literal, the string `true`. -/
def TrueStr : String := "true"

/-- Modelled from the spec: `util.FalseStr` is declared outside this file; the
spec calls it the falsy literal, the string `false`. -/
def FalseStr : String := "false"

end util

namespace sidecarmounter

def GCSFuseAppName : String := "gke-gcs-fuse-csi"
def TempDir : String := "/temp-dir"
def unixSocketBasePath : String := "unix://"
def TokenFileName : String := "token.sock"
def identityProviderFlag : String := "token-server-identity-provider"
def hostNetworkKSAOptInFlag : String := "hnw-ksa"

/-- Go `MountConfig`.  `ConfigFileFlagMap` is `none` for a nil map (the state
`prepareConfigFile` tests for); `ErrWriter` is not a field here, the
messages written through it are returned by the functions that write. -/
structure MountConfig where
  FileDescriptor : Int
  VolumeName : String
  BucketName : String
  BufferDir : String
  CacheDir : String
  TempDir : String
  ConfigFile : String
  Options : List String
  FlagMap : StrMap
  ConfigFileFlagMap : Option StrMap
  TokenServerIdentityProvider : String
  HostNetworkKSAOptIn : Bool

/-- Initial value of the package variable `prometheusPort`. -/
def prometheusPort : Int := 62990

/-- Go `int` arithmetic on a 64-bit platform: results wrap into
`[-2^63, 2^63)`. -/
def wrapInt (n : Int) : Int := (n + 2 ^ 63) % 2 ^ 64 - 2 ^ 63

/-- Keys of the Go map `disallowedFlags` (all bound to `true`). -/
def disallowedFlagNames : List String :=
  [ "temp-dir", "config-file", "foreground", "log-file", "log-format",
    "key-file", "token-url", "reuse-token-from-url", "o",
    "logging:log-rotate:max-file-size-mb",
    "logging:log-rotate:backup-file-count",
    "logging:log-rotate:compress",
    "cache-dir", "experimental-local-file-cache", "prometheus-port" ]

/-- Map read `disallowedFlags[f]` (false for an absent key). -/
def disallowedFlags (f : String) : Bool := disallowedFlagNames.contains f

/-- Keys of the Go map `boolFlags` (all bound to `true`). -/
def boolFlagNames : List String :=
  [ "implicit-dirs", "enable-nonexistent-type-cache", "debug_fuse_errors",
    "debug_fuse", "debug_fs", "debug_gcs", "debug_http", "debug_invariants",
    "debug_mutex", "disable-autoconfig" ]

/-- Map read `boolFlags[f]` (false for an absent key). -/
def boolFlags (f : String) : Bool := boolFlagNames.contains f

/-- Go `mergeFlags`: the loop state is the pair of both maps; only the first
is ever written. -/
def mergeFlags (mountConfigFlagMap driverFlagMap : StrMap) : StrMap × StrMap :=
  (driverFlagMap.entries.foldl
    (fun m kv => if m.has kv.1 then m else m.set kv.1 kv.2)
    mountConfigFlagMap,
   driverFlagMap)

/-- The variables the option loop of `prepareMountArgs` reads and writes. -/
structure LoopState where
  mc : MountConfig
  flagMap : StrMap
  configFileFlagMap : StrMap
  invalidArgs : List String

/-- The map literal `flagMap` of `prepareMountArgs`. -/
def baseFlagMap (port : Int) (mc : MountConfig) : StrMap :=
  [ ("app-name", GCSFuseAppName),
    ("temp-dir", mc.BufferDir ++ TempDir),
    ("config-file", mc.ConfigFile),
    ("foreground", ""),
    ("uid", "0"),
    ("gid", "0"),
    ("prometheus-port", strconv.Itoa port) ]

/-- The map literal `configFileFlagMap` of `prepareMountArgs`. -/
def baseConfigFileFlagMap : StrMap :=
  [ ("logging:file-path", "/dev/fd/1"),
    ("logging:format", "json"),
    ("cache-dir", "") ]

/-- The path-form branch of the option loop (an option with a `:` and
without `https`), after the cut `f, v := arg[:i], arg[i+1:]`. -/
def processPathArg (DisableMetricsForGKE : String) (st : LoopState) (arg f v : String) :
    LoopState :=
  if f = DisableMetricsForGKE then
    if v = util.TrueStr then
      { st with flagMap := st.flagMap.set "prometheus-port" "0" }
    else st
  else
    let st1 : LoopState :=
      if disallowedFlags f then
        { st with invalidArgs := st.invalidArgs ++ [arg] }
      else
        { st with configFileFlagMap := st.configFileFlagMap.set f v }
    if f = "file-cache:max-size-mb" ∧ v ≠ "0" then
      { st1 with configFileFlagMap := st1.configFileFlagMap.set "cache-dir" st1.mc.CacheDir }
    else st1

/-- The flat-form branch of the option loop, after `flag := argPair[0]`;
`value` is `argPair[1]` when there is one and the empty string otherwise. -/
def processFlatArg (st : LoopState) (arg flag value : String) : LoopState :=
  if disallowedFlags flag then
    { st with invalidArgs := st.invalidArgs ++ [arg] }
  else if flag = identityProviderFlag then
    { st with mc := { st.mc with TokenServerIdentityProvider := value } }
  else if flag = hostNetworkKSAOptInFlag then
    { st with mc := { st.mc with HostNetworkKSAOptIn := decide (value = util.TrueStr) } }
  else if boolFlags flag ∧ value ≠ "" then
    if value = util.TrueStr ∨ value = util.FalseStr then
      { st with flagMap := st.flagMap.set (flag ++ "=" ++ value) "" }
    else
      { st with invalidArgs := st.invalidArgs ++ [flag ++ "=" ++ value] }
  else if flag = "app-name" then
    { st with flagMap := st.flagMap.set flag (GCSFuseAppName ++ "-" ++ value) }
  else
    { st with flagMap := st.flagMap.set flag value }

/-- The `value` of a flat-form option: `argPair[1]` when `len(argPair) > 1`,
the empty string otherwise. -/
def flatValue (rest : List String) : String :=
  match rest with
  | [] => ""
  | v :: _ => v

/-- One iteration of `for _, arg := range mc.Options` in `prepareMountArgs`. -/
def processArg (DisableMetricsForGKE : String) (st : LoopState) (arg : String) : LoopState :=
  if strings.Contains arg ":" && !strings.Contains arg "https" then
    let i := strings.LastIndex arg ":"
    processPathArg DisableMetricsForGKE st arg (strings.sliceTo arg i)
      (strings.sliceFrom arg (i + 1))
  else
    match strings.SplitN arg "=" 2 with
    | [] => st
    | flag :: rest => processFlatArg st arg flag (flatValue rest)

/-- State of the option loop of `prepareMountArgs` on entry. -/
def initLoop (port : Int) (mc : MountConfig) : LoopState :=
  { mc := mc
    flagMap := baseFlagMap port mc
    configFileFlagMap := baseConfigFileFlagMap
    invalidArgs := [] }

/-- The option loop of `prepareMountArgs` over a list of options. -/
def runLoop (DisableMetricsForGKE : String) (st : LoopState) (args : List String) : LoopState :=
  args.foldl (processArg DisableMetricsForGKE) st

/-- What a run of `prepareMountArgs` leaves behind: the new value of the
package variable `prometheusPort`, the updated `MountConfig`, and the
`invalidArgs` it warns about. -/
structure MountArgsResult where
  port : Int
  mc : MountConfig
  invalidArgs : List String

/-- Go `(*MountConfig).prepareMountArgs`, with the package variable
`prometheusPort` passed in as `port`. -/
def prepareMountArgs (DisableMetricsForGKE : String) (port : Int) (mc : MountConfig) :
    MountArgsResult :=
  let st := runLoop DisableMetricsForGKE (initLoop port mc) mc.Options
  { port := wrapInt (port + 1)
    mc := { st.mc with FlagMap := st.flagMap, ConfigFileFlagMap := some st.configFileFlagMap }
    invalidArgs := st.invalidArgs }

/-- A value of the document `map[string]interface{}`: a typed leaf or a
nested mapping. -/
inductive Node where
  | int (n : Int)
  | bool (b : Bool)
  | str (s : String)
  | map (m : String → Option Node)

/-- One `map[string]interface{}` level of the document. -/
abbrev Level := String → Option Node

/-- The map literal `map[string]interface{}{}`. -/
def Level.empty : Level := fun _ => none

/-- Map write `curLevel[t] = x`. -/
def Level.set (m : Level) (t : String) (x : Node) : Level :=
  fun k => if k = t then some x else m k

/-- Errors of `prepareConfigFile`. -/
inductive ConfigError where
  /-- The error `got empty config file flag map`. -/
  | emptyFlagMap
  /-- The error `invalid config file flag: %q` for the flag `f`. -/
  | invalidFlag (f : String)
  /-- An error of `yaml.Marshal` or `os.WriteFile`. -/
  | persist (msg : String)
deriving DecidableEq

/-- The typed value stored at a leaf: `ParseInt`, else `ParseBool`, else the
string itself. -/
def typedLeaf (v : String) : Node :=
  match strconv.ParseInt v with
  | some n => Node.int n
  | none =>
    match strconv.ParseBool v with
    | some b => Node.bool b
    | none => Node.str v

/-- The inner loop `for i, t := range tokens` of `prepareConfigFile` for the
flag `f` with value `v`, started at the level `cur`; the result is `cur`
with the entry placed, or the error the loop returns. -/
def placeTokens (f v : String) : List String → Level → Except ConfigError Level
  | [], cur => Except.ok cur
  | [t], cur =>
    match cur t with
    | some (Node.map _) => Except.error (ConfigError.invalidFlag f)
    | _ => Except.ok (Level.set cur t (typedLeaf v))
  | t :: t2 :: ts, cur =>
    let cur1 : Level :=
      match cur t with
      | none => Level.set cur t (Node.map Level.empty)
      | some _ => cur
    match cur1 t with
    | some (Node.map nextLevel) =>
      match placeTokens f v (t2 :: ts) nextLevel with
      | Except.ok next => Except.ok (Level.set cur1 t (Node.map next))
      | Except.error e => Except.error e
    | _ => Except.error (ConfigError.invalidFlag f)

/-- The outer loop `for f, v := range mc.ConfigFileFlagMap` of
`prepareConfigFile` over the entries in visit order. -/
def buildTree : List (String × String) → Level → Except ConfigError Level
  | [], configMap => Except.ok configMap
  | (f, v) :: rest, configMap =>
    match placeTokens f v (strings.Split f ":") configMap with
    | Except.ok configMap1 => buildTree rest configMap1
    | Except.error e => Except.error e

/-- The document `configMap` that `prepareConfigFile` hands to
`yaml.Marshal`: the nil check, the tree construction and the `gcs-auth`
block.  `filepathJoin` stands for Go `filepath.Join` on two elements. -/
def configDocument (filepathJoin : String → String → String) (mc : MountConfig) :
    Except ConfigError Level :=
  match mc.ConfigFileFlagMap with
  | none => Except.error ConfigError.emptyFlagMap
  | some flagMap =>
    match buildTree flagMap.entries Level.empty with
    | Except.error e => Except.error e
    | Except.ok configMap =>
      if mc.TokenServerIdentityProvider ≠ "" ∧ mc.HostNetworkKSAOptIn = true then
        Except.ok (Level.set configMap "gcs-auth"
          (Node.map (Level.set Level.empty "token-url"
            (Node.str (unixSocketBasePath ++ filepathJoin mc.TempDir TokenFileName)))))
      else Except.ok configMap

/-- Go `(*MountConfig).prepareConfigFile`.  `persist path doc` stands for
`yaml.Marshal` followed by `os.WriteFile(path, _, 0o400)`: `none` when both
succeed, the error otherwise.  The result is the document written. -/
def prepareConfigFile (filepathJoin : String → String → String)
    (persist : String → Level → Option ConfigError) (mc : MountConfig) :
    Except ConfigError Level :=
  match configDocument filepathJoin mc with
  | Except.error e => Except.error e
  | Except.ok configMap =>
    match persist mc.ConfigFile configMap with
    | some e => Except.error e
    | none => Except.ok configMap

/-- Whether a result is an error. -/
def isError {ε α : Type} : Except ε α → Bool
  | Except.error _ => true
  | Except.ok _ => false

/-! ### Predicates used to state the properties -/

/-- The writes one iteration of the option loop can make: nothing, the
port reset, a rejected option, a config-file entry under a key that is not
deny-listed (with or without the cache directory), one of the two
`MountConfig` fields, or a flat entry under a key that is not deny-listed. -/
inductive Effect (st : LoopState) : LoopState → Prop where
  | none : Effect st st
  | port : Effect st { st with flagMap := st.flagMap.set "prometheus-port" "0" }
  | invalid (x : String) : Effect st { st with invalidArgs := st.invalidArgs ++ [x] }
  | config (f v : String) (h : disallowedFlags f = false) :
      Effect st { st with configFileFlagMap := st.configFileFlagMap.set f v }
  | configCache (f v : String) (h : disallowedFlags f = false) :
      Effect st { st with configFileFlagMap :=
        (st.configFileFlagMap.set f v).set "cache-dir" st.mc.CacheDir }
  | identity (x : String) :
      Effect st { st with mc := { st.mc with TokenServerIdentityProvider := x } }
  | hostNetwork (b : Bool) :
      Effect st { st with mc := { st.mc with HostNetworkKSAOptIn := b } }
  | flat (k v : String) (h : disallowedFlags k = false) :
      Effect st { st with flagMap := st.flagMap.set k v }

/-- What the option loop keeps true of the deny-listed keys. -/
structure DenyInv (port : Int) (mc : MountConfig) (st : LoopState) : Prop where
  cacheDir : st.mc.CacheDir = mc.CacheDir
  flat : ∀ d, disallowedFlags d = true → d ≠ "prometheus-port" →
    st.flagMap.get d = (baseFlagMap port mc).get d
  port : st.flagMap.get "prometheus-port" = some (strconv.Itoa port) ∨
    st.flagMap.get "prometheus-port" = some "0"
  config : ∀ d, disallowedFlags d = true → d ≠ "cache-dir" → st.configFileFlagMap.get d = none
  cache : st.configFileFlagMap.get "cache-dir" = some "" ∨
    st.configFileFlagMap.get "cache-dir" = some mc.CacheDir

/-- A `MountConfig` as `NewMountConfig` builds it for the socket path
`/gcsfuse-tmp/.volumes/vol/socket`, with the given options; used to evaluate
the definitions on concrete inputs. -/
def exampleConfig (options : List String) : MountConfig :=
  { FileDescriptor := 3
    VolumeName := "vol"
    BucketName := "bucket"
    BufferDir := "/gcsfuse-buffer/.volumes/vol"
    CacheDir := "/gcsfuse-cache/.volumes/vol"
    TempDir := "/gcsfuse-tmp/.volumes/vol"
    ConfigFile := "/gcsfuse-tmp/.volumes/vol/config.yaml"
    Options := options
    FlagMap := StrMap.empty
    ConfigFileFlagMap := none
    TokenServerIdentityProvider := ""
    HostNetworkKSAOptIn := false }

/-- The type assertion `x.(map[string]interface{})`: the nested mapping when
`x` is one. -/
def Node.asMap : Node → Option Level
  | Node.map m => some m
  | _ => none

/-- The value found by following the path `q` down from the level `cur`
(the empty path is the level itself); `none` where the path leaves the
document or runs through a leaf. -/
def resolve : List String → Level → Option Node
  | [], cur => some (Node.map cur)
  | t :: ts, cur =>
    match cur t with
    | none => none
    | some x =>
      match x.asMap with
      | some next => resolve ts next
      | none => if ts = [] then some x else none

/-- The path `q` ends at a typed leaf of the document. -/
def LeafAt (q : List String) (cur : Level) : Prop :=
  ∃ x, resolve q cur = some x ∧ x.asMap = none

/-- The path `q` ends at a nested mapping of the document. -/
def MapAt (q : List String) (cur : Level) : Prop :=
  ∃ m, resolve q cur = some (Node.map m)

/-- The segment sequence `p` is a proper prefix of `q`. -/
def ProperPrefix (p q : List String) : Prop := p <+: q ∧ p ≠ q

/-- Two of the segment sequences collide: one is a proper prefix of another. -/
def Collide (paths : List (List String)) : Prop :=
  ∃ p ∈ paths, ∃ q ∈ paths, ProperPrefix p q

/-- The colon-split segment sequence of a key. -/
def segments (key : String) : List String := strings.Split key ":"

/-- The document `cur` holds exactly the paths `paths`: each of them ends at
a leaf, their proper prefixes end at nested mappings, and nothing else is in
the document. -/
structure TreeInv (cur : Level) (paths : List (List String)) : Prop where
  nonempty : ∀ p ∈ paths, p ≠ []
  leaf : ∀ q, q ≠ [] → (LeafAt q cur ↔ q ∈ paths)
  map : ∀ q, q ≠ [] → (MapAt q cur ↔ ∃ p ∈ paths, ProperPrefix q p)

/-- The segment sequences of the keys of a list of entries. -/
def pathsOf (entries : List (String × String)) : List (List String) :=
  entries.map (fun e => segments e.1)

/-- The test of the option loop that sends an option to the path-form
branch: it contains `:` and does not contain `https`. -/
def isPathForm (arg : String) : Bool :=
  strings.Contains arg ":" && !strings.Contains arg "https"

/-- The path `f` of a path-form option: the text before its last `:`. -/
def pathOf (arg : String) : String :=
  strings.sliceTo arg (strings.LastIndex arg ":")

/-- The value `v` of a path-form option: the text after its last `:`. -/
def pathValueOf (arg : String) : String :=
  strings.sliceFrom arg (strings.LastIndex arg ":" + 1)

/-- The `flag` of a flat-form option: `argPair[0]`. -/
def flagOf (arg : String) : String :=
  match strings.SplitN arg "=" 2 with
  | [] => ""
  | flag :: _ => flag

/-- The `value` of a flat-form option: `argPair[1]`, or the empty string. -/
def valueOf (arg : String) : String :=
  match strings.SplitN arg "=" 2 with
  | [] => ""
  | _ :: rest => flatValue rest

/-- The option resets the monitoring port: a path-form option whose path
is the metrics toggle and whose value is the truthy literal. -/
def disablesMetrics (DisableMetricsForGKE arg : String) : Bool :=
  isPathForm arg && decide (pathOf arg = DisableMetricsForGKE) &&
    decide (pathValueOf arg = util.TrueStr)

/-- A rejected option, in the words of the specification: a path-form option whose
path is deny-listed, a flat-form option whose flag is deny-listed, or a
flat-form option of a bool flag with a non-empty value other than `true` and
`false`. -/
def isRejected (arg : String) : Bool :=
  if isPathForm arg then disallowedFlags (pathOf arg)
  else
    disallowedFlags (flagOf arg) ||
      (boolFlags (flagOf arg) && decide (valueOf arg ≠ "") &&
        decide (valueOf arg ≠ "true") && decide (valueOf arg ≠ "false"))

/-- Two loop states agree on what the option loop reads and on its outputs:
the cache directory, the two fields the loop fills in, and the two maps. -/
structure SameOutputs (st st' : LoopState) : Prop where
  cacheDir : st.mc.CacheDir = st'.mc.CacheDir
  identity : st.mc.TokenServerIdentityProvider = st'.mc.TokenServerIdentityProvider
  hostNetwork : st.mc.HostNetworkKSAOptIn = st'.mc.HostNetworkKSAOptIn
  flagMap : st.flagMap = st'.flagMap
  configFileFlagMap : st.configFileFlagMap = st'.configFileFlagMap

/-- An accepted flat-form option, in the words of the specification: not read in
path form, its flag not deny-listed, not the identity-provider or
host-network key, and not a bool flag with a value. -/
def isAcceptedFlat (arg : String) : Bool :=
  !isPathForm arg && !disallowedFlags (flagOf arg) &&
    decide (flagOf arg ≠ identityProviderFlag) &&
    decide (flagOf arg ≠ hostNetworkKSAOptInFlag) &&
    !(boolFlags (flagOf arg) && decide (valueOf arg ≠ ""))

/-- The value an accepted flat-form option stores under its flag: the text
after its first `=`, prefixed with `gke-gcs-fuse-csi-` for `app-name`. -/
def storedValue (arg : String) : String :=
  if flagOf arg = "app-name" then "gke-gcs-fuse-csi-" ++ valueOf arg else valueOf arg

/-- The keys of the map literal `flagMap` of `prepareMountArgs`. -/
def baselineFlagKeys : List String :=
  ["app-name", "temp-dir", "config-file", "foreground", "uid", "gid", "prometheus-port"]

/-- The keys of the map literal `configFileFlagMap` of `prepareMountArgs`. -/
def baselineConfigKeys : List String :=
  ["logging:file-path", "logging:format", "cache-dir"]

/-- A signed decimal integer, in the words of the specification: an optional sign
followed by one or more decimal digits; the result is the integer denoted,
of any size. -/
def signedDecimal (v : String) : Option Int :=
  match v.data with
  | [] => none
  | c :: cs =>
    if c = '+' then
      match strconv.parseDigits cs with
      | some n => some (n : Int)
      | none => none
    else if c = '-' then
      match strconv.parseDigits cs with
      | some n => some (-(n : Int))
      | none => none
    else
      match strconv.parseDigits (c :: cs) with
      | some n => some (n : Int)
      | none => none

/-- The colon-joined path of a segment sequence (the inverse of cutting a
key at its colons). -/
def joinSegments : List (List Char) → List Char
  | [] => []
  | [x] => x
  | x :: y :: rest => x ++ ':' :: joinSegments (y :: rest)

/-- The literals other than `1` and `0` that `strconv.ParseBool` accepts. -/
def boolWords : List String :=
  ["t", "T", "TRUE", "true", "True", "f", "F", "FALSE", "false", "False"]

/-- The keys under which a bool flag `b` can appear in the flat map: the
bare name and the two folded forms. -/
def IsBoolKey (k : String) : Prop :=
  ∃ b, boolFlags b = true ∧ (k = b ∨ k = b ++ "=true" ∨ k = b ++ "=false")

/-- The key a flat-form option of a bool flag writes: the bare flag when it
has no value, the option string `flag=value` otherwise. -/
def boolKeyOf (arg : String) : String :=
  if valueOf arg = "" then flagOf arg else flagOf arg ++ "=" ++ valueOf arg

/-- The option writes a folded bool key: a flat-form option of a bool flag
with the value `true` or `false`. -/
def IsFoldedBoolOption (arg : String) : Prop :=
  isPathForm arg = false ∧ boolFlags (flagOf arg) = true ∧
    (valueOf arg = "true" ∨ valueOf arg = "false")

/-- Every key of the flat map that contains `=` is bound to the empty
string and is one of the options `allowed`. -/
def FoldedKeysFrom (allowed : String → Prop) (st : LoopState) : Prop :=
  ∀ k x, '=' ∈ k.data → st.flagMap.get k = some x → x = "" ∧ allowed k

/-- A flat-form option whose flag is the identity-provider key. -/
def isIdentityOption (arg : String) : Bool :=
  !isPathForm arg && decide (flagOf arg = identityProviderFlag)

/-- A flat-form option whose flag is the host-network opt-in key. -/
def isHostNetworkOption (arg : String) : Bool :=
  !isPathForm arg && decide (flagOf arg = hostNetworkKSAOptInFlag)

/-- The option sets the cache directory: a path-form option, not the
metrics toggle, whose path is the file-cache size limit and whose value is
not `0`. -/
def enablesCache (DisableMetricsForGKE arg : String) : Bool :=
  isPathForm arg && decide (pathOf arg ≠ DisableMetricsForGKE) &&
    decide (pathOf arg = "file-cache:max-size-mb") && decide (pathValueOf arg ≠ "0")

/-- A size limit other than `0` in the config-file map comes with the cache
directory set. -/
def SizeLimitInv (st : LoopState) : Prop :=
  ∀ v, st.configFileFlagMap.get "file-cache:max-size-mb" = some v → v ≠ "0" →
    st.configFileFlagMap.get "cache-dir" = some st.mc.CacheDir

/-- The character is a decimal digit. -/
def IsDigit (c : Char) : Prop := '0' ≤ c ∧ c ≤ '9'

/-- The raw value is an optional sign followed by one or more decimal
digits, and `n` is the integer it denotes. -/
def DenotesInteger (v : String) (n : Int) : Prop :=
  ∃ sign digits : List Char, v.data = sign ++ digits ∧
    (sign = [] ∨ sign = ['+'] ∨ sign = ['-']) ∧
    digits ≠ [] ∧ (∀ c ∈ digits, IsDigit c) ∧
    n = if sign = ['-'] then -(strconv.digitsValue digits : Int)
        else (strconv.digitsValue digits : Int)

/-- The `gcs-auth` block of `prepareConfigFile`: the mapping with the one
entry `token-url`. -/
def authBlock (filepathJoin : String → String → String) (mc : MountConfig) : Level :=
  Level.set Level.empty "token-url"
    (Node.str ("unix://" ++ filepathJoin mc.TempDir "token.sock"))

/-- The condition under which `prepareConfigFile` adds the `gcs-auth`
block. -/
def addsAuthBlock (mc : MountConfig) : Prop :=
  mc.TokenServerIdentityProvider ≠ "" ∧ mc.HostNetworkKSAOptIn = true

/-- Go `filepath.Join` at two clean, non-empty elements: the elements joined
with a slash.  Used to evaluate the definitions on concrete inputs. -/
def slashJoin (a b : String) : String := a ++ "/" ++ b

/-- Options of a volume that sets a `gcs-auth` key in path form and turns on
the token server of the sidecar. -/
def authOptions : List String :=
  ["gcs-auth:anonymous-access:true", "token-server-identity-provider=provider", "hnw-ksa=true"]

/-- The `MountConfig` that `prepareMountArgs` leaves for `authOptions`. -/
def authConfig : MountConfig :=
  (prepareMountArgs "disable-metrics-for-gke" 62990 (exampleConfig authOptions)).mc

/-- The value that `placeTokens` leaves under the first token of a path,
from the value `x` found there before and the tokens `rest` after the
first: the typed leaf when `rest` is empty, the nested mapping with the rest
of the path placed otherwise; the error where `placeTokens` errs. -/
def slotOf (f v : String) (rest : List String) (x : Option Node) : Except ConfigError Node :=
  match rest with
  | [] =>
    match x with
    | some (Node.map _) => Except.error (ConfigError.invalidFlag f)
    | _ => Except.ok (typedLeaf v)
  | t2 :: ts =>
    match x with
    | none =>
      match placeTokens f v (t2 :: ts) Level.empty with
      | Except.ok next => Except.ok (Node.map next)
      | Except.error e => Except.error e
    | some (Node.map nextLevel) =>
      match placeTokens f v (t2 :: ts) nextLevel with
      | Except.ok next => Except.ok (Node.map next)
      | Except.error e => Except.error e
    | some _ => Except.error (ConfigError.invalidFlag f)

/-! ### NewMountConfig -/

/-- The fields of the JSON payload that `json.Unmarshal` stores into the
`MountConfig` (the fields not tagged `json:"-"`): `volumeName`, `bucketName`
and `options`, each present or not. -/
structure Payload where
  volumeName : Option String
  bucketName : Option String
  options : Option (List String)

/-- The message of one call of `mc.ErrWriter.WriteMsg` in `NewMountConfig`:
the format string of the call, with its arguments. -/
inductive Diagnostic where
  /-- The message `failed to connect to the socket %q: %v`. -/
  | connectFailed (sp err : String)
  /-- The message `failed to receive mount options from the socket %q: %v`. -/
  | receiveFailed (sp err : String)
  /-- The message `failed to unmarshal the mount config: %v`. -/
  | unmarshalFailed (err : String)
  /-- The message `failed to fetch bucket name from CSI driver`. -/
  | missingBucketName
  /-- The message `failed to create config file %q: %v`. -/
  | configFileFailed (configFile : String) (err : ConfigError)
deriving DecidableEq

/-- What `NewMountConfig` reads from outside this file: the constants of the
packages `util` and `webhook`, the path functions of `path/filepath`, and
the outcomes of `net.Dial`, `util.RecvMsg`, `json.Unmarshal`, and of
`yaml.Marshal` followed by `os.WriteFile`.  `dial sp` is the error of
`net.Dial("unix", sp)`, `none` when it connects; `recvMsg sp` is the file
descriptor and the message received on that connection, or the error;
`unmarshal msg` is the decoded payload, or the error; `rangeOrder m` is the
map `m` with its entries listed in the order in which a loop
`for f, v := range m` visits them, which Go leaves unspecified: any
permutation of the entries. -/
structure Externals where
  disableMetricsForGKE : String
  bufferVolumeMountPath : String
  cacheVolumeMountPath : String
  tmpVolumeMountPath : String
  filepathDir : String → String
  filepathBase : String → String
  filepathJoin : List String → String
  dial : String → Option String
  recvMsg : String → Except String (Int × String)
  unmarshal : String → Except String Payload
  rangeOrder : StrMap → StrMap
  persist : String → Level → Option ConfigError

/-- Modelled from the spec: each call of `mc.ErrWriter.WriteMsg` writes one
diagnostic message; `messages` holds the messages of the calls made, in
order.  `result` is the pointer returned (`none` for nil) and `port` the
value of the package variable `prometheusPort` on return. -/
structure NewMountConfigResult where
  result : Option MountConfig
  messages : List Diagnostic
  port : Int

/-- The composite literal `mc := MountConfig{...}` at the start of
`NewMountConfig`; the fields it leaves out have their zero values. -/
def initialConfig (ext : Externals) (sp : String) : MountConfig :=
  { FileDescriptor := 0
    VolumeName := ext.filepathBase (ext.filepathDir sp)
    BucketName := ""
    BufferDir := ext.filepathJoin
      [ext.bufferVolumeMountPath, ".volumes", ext.filepathBase (ext.filepathDir sp)]
    CacheDir := ext.filepathJoin
      [ext.cacheVolumeMountPath, ".volumes", ext.filepathBase (ext.filepathDir sp)]
    TempDir := ext.filepathDir sp
    ConfigFile := ext.filepathJoin
      [ext.tmpVolumeMountPath, ".volumes", ext.filepathBase (ext.filepathDir sp), "config.yaml"]
    Options := []
    FlagMap := StrMap.empty
    ConfigFileFlagMap := none
    TokenServerIdentityProvider := ""
    HostNetworkKSAOptIn := false }

/-- A successful `json.Unmarshal(msg, &mc)`: the fields present in the
payload are stored, the others are left as they were. -/
def applyPayload (mc : MountConfig) (p : Payload) : MountConfig :=
  { mc with
    VolumeName := p.volumeName.getD mc.VolumeName
    BucketName := p.bucketName.getD mc.BucketName
    Options := p.options.getD mc.Options }

/-- The `MountConfig` of `NewMountConfig` once the message is received and
decoded: `mc.FileDescriptor = fd`, then `json.Unmarshal(msg, &mc)`. -/
def decodedConfig (ext : Externals) (sp : String) (fd : Int) (p : Payload) : MountConfig :=
  applyPayload { initialConfig ext sp with FileDescriptor := fd } p

/-- The two statements `mc.prepareMountArgs()` and
`mergeFlags(mc.ConfigFileFlagMap, flagMapFromDriver)` of `NewMountConfig`:
the `MountConfig` they leave. -/
def preparedConfig (ext : Externals) (port : Int) (flagMapFromDriver : StrMap)
    (mc : MountConfig) : MountConfig :=
  { (prepareMountArgs ext.disableMetricsForGKE port mc).mc with
    ConfigFileFlagMap :=
      (prepareMountArgs ext.disableMetricsForGKE port mc).mc.ConfigFileFlagMap.map
        (fun m => (mergeFlags m flagMapFromDriver).1) }

/-- The `MountConfig` as the loop `for f, v := range mc.ConfigFileFlagMap`
of `prepareConfigFile` reads it: the config-file map with its entries in the
order in which `range` visits them. -/
def visitedConfig (rangeOrder : StrMap → StrMap) (mc : MountConfig) : MountConfig :=
  { mc with ConfigFileFlagMap := mc.ConfigFileFlagMap.map rangeOrder }

/-- Go `NewMountConfig`, with the package variable `prometheusPort` passed
in as `port`.  `prepareConfigFile` visits the entries of the config-file map
in the order `ext.rangeOrder`; the `MountConfig` returned is the one the
map belongs to.  Closing the connection, unlinking the socket and logging
leave no trace in the result. -/
def NewMountConfig (ext : Externals) (port : Int) (sp : String) (flagMapFromDriver : StrMap) :
    NewMountConfigResult :=
  match ext.dial sp with
  | some err =>
    { result := none, messages := [Diagnostic.connectFailed sp err], port := port }
  | none =>
    match ext.recvMsg sp with
    | Except.error err =>
      { result := none, messages := [Diagnostic.receiveFailed sp err], port := port }
    | Except.ok (fd, msg) =>
      match ext.unmarshal msg with
      | Except.error err =>
        { result := none, messages := [Diagnostic.unmarshalFailed err], port := port }
      | Except.ok payload =>
        if (decodedConfig ext sp fd payload).BucketName = "" then
          { result := none, messages := [Diagnostic.missingBucketName], port := port }
        else
          match prepareConfigFile (fun a b => ext.filepathJoin [a, b]) ext.persist
              (visitedConfig ext.rangeOrder
                (preparedConfig ext port flagMapFromDriver
                  (decodedConfig ext sp fd payload))) with
          | Except.error e =>
            { result := none
              messages := [Diagnostic.configFileFailed
                (preparedConfig ext port flagMapFromDriver
                  (decodedConfig ext sp fd payload)).ConfigFile e]
              port := (prepareMountArgs ext.disableMetricsForGKE port
                (decodedConfig ext sp fd payload)).port }
          | Except.ok _ =>
            { result := some (preparedConfig ext port flagMapFromDriver
                (decodedConfig ext sp fd payload))
              messages := []
              port := (prepareMountArgs ext.disableMetricsForGKE port
                (decodedConfig ext sp fd payload)).port }

/-- The fatal cases of `NewMountConfig`, in the words of the specification:
the socket dial fails, receiving the message fails, the payload does not
unmarshal, the decoded bucket name is empty, or `prepareConfigFile` returns
an error. -/
def FatalFailure (ext : Externals) (port : Int) (sp : String) (flagMapFromDriver : StrMap) :
    Prop :=
  (∃ err, ext.dial sp = some err) ∨
  (∃ err, ext.recvMsg sp = Except.error err) ∨
  (∃ fd msg, ext.recvMsg sp = Except.ok (fd, msg) ∧
    ((∃ err, ext.unmarshal msg = Except.error err) ∨
     (∃ p, ext.unmarshal msg = Except.ok p ∧
       ((decodedConfig ext sp fd p).BucketName = "" ∨
        ∃ e, prepareConfigFile (fun a b => ext.filepathJoin [a, b]) ext.persist
          (visitedConfig ext.rangeOrder
            (preparedConfig ext port flagMapFromDriver (decodedConfig ext sp fd p))) =
            Except.error e))))

/-- The same outside world, with the rejected options removed from the
options of every decoded payload. -/
def withoutRejected (ext : Externals) : Externals :=
  { ext with
    unmarshal := fun msg =>
      match ext.unmarshal msg with
      | Except.ok p =>
        Except.ok { p with options := p.options.map (List.filter (fun a => !isRejected a)) }
      | Except.error e => Except.error e }

/-- The same outside world, with `range` visiting the entries of a map in
the order `order`. -/
def withRangeOrder (ext : Externals) (order : StrMap → StrMap) : Externals :=
  { ext with rangeOrder := order }

/-- Two runs of `NewMountConfig` end the same way: both return nil or
neither does, and they write the same messages, except that two messages
for a collision in the config file may name different flags. -/
def SameOutcome (r r2 : NewMountConfigResult) : Prop :=
  (r.result = none ↔ r2.result = none) ∧
  (r.messages = r2.messages ∨
    ∃ file f1 f2,
      r.messages = [Diagnostic.configFileFailed file (ConfigError.invalidFlag f1)] ∧
      r2.messages = [Diagnostic.configFileFailed file (ConfigError.invalidFlag f2)])

/-- An outside world in which the socket `/gcsfuse-tmp/.volumes/vol/socket`
connects and delivers the bucket name `bucket` with the given options,
`range` visits the entries of a map last to first, and the config file is
written without error. -/
def exampleExternals (options : List String) : Externals :=
  { disableMetricsForGKE := "disable-metrics-for-gke"
    bufferVolumeMountPath := "/gcsfuse-buffer"
    cacheVolumeMountPath := "/gcsfuse-cache"
    tmpVolumeMountPath := "/gcsfuse-tmp"
    filepathDir := fun _ => "/gcsfuse-tmp/.volumes/vol"
    filepathBase := fun _ => "vol"
    filepathJoin := fun l => "/".intercalate l
    dial := fun _ => none
    recvMsg := fun _ => Except.ok (3, "")
    unmarshal := fun _ =>
      Except.ok { volumeName := none, bucketName := some "bucket", options := some options }
    rangeOrder := fun m => List.reverse m
    persist := fun _ _ => none }

end sidecarmounter

/-! # Theorems -/

/-! ## Maps: reads after writes -/

namespace StrMap

theorem get_set_self (m : StrMap) (k v : String) : (m.set k v).get k = some v := by
  induction m with
  | nil => simp [set, get]
  | cons e rest ih =>
    obtain ⟨k', v'⟩ := e
    by_cases h : k' = k
    · simp [set, get, h]
    · simp [set, get, h, ih]

theorem get_set_ne (m : StrMap) {k k' : String} (v : String) (h : k' ≠ k) :
    (m.set k v).get k' = m.get k' := by
  induction m with
  | nil => simp [set, get, Ne.symm h]
  | cons e rest ih =>
    obtain ⟨k0, v0⟩ := e
    by_cases h0 : k0 = k
    · subst h0
      simp [set, get, Ne.symm h]
    · by_cases h1 : k0 = k'
      · subst h1
        simp [set, get, h0]
      · simp [set, get, h0, h1, ih]

theorem get_set (m : StrMap) (k k' v : String) :
    (m.set k v).get k' = if k' = k then some v else m.get k' := by
  by_cases h : k' = k
  · subst h
    simp [get_set_self]
  · simp [h, get_set_ne m v h]

theorem has_set (m : StrMap) (k k' v : String) :
    (m.set k v).has k' = (decide (k' = k) || m.has k') := by
  unfold has
  rw [get_set]
  by_cases h : k' = k <;> simp [h]

end StrMap

/-! ## Strings: membership of a character -/

namespace strings

theorem data_append3 (a b c : String) : (a ++ b ++ c).data = a.data ++ b.data ++ c.data := by
  simp [String.data_append]

theorem indexAux_single_isSome (c : Char) (s : List Char) :
    (indexAux [c] s).isSome = true ↔ c ∈ s := by
  induction s with
  | nil => simp [indexAux]
  | cons x xs ih =>
    by_cases h : c = x
    · subst h
      simp [indexAux, List.isPrefixOf]
    · have hx : ¬ x = c := fun e => h e.symm
      simp [indexAux, List.isPrefixOf, h, hx, ← ih]

theorem contains_single_iff (s : String) (c : Char) :
    Contains s ⟨[c]⟩ = true ↔ c ∈ s.data := by
  unfold Contains Index
  rw [← indexAux_single_isSome]
  cases h : indexAux [c] s.data with
  | none => simp
  | some i => simp

end strings

namespace strings

theorem indexAux_single_none (c : Char) (s : List Char) (h : c ∉ s) :
    indexAux [c] s = none := by
  have := indexAux_single_isSome c s
  cases hi : indexAux [c] s with
  | none => rfl
  | some i => rw [hi] at this; exact absurd (this.1 rfl) h

theorem indexAux_single_append (c : Char) (a b : List Char) (h : c ∉ a) :
    indexAux [c] (a ++ c :: b) = some a.length := by
  induction a with
  | nil => simp [indexAux, List.isPrefixOf]
  | cons x xs ih =>
    have hx : ¬ c = x := fun e => h (by simp [e])
    have hxs : c ∉ xs := fun e => h (by simp [e])
    simp [indexAux, List.isPrefixOf, hx, ih hxs]

theorem lastIndexAux_single_none (c : Char) (s : List Char) (h : c ∉ s) :
    lastIndexAux [c] s = none := by
  induction s with
  | nil => simp [lastIndexAux]
  | cons x xs ih =>
    have hx : ¬ c = x := fun e => h (by simp [e])
    have hxs : c ∉ xs := fun e => h (by simp [e])
    simp [lastIndexAux, List.isPrefixOf, hx, ih hxs]

theorem lastIndexAux_single_append (c : Char) (a b : List Char) (h : c ∉ b) :
    lastIndexAux [c] (a ++ c :: b) = some a.length := by
  induction a with
  | nil => simp [lastIndexAux, List.isPrefixOf, lastIndexAux_single_none c b h]
  | cons x xs ih => simp [lastIndexAux, ih]

/-- Every list containing `c` splits at its last `c`. -/
theorem exists_last_split (c : Char) (s : List Char) (h : c ∈ s) :
    ∃ a b, s = a ++ c :: b ∧ c ∉ b := by
  induction s with
  | nil => simp at h
  | cons x xs ih =>
    by_cases hxs : c ∈ xs
    · obtain ⟨a, b, hab, hb⟩ := ih hxs
      exact ⟨x :: a, b, by simp [hab], hb⟩
    · have hx : c = x := by
        rcases List.mem_cons.1 h with e | e
        · exact e
        · exact absurd e hxs
      exact ⟨[], xs, by simp [hx], hxs⟩

/-- Every list containing `c` splits at its first `c`. -/
theorem exists_first_split (c : Char) (s : List Char) (h : c ∈ s) :
    ∃ a b, s = a ++ c :: b ∧ c ∉ a := by
  induction s with
  | nil => simp at h
  | cons x xs ih =>
    by_cases hx : c = x
    · exact ⟨[], xs, by simp [hx], by simp⟩
    · have hxs : c ∈ xs := by
        rcases List.mem_cons.1 h with e | e
        · exact absurd e hx
        · exact e
      obtain ⟨a, b, hab, ha⟩ := ih hxs
      refine ⟨x :: a, b, by simp [hab], ?_⟩
      intro hmem
      rcases List.mem_cons.1 hmem with e | e
      · exact hx e
      · exact ha e

/-- The path-form cut `arg[:i]`, `arg[i+1:]` at `i = LastIndex(arg, ":")`. -/
theorem lastColon_cut (arg : String) (a b : List Char)
    (hab : arg.data = a ++ ':' :: b) (hb : ':' ∉ b) :
    sliceTo arg (LastIndex arg ":") = ⟨a⟩ ∧
      sliceFrom arg (LastIndex arg ":" + 1) = ⟨b⟩ := by
  have hi : lastIndexAux (":" : String).data arg.data = some a.length := by
    rw [hab]
    exact lastIndexAux_single_append ':' a b hb
  unfold sliceTo sliceFrom LastIndex
  rw [hi]
  have h1 : ((a.length : Int) + 1).toNat = a.length + 1 := by omega
  simp only [Int.toNat_ofNat, h1, hab]
  constructor
  · simp
  · simp

/-- The flat-form cut `SplitN(arg, "=", 2)`: either no `=` and the one
piece `arg`, or the two pieces around the first `=`. -/
theorem splitN_eq_cases (arg : String) :
    ('=' ∉ arg.data ∧ SplitN arg "=" 2 = [arg]) ∨
    (∃ a b, arg.data = a ++ '=' :: b ∧ '=' ∉ a ∧ SplitN arg "=" 2 = [⟨a⟩, ⟨b⟩]) := by
  by_cases h : '=' ∈ arg.data
  · right
    obtain ⟨a, b, hab, ha⟩ := exists_first_split '=' arg.data h
    refine ⟨a, b, hab, ha, ?_⟩
    have hi : indexAux ['='] (a ++ '=' :: b) = some a.length :=
      indexAux_single_append '=' a b ha
    simp [SplitN, splitAux, hi, hab]
  · left
    refine ⟨h, ?_⟩
    have hi : indexAux ['='] arg.data = none :=
      indexAux_single_none '=' arg.data h
    simp [SplitN, splitAux, hi]

/-- The first piece of `SplitN(arg, "=", 2)` holds no `=`. -/
theorem splitN_head_no_eq (arg flag : String) (rest : List String)
    (h : SplitN arg "=" 2 = flag :: rest) : '=' ∉ flag.data := by
  rcases splitN_eq_cases arg with ⟨hno, he⟩ | ⟨a, b, _, ha, he⟩
  · rw [he] at h
    injection h with h1 _
    rw [← h1]
    exact hno
  · rw [he] at h
    injection h with h1 _
    rw [← h1]
    exact ha

end strings

namespace sidecarmounter

/-! ## The option loop: what one iteration can do -/

theorem disallowed_no_eq : ∀ d ∈ disallowedFlagNames, '=' ∉ d.data := by decide

theorem disallowedFlags_iff (d : String) :
    disallowedFlags d = true ↔ d ∈ disallowedFlagNames := by
  simp [disallowedFlags]

/-- A key that contains `=` is not deny-listed. -/
theorem disallowedFlags_of_eq_mem (k : String) (h : '=' ∈ k.data) :
    disallowedFlags k = false := by
  cases hd : disallowedFlags k with
  | false => rfl
  | true => exact absurd h (disallowed_no_eq k ((disallowedFlags_iff k).1 hd))

theorem folded_has_eq (flag value : String) : '=' ∈ (flag ++ "=" ++ value).data := by
  rw [strings.data_append3]
  simp

theorem processPathArg_effect (D : String) (st : LoopState) (arg f v : String) :
    Effect st (processPathArg D st arg f v) := by
  unfold processPathArg
  split_ifs with h2 h3 h4 h5 h5
  · exact Effect.port
  · exact Effect.none
  · rw [h5.1] at h4
    exact absurd h4 (by decide)
  · exact Effect.invalid arg
  · exact Effect.configCache f v (by simpa using h4)
  · exact Effect.config f v (by simpa using h4)

theorem processFlatArg_effect (st : LoopState) (arg flag value : String) :
    Effect st (processFlatArg st arg flag value) := by
  unfold processFlatArg
  split_ifs with h6 h7 h8 h9 h10 h11
  · exact Effect.invalid arg
  · exact Effect.identity value
  · exact Effect.hostNetwork _
  · exact Effect.flat _ _ (disallowedFlags_of_eq_mem _ (folded_has_eq _ _))
  · exact Effect.invalid _
  · exact Effect.flat _ _ (by simpa using h6)
  · exact Effect.flat _ _ (by simpa using h6)

theorem processArg_effect (D : String) (st : LoopState) (arg : String) :
    Effect st (processArg D st arg) := by
  unfold processArg
  split_ifs with h1
  · exact processPathArg_effect D st arg _ _
  · split
    · exact Effect.none
    · exact processFlatArg_effect st arg _ _
theorem runLoop_nil (D : String) (st : LoopState) : runLoop D st [] = st := rfl

theorem runLoop_cons (D : String) (st : LoopState) (arg : String) (args : List String) :
    runLoop D st (arg :: args) = runLoop D (processArg D st arg) args := rfl

theorem runLoop_append (D : String) (st : LoopState) (xs ys : List String) :
    runLoop D st (xs ++ ys) = runLoop D (runLoop D st xs) ys := by
  simp [runLoop, List.foldl_append]

/-- Loop invariants: what holds on entry and is kept by every iteration
holds on exit. -/
theorem runLoop_invariant (D : String) (P : LoopState → Prop)
    (hstep : ∀ st arg, P st → P (processArg D st arg))
    (args : List String) : ∀ st, P st → P (runLoop D st args) := by
  induction args with
  | nil => intro st h; exact h
  | cons a rest ih =>
    intro st h
    rw [runLoop_cons]
    exact ih _ (hstep st a h)

theorem ne_of_disallowed {d k : String} (hd : disallowedFlags d = true)
    (hk : disallowedFlags k = false) : d ≠ k := by
  intro e
  rw [e, hk] at hd
  exact Bool.noConfusion hd

theorem baseConfig_deny :
    ∀ d ∈ disallowedFlagNames, d ≠ "cache-dir" → baseConfigFileFlagMap.get d = none := by
  decide

theorem denyInv_init (port : Int) (mc : MountConfig) : DenyInv port mc (initLoop port mc) where
  cacheDir := rfl
  flat := fun _ _ _ => rfl
  port := Or.inl (by simp [initLoop, baseFlagMap, StrMap.get])
  config := fun d hd hne => baseConfig_deny d ((disallowedFlags_iff d).1 hd) hne
  cache := Or.inl (by decide : baseConfigFileFlagMap.get "cache-dir" = some "")

theorem denyInv_step (port : Int) (mc : MountConfig) (st st' : LoopState)
    (he : Effect st st') (h : DenyInv port mc st) : DenyInv port mc st' := by
  cases he with
  | none => exact h
  | port =>
    refine ⟨h.cacheDir, ?_, Or.inr (StrMap.get_set_self _ _ _), h.config, h.cache⟩
    intro d hd hne
    show (st.flagMap.set "prometheus-port" "0").get d = _
    rw [StrMap.get_set_ne _ _ hne]
    exact h.flat d hd hne
  | invalid x => exact ⟨h.cacheDir, h.flat, h.port, h.config, h.cache⟩
  | config f v hf =>
    refine ⟨h.cacheDir, h.flat, h.port, ?_, ?_⟩
    · intro d hd hne
      show (st.configFileFlagMap.set f v).get d = none
      rw [StrMap.get_set_ne _ _ (ne_of_disallowed hd hf)]
      exact h.config d hd hne
    · show (st.configFileFlagMap.set f v).get "cache-dir" = _ ∨
        (st.configFileFlagMap.set f v).get "cache-dir" = _
      rw [StrMap.get_set_ne _ _ (ne_of_disallowed (by decide) hf)]
      exact h.cache
  | configCache f v hf =>
    refine ⟨h.cacheDir, h.flat, h.port, ?_, ?_⟩
    · intro d hd hne
      show ((st.configFileFlagMap.set f v).set "cache-dir" st.mc.CacheDir).get d = none
      rw [StrMap.get_set_ne _ _ hne, StrMap.get_set_ne _ _ (ne_of_disallowed hd hf)]
      exact h.config d hd hne
    · right
      show ((st.configFileFlagMap.set f v).set "cache-dir" st.mc.CacheDir).get "cache-dir" = _
      rw [StrMap.get_set_self, h.cacheDir]
  | identity x => exact ⟨h.cacheDir, h.flat, h.port, h.config, h.cache⟩
  | hostNetwork b => exact ⟨h.cacheDir, h.flat, h.port, h.config, h.cache⟩
  | flat k v hk =>
    refine ⟨h.cacheDir, ?_, ?_, h.config, h.cache⟩
    · intro d hd hne
      show (st.flagMap.set k v).get d = _
      rw [StrMap.get_set_ne _ _ (ne_of_disallowed hd hk)]
      exact h.flat d hd hne
    · show (st.flagMap.set k v).get "prometheus-port" = _ ∨
        (st.flagMap.set k v).get "prometheus-port" = _
      rw [StrMap.get_set_ne _ _ (ne_of_disallowed (by decide) hk)]
      exact h.port

theorem denyInv_run (D : String) (port : Int) (mc : MountConfig) (args : List String) :
    DenyInv port mc (runLoop D (initLoop port mc) args) :=
  runLoop_invariant D (DenyInv port mc)
    (fun st arg h => denyInv_step port mc st _ (processArg_effect D st arg) h)
    args _ (denyInv_init port mc)

/-! ## C1: deny-listed keys -/

/-- C1: no option can introduce or change a deny-listed key.  For every
toggle name, counter value, `MountConfig` and deny-listed name `d`, after
`prepareMountArgs` the flat map binds `temp-dir` to `BufferDir + "/temp-dir"`,
`config-file` to `ConfigFile`, `foreground` to the empty string,
`prometheus-port` to the decimal counter value or to `0`, and has no entry
for any other deny-listed name; the config-file map has no deny-listed key
other than `cache-dir`, which it binds to the empty string or to `CacheDir`. -/
theorem C1_deny_listed_keys_keep_baseline (D : String) (port : Int) (mc : MountConfig)
    (d : String) (hd : disallowedFlags d = true) :
    (d = "temp-dir" →
      (prepareMountArgs D port mc).mc.FlagMap.get d = some (mc.BufferDir ++ "/temp-dir")) ∧
    (d = "config-file" →
      (prepareMountArgs D port mc).mc.FlagMap.get d = some mc.ConfigFile) ∧
    (d = "foreground" → (prepareMountArgs D port mc).mc.FlagMap.get d = some "") ∧
    (d = "prometheus-port" →
      (prepareMountArgs D port mc).mc.FlagMap.get d = some (strconv.Itoa port) ∨
      (prepareMountArgs D port mc).mc.FlagMap.get d = some "0") ∧
    (d ≠ "temp-dir" → d ≠ "config-file" → d ≠ "foreground" → d ≠ "prometheus-port" →
      (prepareMountArgs D port mc).mc.FlagMap.get d = none) ∧
    ∃ cm, (prepareMountArgs D port mc).mc.ConfigFileFlagMap = some cm ∧
      (d ≠ "cache-dir" → cm.get d = none) ∧
      (d = "cache-dir" → cm.get d = some "" ∨ cm.get d = some mc.CacheDir) := by
  have inv := denyInv_run D port mc mc.Options
  have hflat : ∀ k, disallowedFlags k = true → k ≠ "prometheus-port" →
      (prepareMountArgs D port mc).mc.FlagMap.get k = (baseFlagMap port mc).get k :=
    fun k hk hne => inv.flat k hk hne
  refine ⟨?_, ?_, ?_, ?_, ?_, _, rfl, inv.config d hd, ?_⟩
  · intro h
    subst h
    rw [hflat _ hd (by decide)]
    simp [baseFlagMap, StrMap.get, TempDir]
  · intro h
    subst h
    rw [hflat _ hd (by decide)]
    simp [baseFlagMap, StrMap.get]
  · intro h
    subst h
    rw [hflat _ hd (by decide)]
    simp [baseFlagMap, StrMap.get]
  · intro h
    subst h
    exact inv.port
  · intro h1 h2 h3 h4
    rw [hflat _ hd h4]
    have hmem := (disallowedFlags_iff d).1 hd
    simp only [disallowedFlagNames, List.mem_cons, List.mem_singleton, List.not_mem_nil,
      or_false] at hmem
    rcases hmem with h | h | h | h | h | h | h | h | h | h | h | h | h | h | h <;>
      first
        | exact absurd h h1
        | exact absurd h h2
        | exact absurd h h3
        | exact absurd h h4
        | (subst h; simp [baseFlagMap, StrMap.get])
  · intro h
    subst h
    exact inv.cache

/-- C1 at a concrete input: the option `temp-dir=/evil` leaves `temp-dir`
bound to the buffer directory path. -/
theorem C1_deny_listed_keys_witness :
    (prepareMountArgs "disable-metrics-for-gke" 62990
      (exampleConfig ["temp-dir=/evil", "cache-dir:/evil"])).mc.FlagMap.get "temp-dir" =
      some "/gcsfuse-buffer/.volumes/vol/temp-dir" :=
  (C1_deny_listed_keys_keep_baseline "disable-metrics-for-gke" 62990
    (exampleConfig ["temp-dir=/evil", "cache-dir:/evil"]) "temp-dir" (by decide)).1 rfl

/-! ## The document tree: following paths -/

theorem typedLeaf_asMap (v : String) : (typedLeaf v).asMap = none := by
  unfold typedLeaf
  split
  · rfl
  · split <;> rfl

theorem resolve_nil (cur : Level) : resolve [] cur = some (Node.map cur) := rfl

theorem resolve_cons_none {cur : Level} {t : String} (ts : List String) (h : cur t = none) :
    resolve (t :: ts) cur = none := by
  simp [resolve, h]

theorem resolve_cons_map {cur : Level} {t : String} {next : Level} (ts : List String)
    (h : cur t = some (Node.map next)) : resolve (t :: ts) cur = resolve ts next := by
  simp [resolve, h, Node.asMap]

theorem resolve_cons_leaf {cur : Level} {t : String} {x : Node} (ts : List String)
    (h : cur t = some x) (hx : x.asMap = none) :
    resolve (t :: ts) cur = if ts = [] then some x else none := by
  simp [resolve, h, hx]

theorem asMap_eq_some {x : Node} {m : Level} (h : x.asMap = some m) : x = Node.map m := by
  cases x <;> simp [Node.asMap] at h
  rw [h]

theorem resolve_empty (q : List String) (hq : q ≠ []) : resolve q Level.empty = none := by
  cases q with
  | nil => exact absurd rfl hq
  | cons t ts => exact resolve_cons_none ts rfl

/-! ## The document tree: placing one entry -/

theorem placeTokens_single_map (f v t : String) (cur m : Level)
    (h : cur t = some (Node.map m)) :
    placeTokens f v [t] cur = Except.error (ConfigError.invalidFlag f) := by
  simp [placeTokens, h]

theorem placeTokens_single_ok (f v t : String) (cur : Level)
    (h : ∀ x, cur t = some x → x.asMap = none) :
    placeTokens f v [t] cur = Except.ok (Level.set cur t (typedLeaf v)) := by
  cases hc : cur t with
  | none => simp [placeTokens, hc]
  | some x =>
    have hx := h x hc
    cases x with
    | map m => simp [Node.asMap] at hx
    | int n => simp [placeTokens, hc]
    | bool b => simp [placeTokens, hc]
    | str s => simp [placeTokens, hc]

theorem placeTokens_cons_none_ok (f v t t2 : String) (ts : List String) (cur next : Level)
    (h : cur t = none) (hrec : placeTokens f v (t2 :: ts) Level.empty = Except.ok next) :
    placeTokens f v (t :: t2 :: ts) cur =
      Except.ok (Level.set (Level.set cur t (Node.map Level.empty)) t (Node.map next)) := by
  simp [placeTokens, h, Level.set, hrec]

theorem placeTokens_cons_none_error (f v t t2 : String) (ts : List String) (cur : Level)
    (e : ConfigError)
    (h : cur t = none) (hrec : placeTokens f v (t2 :: ts) Level.empty = Except.error e) :
    placeTokens f v (t :: t2 :: ts) cur = Except.error e := by
  simp [placeTokens, h, Level.set, hrec]

theorem placeTokens_cons_map_ok (f v t t2 : String) (ts : List String)
    (cur nextLevel next : Level) (h : cur t = some (Node.map nextLevel))
    (hrec : placeTokens f v (t2 :: ts) nextLevel = Except.ok next) :
    placeTokens f v (t :: t2 :: ts) cur = Except.ok (Level.set cur t (Node.map next)) := by
  simp [placeTokens, h, hrec]

theorem placeTokens_cons_map_error (f v t t2 : String) (ts : List String)
    (cur nextLevel : Level) (e : ConfigError) (h : cur t = some (Node.map nextLevel))
    (hrec : placeTokens f v (t2 :: ts) nextLevel = Except.error e) :
    placeTokens f v (t :: t2 :: ts) cur = Except.error e := by
  simp [placeTokens, h, hrec]

theorem placeTokens_cons_leaf (f v t t2 : String) (ts : List String) (cur : Level) (x : Node)
    (h : cur t = some x) (hx : x.asMap = none) :
    placeTokens f v (t :: t2 :: ts) cur = Except.error (ConfigError.invalidFlag f) := by
  cases x with
  | map m => simp [Node.asMap] at hx
  | int n => simp [placeTokens, h]
  | bool b => simp [placeTokens, h]
  | str s => simp [placeTokens, h]

theorem properPrefix_cons_cons (a b : String) (p q : List String) :
    ProperPrefix (a :: p) (b :: q) ↔ a = b ∧ ProperPrefix p q := by
  unfold ProperPrefix
  rw [List.cons_prefix_cons]
  constructor
  · rintro ⟨⟨hab, hpq⟩, hne⟩
    refine ⟨hab, hpq, ?_⟩
    intro e
    exact hne (by rw [hab, e])
  · rintro ⟨hab, hpq, hne⟩
    refine ⟨⟨hab, hpq⟩, ?_⟩
    intro e
    injection e with _ e2
    exact hne e2

theorem not_properPrefix_nil (p : List String) : ¬ ProperPrefix p [] := by
  rintro ⟨h1, h2⟩
  exact h2 (List.prefix_nil.1 h1)

theorem properPrefix_nil_left (q : List String) : ProperPrefix [] q ↔ q ≠ [] := by
  unfold ProperPrefix
  constructor
  · rintro ⟨_, h⟩ e
    exact h e.symm
  · intro h
    exact ⟨List.nil_prefix, fun e => h e.symm⟩

theorem properPrefix_single (p : List String) (t : String) :
    ProperPrefix p [t] ↔ p = [] := by
  cases p with
  | nil => simp [properPrefix_nil_left]
  | cons a p' =>
    rw [properPrefix_cons_cons]
    simp [not_properPrefix_nil]

theorem isError_ok {ε α : Type} (a : α) : isError (Except.ok a : Except ε α) = false := rfl

theorem isError_error {ε α : Type} (e : ε) : isError (Except.error e : Except ε α) = true := rfl

/-- Placing an entry fails exactly when a proper prefix of its path ends
at a leaf or the path itself ends at a nested mapping. -/
theorem placeTokens_isError_iff (f v : String) :
    ∀ (toks : List String) (cur : Level), toks ≠ [] →
      (isError (placeTokens f v toks cur) = true ↔
        (∃ p, p ≠ [] ∧ ProperPrefix p toks ∧ LeafAt p cur) ∨ MapAt toks cur) := by
  intro toks
  induction toks with
  | nil => intro cur h; exact absurd rfl h
  | cons t ts ih =>
    intro cur _
    cases ts with
    | nil =>
      have hpre : ¬ ∃ p, p ≠ [] ∧ ProperPrefix p [t] ∧ LeafAt p cur := by
        rintro ⟨p, hp, hpp, _⟩
        exact hp ((properPrefix_single p t).1 hpp)
      cases hc : cur t with
      | none =>
        rw [placeTokens_single_ok f v t cur (by intro x hx; rw [hc] at hx; cases hx)]
        simp only [isError_ok, Bool.false_eq_true, false_iff, not_or]
        refine ⟨hpre, ?_⟩
        rintro ⟨m, hm⟩
        rw [resolve_cons_none [] hc] at hm
        cases hm
      | some x =>
        cases hx : x.asMap with
        | none =>
          rw [placeTokens_single_ok f v t cur
            (by intro y hy; rw [hc] at hy; injection hy with hy; rw [← hy]; exact hx)]
          simp only [isError_ok, Bool.false_eq_true, false_iff, not_or]
          refine ⟨hpre, ?_⟩
          rintro ⟨m, hm⟩
          rw [resolve_cons_leaf [] hc hx] at hm
          simp only [if_true] at hm
          injection hm with hm
          rw [hm] at hx
          simp [Node.asMap] at hx
        | some m =>
          have hxm := asMap_eq_some hx
          subst hxm
          rw [placeTokens_single_map f v t cur m hc]
          simp only [isError_error, true_iff]
          right
          exact ⟨m, by rw [resolve_cons_map [] hc, resolve_nil]⟩
    | cons t2 ts' =>
      cases hc : cur t with
      | none =>
        have hrec := ih Level.empty (by simp)
        have hok : isError (placeTokens f v (t2 :: ts') Level.empty) = false := by
          cases hb : isError (placeTokens f v (t2 :: ts') Level.empty) with
          | false => rfl
          | true =>
            rcases hrec.1 hb with ⟨p, hp, _, x, hx, _⟩ | ⟨m, hm⟩
            · rw [resolve_empty p hp] at hx
              cases hx
            · rw [resolve_empty _ (by simp)] at hm
              cases hm
        cases hr : placeTokens f v (t2 :: ts') Level.empty with
        | error e => rw [hr] at hok; cases hok
        | ok next =>
          rw [placeTokens_cons_none_ok f v t t2 ts' cur next hc hr]
          simp only [isError_ok, Bool.false_eq_true, false_iff, not_or]
          constructor
          · rintro ⟨p, hp, hpp, x, hx, _⟩
            cases p with
            | nil => exact hp rfl
            | cons s p' =>
              have hs := ((properPrefix_cons_cons s t p' _).1 hpp).1
              subst hs
              rw [resolve_cons_none p' hc] at hx
              cases hx
          · rintro ⟨m, hm⟩
            rw [resolve_cons_none _ hc] at hm
            cases hm
      | some x =>
        cases hx : x.asMap with
        | none =>
          rw [placeTokens_cons_leaf f v t t2 ts' cur x hc hx]
          simp only [isError_error, true_iff]
          left
          refine ⟨[t], by simp, ?_, x, ?_, hx⟩
          · rw [properPrefix_cons_cons]
            exact ⟨rfl, (properPrefix_nil_left _).2 (by simp)⟩
          · rw [resolve_cons_leaf [] hc hx]
            simp
        | some next =>
          have hxm := asMap_eq_some hx
          subst hxm
          have hrec := ih next (by simp)
          have hE : isError (placeTokens f v (t :: t2 :: ts') cur) =
              isError (placeTokens f v (t2 :: ts') next) := by
            cases hr : placeTokens f v (t2 :: ts') next with
            | ok n => rw [placeTokens_cons_map_ok f v t t2 ts' cur next n hc hr, isError_ok, isError_ok]
            | error e =>
              rw [placeTokens_cons_map_error f v t t2 ts' cur next e hc hr, isError_error]
          rw [hE, hrec]
          constructor
          · rintro (⟨p, hp, hpp, x, hx, hxl⟩ | ⟨m, hm⟩)
            · left
              refine ⟨t :: p, by simp, ?_, x, ?_, hxl⟩
              · rw [properPrefix_cons_cons]; exact ⟨rfl, hpp⟩
              · rw [resolve_cons_map p hc]; exact hx
            · right
              exact ⟨m, by rw [resolve_cons_map _ hc]; exact hm⟩
          · rintro (⟨p, hp, hpp, x, hx, hxl⟩ | ⟨m, hm⟩)
            · left
              cases p with
              | nil => exact absurd rfl hp
              | cons s p' =>
                obtain ⟨hs, hpp'⟩ := (properPrefix_cons_cons s t p' _).1 hpp
                subst hs
                rw [resolve_cons_map p' hc] at hx
                refine ⟨p', ?_, hpp', x, hx, hxl⟩
                intro e
                subst e
                rw [resolve_nil] at hx
                injection hx with hx
                rw [← hx] at hxl
                simp [Node.asMap] at hxl
            · right
              exact ⟨m, by rw [resolve_cons_map _ hc] at hm; exact hm⟩

theorem Level.set_self (m : Level) (t : String) (x : Node) : Level.set m t x t = some x := by
  simp [Level.set]

theorem Level.set_ne (m : Level) {t k : String} (x : Node) (h : k ≠ t) :
    Level.set m t x k = m k := by
  simp [Level.set, h]

theorem resolve_cons_congr {cur cur2 : Level} {s : String} (qs : List String)
    (h : cur s = cur2 s) : resolve (s :: qs) cur = resolve (s :: qs) cur2 := by
  simp [resolve, h]

theorem not_prefix_cons {s t : String} {qs ts : List String}
    (h : ¬ (s :: qs) <+: (t :: ts)) (hs : s = t) : ¬ qs <+: ts := by
  intro hp
  exact h (List.cons_prefix_cons.2 ⟨hs, hp⟩)

/-- After an entry is placed, its path ends at the typed value, every
proper prefix of the path ends at a nested mapping, and every path that is
not a prefix of it ends where it did before. -/
theorem placeTokens_ok_spec (f v : String) :
    ∀ (toks : List String) (cur cur' : Level), toks ≠ [] →
      placeTokens f v toks cur = Except.ok cur' →
      resolve toks cur' = some (typedLeaf v) ∧
      (∀ q, ProperPrefix q toks → MapAt q cur') ∧
      (∀ q, ¬ q <+: toks → resolve q cur' = resolve q cur) := by
  intro toks
  induction toks with
  | nil => intro cur cur' h; exact absurd rfl h
  | cons t ts ih =>
    intro cur cur' _ hok
    cases ts with
    | nil =>
      have hleaf : ∀ x, cur t = some x → x.asMap = none := by
        intro x hx
        cases hm : x.asMap with
        | none => rfl
        | some m =>
          have := asMap_eq_some hm
          subst this
          rw [placeTokens_single_map f v t cur m hx] at hok
          cases hok
      rw [placeTokens_single_ok f v t cur hleaf] at hok
      injection hok with hok
      subst hok
      refine ⟨?_, ?_, ?_⟩
      · rw [resolve_cons_leaf [] (Level.set_self cur t _) (typedLeaf_asMap v)]
        simp
      · intro q hq
        rw [(properPrefix_single q t).1 hq]
        exact ⟨_, resolve_nil _⟩
      · intro q hq
        cases q with
        | nil => exact absurd List.nil_prefix hq
        | cons s qs =>
          by_cases hs : s = t
          · subst hs
            have hqs : qs ≠ [] := by
              intro e
              subst e
              exact hq (List.prefix_refl _)
            rw [resolve_cons_leaf qs (Level.set_self cur s _) (typedLeaf_asMap v)]
            simp only [hqs, if_false]
            cases hc : cur s with
            | none => rw [resolve_cons_none qs hc]
            | some x =>
              rw [resolve_cons_leaf qs hc (hleaf x hc)]
              simp [hqs]
          · exact resolve_cons_congr qs (Level.set_ne cur _ hs)
    | cons t2 ts' =>
      -- the level below `t` before and after, and the level `cur'`
      have key : ∃ below next : Level, (cur t = none ∧ below = Level.empty ∨
            cur t = some (Node.map below)) ∧
          placeTokens f v (t2 :: ts') below = Except.ok next ∧
          cur' t = some (Node.map next) ∧ ∀ s, s ≠ t → cur' s = cur s := by
        cases hc : cur t with
        | none =>
          cases hr : placeTokens f v (t2 :: ts') Level.empty with
          | error e =>
            rw [placeTokens_cons_none_error f v t t2 ts' cur e hc hr] at hok
            cases hok
          | ok next =>
            rw [placeTokens_cons_none_ok f v t t2 ts' cur next hc hr] at hok
            injection hok with hok
            subst hok
            refine ⟨Level.empty, next, Or.inl ⟨rfl, rfl⟩, hr, Level.set_self _ _ _, ?_⟩
            intro s hs
            rw [Level.set_ne _ _ hs, Level.set_ne _ _ hs]
        | some x =>
          cases hx : x.asMap with
          | none =>
            rw [placeTokens_cons_leaf f v t t2 ts' cur x hc hx] at hok
            cases hok
          | some below =>
            have := asMap_eq_some hx
            subst this
            cases hr : placeTokens f v (t2 :: ts') below with
            | error e =>
              rw [placeTokens_cons_map_error f v t t2 ts' cur below e hc hr] at hok
              cases hok
            | ok next =>
              rw [placeTokens_cons_map_ok f v t t2 ts' cur below next hc hr] at hok
              injection hok with hok
              subst hok
              refine ⟨below, next, Or.inr rfl, hr, Level.set_self _ _ _, ?_⟩
              intro s hs
              rw [Level.set_ne _ _ hs]
      obtain ⟨below, next, hbelow, hr, hnext, hother⟩ := key
      obtain ⟨ha, hb, hc'⟩ := ih below next (by simp) hr
      refine ⟨?_, ?_, ?_⟩
      · rw [resolve_cons_map _ hnext]
        exact ha
      · intro q hq
        cases q with
        | nil => exact ⟨_, resolve_nil _⟩
        | cons s q' =>
          obtain ⟨hs, hq'⟩ := (properPrefix_cons_cons s t q' _).1 hq
          subst hs
          obtain ⟨m, hm⟩ := hb q' hq'
          exact ⟨m, by rw [resolve_cons_map _ hnext]; exact hm⟩
      · intro q hq
        cases q with
        | nil => exact absurd List.nil_prefix hq
        | cons s qs =>
          by_cases hs : s = t
          · subst hs
            have hqs := not_prefix_cons hq rfl
            rw [resolve_cons_map _ hnext, hc' qs hqs]
            rcases hbelow with ⟨hnone, hempty⟩ | hmap
            · rw [resolve_cons_none qs hnone, hempty]
              apply resolve_empty
              intro e
              subst e
              exact hqs List.nil_prefix
            · rw [resolve_cons_map qs hmap]
          · exact resolve_cons_congr qs (hother s hs)

/-! ## The document tree: the whole construction -/

theorem splitAux_ne_nil (sep : List Char) (k : Nat) (s : List Char) :
    strings.splitAux sep k s ≠ [] := by
  cases k with
  | zero => simp [strings.splitAux]
  | succ k =>
    unfold strings.splitAux
    split <;> simp

theorem segments_ne_nil (key : String) : segments key ≠ [] := by
  unfold segments strings.Split
  intro h
  exact splitAux_ne_nil _ _ _ (List.map_eq_nil_iff.1 h)

theorem not_leafAt_and_mapAt {q : List String} {cur : Level} (hl : LeafAt q cur)
    (hm : MapAt q cur) : False := by
  obtain ⟨x, hx, hxl⟩ := hl
  obtain ⟨m, hm⟩ := hm
  rw [hx] at hm
  injection hm with hm
  rw [hm] at hxl
  simp [Node.asMap] at hxl

theorem treeInv_empty : TreeInv Level.empty [] where
  nonempty := by simp
  leaf := by
    intro q hq
    simp only [List.not_mem_nil, iff_false]
    rintro ⟨x, hx, _⟩
    rw [resolve_empty q hq] at hx
    cases hx
  map := by
    intro q hq
    constructor
    · rintro ⟨m, hm⟩
      rw [resolve_empty q hq] at hm
      cases hm
    · rintro ⟨p, hp, _⟩
      simp at hp

theorem treeInv_no_collide {cur : Level} {paths : List (List String)}
    (h : TreeInv cur paths) : ¬ Collide paths := by
  rintro ⟨p, hp, q, hq, hpq⟩
  have hne := h.nonempty p hp
  exact not_leafAt_and_mapAt ((h.leaf p hne).2 hp) ((h.map p hne).2 ⟨q, hq, hpq⟩)

/-- With the document holding exactly `paths`, placing an entry fails
exactly when its path collides with one of them. -/
theorem placeTokens_error_iff_collide (f v : String) (toks : List String) (cur : Level)
    (paths : List (List String)) (h : TreeInv cur paths) (ht : toks ≠ []) :
    isError (placeTokens f v toks cur) = true ↔
      ∃ p ∈ paths, ProperPrefix p toks ∨ ProperPrefix toks p := by
  rw [placeTokens_isError_iff f v toks cur ht]
  constructor
  · rintro (⟨p, hp, hpp, hl⟩ | hm)
    · exact ⟨p, (h.leaf p hp).1 hl, Or.inl hpp⟩
    · obtain ⟨p, hp, hpp⟩ := (h.map toks ht).1 hm
      exact ⟨p, hp, Or.inr hpp⟩
  · rintro ⟨p, hp, hpp | hpp⟩
    · left
      exact ⟨p, h.nonempty p hp, hpp, (h.leaf p (h.nonempty p hp)).2 hp⟩
    · right
      exact (h.map toks ht).2 ⟨p, hp, hpp⟩

theorem treeInv_step (f v : String) (toks : List String) (cur cur' : Level)
    (paths : List (List String)) (h : TreeInv cur paths) (ht : toks ≠ [])
    (hok : placeTokens f v toks cur = Except.ok cur') : TreeInv cur' (toks :: paths) := by
  obtain ⟨ha, hb, hc⟩ := placeTokens_ok_spec f v toks cur cur' ht hok
  have hnoerr : ¬ ∃ p ∈ paths, ProperPrefix p toks ∨ ProperPrefix toks p := by
    rw [← placeTokens_error_iff_collide f v toks cur paths h ht, hok]
    simp [isError]
  have hleafToks : LeafAt toks cur' := ⟨_, ha, typedLeaf_asMap v⟩
  refine ⟨?_, ?_, ?_⟩
  · intro p hp
    rcases List.mem_cons.1 hp with e | e
    · rw [e]; exact ht
    · exact h.nonempty p e
  · intro q hq
    by_cases h1 : q = toks
    · subst h1
      simp [hleafToks]
    · by_cases h2 : q <+: toks
      · have hpp : ProperPrefix q toks := ⟨h2, h1⟩
        constructor
        · intro hl
          exact absurd (hb q hpp) (fun hm => not_leafAt_and_mapAt hl hm)
        · intro hmem
          rcases List.mem_cons.1 hmem with e | e
          · exact absurd e h1
          · exact absurd ⟨q, e, Or.inl hpp⟩ hnoerr
      · have hsame : LeafAt q cur' ↔ LeafAt q cur := by
          unfold LeafAt
          rw [hc q h2]
        rw [hsame, h.leaf q hq]
        simp [h1]
  · intro q hq
    by_cases h1 : q = toks
    · subst h1
      constructor
      · intro hm
        exact absurd hm (fun hm => not_leafAt_and_mapAt hleafToks hm)
      · rintro ⟨p, hp, hpp⟩
        rcases List.mem_cons.1 hp with e | e
        · exact absurd e.symm hpp.2
        · exact absurd ⟨p, e, Or.inr hpp⟩ hnoerr
    · by_cases h2 : q <+: toks
      · have hpp : ProperPrefix q toks := ⟨h2, h1⟩
        constructor
        · intro _
          exact ⟨toks, List.mem_cons_self _ _, hpp⟩
        · intro _
          exact hb q hpp
      · have hsame : MapAt q cur' ↔ MapAt q cur := by
          unfold MapAt
          rw [hc q h2]
        rw [hsame, h.map q hq]
        constructor
        · rintro ⟨p, hp, hpp⟩
          exact ⟨p, List.mem_cons_of_mem _ hp, hpp⟩
        · rintro ⟨p, hp, hpp⟩
          rcases List.mem_cons.1 hp with e | e
          · rw [e] at hpp
            exact absurd hpp.1 h2
          · exact ⟨p, e, hpp⟩

theorem collide_congr {A B : List (List String)} (h : ∀ x, x ∈ A ↔ x ∈ B) :
    Collide A ↔ Collide B := by
  unfold Collide
  constructor
  · rintro ⟨p, hp, q, hq, hpq⟩
    exact ⟨p, (h p).1 hp, q, (h q).1 hq, hpq⟩
  · rintro ⟨p, hp, q, hq, hpq⟩
    exact ⟨p, (h p).2 hp, q, (h q).2 hq, hpq⟩

theorem buildTree_cons_ok (f v : String) (rest : List (String × String)) (cur cur' : Level)
    (h : placeTokens f v (segments f) cur = Except.ok cur') :
    buildTree ((f, v) :: rest) cur = buildTree rest cur' := by
  unfold segments at h
  simp [buildTree, h]

theorem buildTree_cons_error (f v : String) (rest : List (String × String)) (cur : Level)
    (e : ConfigError) (h : placeTokens f v (segments f) cur = Except.error e) :
    buildTree ((f, v) :: rest) cur = Except.error e := by
  unfold segments at h
  simp [buildTree, h]

/-- Started from a document holding exactly `paths`, the construction fails
exactly when two of the paths, old or new, collide. -/
theorem buildTree_isError_iff :
    ∀ (entries : List (String × String)) (cur : Level) (paths : List (List String)),
      TreeInv cur paths →
      (isError (buildTree entries cur) = true ↔ Collide (paths ++ pathsOf entries)) := by
  intro entries
  induction entries with
  | nil =>
    intro cur paths h
    simp only [buildTree, isError_ok, Bool.false_eq_true, false_iff, pathsOf, List.map_nil,
      List.append_nil]
    exact treeInv_no_collide h
  | cons e rest ih =>
    intro cur paths h
    obtain ⟨f, v⟩ := e
    have ht := segments_ne_nil f
    cases hr : placeTokens f v (segments f) cur with
    | error err =>
      rw [buildTree_cons_error f v rest cur err hr]
      simp only [isError_error, true_iff]
      have hcol := (placeTokens_error_iff_collide f v (segments f) cur paths h ht).1
        (by rw [hr]; rfl)
      obtain ⟨p, hp, hpp⟩ := hcol
      have hp' : p ∈ paths ++ pathsOf ((f, v) :: rest) := List.mem_append_left _ hp
      have hf' : segments f ∈ paths ++ pathsOf ((f, v) :: rest) :=
        List.mem_append_right _ (by simp [pathsOf])
      rcases hpp with hpp | hpp
      · exact ⟨p, hp', segments f, hf', hpp⟩
      · exact ⟨segments f, hf', p, hp', hpp⟩
    | ok cur' =>
      rw [buildTree_cons_ok f v rest cur cur' hr,
        ih cur' (segments f :: paths) (treeInv_step f v (segments f) cur cur' paths h ht hr)]
      apply collide_congr
      intro x
      simp only [pathsOf, List.map_cons, List.mem_append, List.mem_cons]
      tauto

/-! ## C2: collision detection -/

theorem pathsOf_mem_iff (entries : List (String × String)) (p : List String) :
    p ∈ pathsOf entries ↔ ∃ k ∈ entries.map Prod.fst, segments k = p := by
  simp [pathsOf]

/-- C2: collision detection is complete and order-independent.  For every
config-file flag map `m` and every order `order` in which its entries are
visited, the tree construction of `prepareConfigFile` returns an error if and
only if `m` has two keys such that the colon-split segment sequence of one is
a proper prefix of that of the other; so the outcome is the same as for the
entries visited in any other order, here the order `m.entries`; and it is
the outcome of building the document of `prepareConfigFile`, whose later
steps before marshalling cannot fail. -/
theorem C2_collision_detection_complete (m : StrMap) (order : List (String × String))
    (horder : order.Perm m.entries) :
    (isError (buildTree order Level.empty) = true ↔
      ∃ k1 ∈ m.keys, ∃ k2 ∈ m.keys, ProperPrefix (segments k1) (segments k2)) ∧
    isError (buildTree order Level.empty) = isError (buildTree m.entries Level.empty) ∧
    (∀ (filepathJoin : String → String → String) (mc : MountConfig),
      mc.ConfigFileFlagMap = some m →
      isError (configDocument filepathJoin mc) = isError (buildTree m.entries Level.empty)) := by
  have key : ∀ l : List (String × String), l.Perm m.entries →
      (isError (buildTree l Level.empty) = true ↔
        ∃ k1 ∈ m.keys, ∃ k2 ∈ m.keys, ProperPrefix (segments k1) (segments k2)) := by
    intro l hl
    rw [buildTree_isError_iff l Level.empty [] treeInv_empty, List.nil_append]
    have hkeys : ∀ k, k ∈ l.map Prod.fst ↔ k ∈ m.keys := by
      intro k
      exact (hl.map Prod.fst).mem_iff
    unfold Collide
    constructor
    · rintro ⟨p, hp, q, hq, hpq⟩
      obtain ⟨k1, hk1, rfl⟩ := (pathsOf_mem_iff l p).1 hp
      obtain ⟨k2, hk2, rfl⟩ := (pathsOf_mem_iff l q).1 hq
      exact ⟨k1, (hkeys k1).1 hk1, k2, (hkeys k2).1 hk2, hpq⟩
    · rintro ⟨k1, hk1, k2, hk2, hpq⟩
      exact ⟨segments k1, (pathsOf_mem_iff l _).2 ⟨k1, (hkeys k1).2 hk1, rfl⟩,
        segments k2, (pathsOf_mem_iff l _).2 ⟨k2, (hkeys k2).2 hk2, rfl⟩, hpq⟩
  refine ⟨key order horder, ?_, ?_⟩
  swap
  · intro filepathJoin mc hmc
    unfold configDocument
    rw [hmc]
    simp only
    cases hb : buildTree m.entries Level.empty with
    | error e => rfl
    | ok doc =>
      simp only
      split_ifs <;> rfl
  have h1 := key order horder
  have h2 := key m.entries (List.Perm.refl _)
  cases hb : isError (buildTree m.entries Level.empty) with
  | true => exact h1.2 (h2.1 hb)
  | false =>
    cases hb' : isError (buildTree order Level.empty) with
    | false => rfl
    | true =>
      rw [h2.2 (h1.1 hb')] at hb
      cases hb

/-- C2 at the map with the entries `a:b = 1` and `a = x`: the construction
fails in both visit orders. -/
theorem C2_collision_detection_witness :
    isError (buildTree [("a", "x"), ("a:b", "1")] Level.empty) = true ∧
    isError (buildTree [("a:b", "1"), ("a", "x")] Level.empty) = true := by
  have hpp : ProperPrefix (segments "a") (segments "a:b") := by
    have h1 : segments "a" = ["a"] := by decide
    have h2 : segments "a:b" = ["a", "b"] := by decide
    rw [h1, h2]
    exact ⟨⟨["b"], rfl⟩, by decide⟩
  have hcol : ∃ k1 ∈ StrMap.keys [("a:b", "1"), ("a", "x")],
      ∃ k2 ∈ StrMap.keys [("a:b", "1"), ("a", "x")],
        ProperPrefix (segments k1) (segments k2) :=
    ⟨"a", by decide, "a:b", by decide, hpp⟩
  exact ⟨(C2_collision_detection_complete [("a:b", "1"), ("a", "x")]
      [("a", "x"), ("a:b", "1")] (List.Perm.swap _ _ _)).1.2 hcol,
    (C2_collision_detection_complete [("a:b", "1"), ("a", "x")]
      [("a:b", "1"), ("a", "x")] (List.Perm.refl _)).1.2 hcol⟩

/-! ## C4: merging the driver defaults -/

theorem StrMap.has_eq_false_iff (m : StrMap) (k : String) : m.has k = false ↔ m.get k = none := by
  unfold StrMap.has
  cases m.get k <;> simp

/-- A read of the merged map: the mount-config value when there is one, the
driver value otherwise. -/
theorem mergeFlags_get (d m : StrMap) (k : String) :
    (mergeFlags m d).1.get k =
      match m.get k with
      | some v => some v
      | none => d.get k := by
  unfold mergeFlags StrMap.entries
  simp only
  induction d generalizing m with
  | nil =>
    simp only [List.foldl_nil]
    cases m.get k <;> rfl
  | cons e rest ih =>
    obtain ⟨k0, v0⟩ := e
    simp only [List.foldl_cons]
    rw [ih]
    by_cases hhas : m.has k0 = true
    · simp only [hhas, if_true]
      cases hk : m.get k with
      | some v => rfl
      | none =>
        have hne : k0 ≠ k := by
          intro e
          subst e
          rw [(StrMap.has_eq_false_iff m k0).2 hk] at hhas
          cases hhas
        simp [StrMap.get, hne]
    · have hf : m.has k0 = false := by simpa using hhas
      have hnone : m.get k0 = none := (StrMap.has_eq_false_iff m k0).1 hf
      simp only [hf, Bool.false_eq_true, if_false]
      by_cases hk : k = k0
      · subst hk
        simp [StrMap.get_set_self, hnone, StrMap.get]
      · rw [StrMap.get_set_ne m v0 hk]
        have hk' : ¬ k0 = k := fun e => hk e.symm
        cases m.get k <;> simp [StrMap.get, hk']

/-- Merging defaults whose keys are all bound already changes nothing. -/
theorem mergeFlags_of_all_bound (d m : StrMap) (h : ∀ e ∈ d.entries, m.has e.1 = true) :
    (mergeFlags m d).1 = m := by
  unfold mergeFlags
  simp only
  unfold StrMap.entries at h ⊢
  induction d with
  | nil => rfl
  | cons e rest ih =>
    simp only [List.foldl_cons, h e (List.mem_cons_self _ _), if_true]
    exact ih (fun e' he' => h e' (List.mem_cons_of_mem _ he'))

theorem StrMap.get_of_mem (d : StrMap) (e : String × String) (h : e ∈ d.entries) :
    (d.get e.1).isSome = true := by
  unfold StrMap.entries at h
  induction d with
  | nil => simp at h
  | cons e0 rest ih =>
    obtain ⟨k0, v0⟩ := e0
    by_cases hk : k0 = e.1
    · simp [StrMap.get, hk]
    · rcases List.mem_cons.1 h with e1 | e1
      · rw [e1] at hk
        exact absurd rfl hk
      · simp only [StrMap.get, hk, if_false]
        exact ih e1

/-- C4: precedence of `mergeFlags`.  For all maps `m` (mount config) and `d`
(driver defaults), after `mergeFlags(m, d)` a key is bound in `m` exactly when
it was bound in `m` or is bound in `d`; every key that was in `m` keeps its
value, whatever `d` binds it to; every key only in `d` has the value of `d`;
`d` is unchanged; and merging `d` a second time changes nothing. -/
theorem C4_mergeFlags_precedence (m d : StrMap) :
    (∀ k, (mergeFlags m d).1.has k = (m.has k || d.has k)) ∧
    (∀ k v, m.get k = some v → (mergeFlags m d).1.get k = some v) ∧
    (∀ k, m.get k = none → (mergeFlags m d).1.get k = d.get k) ∧
    (mergeFlags m d).2 = d ∧
    mergeFlags (mergeFlags m d).1 (mergeFlags m d).2 = mergeFlags m d := by
  have hget := mergeFlags_get d m
  refine ⟨?_, ?_, ?_, rfl, ?_⟩
  · intro k
    unfold StrMap.has
    rw [hget k]
    cases m.get k <;> simp
  · intro k v hk
    rw [hget k, hk]
  · intro k hk
    rw [hget k, hk]
  · have h2 : (mergeFlags m d).2 = d := rfl
    have hall : ∀ e ∈ d.entries, (mergeFlags m d).1.has e.1 = true := by
      intro e he
      unfold StrMap.has
      rw [hget e.1]
      have := StrMap.get_of_mem d e he
      cases m.get e.1 with
      | some v => rfl
      | none => exact this
    rw [h2]
    apply Prod.ext
    · exact mergeFlags_of_all_bound d _ hall
    · rfl

/-! ## The option loop: the two branches -/

theorem processArg_path (D : String) (st : LoopState) (arg : String)
    (h : isPathForm arg = true) :
    processArg D st arg = processPathArg D st arg (pathOf arg) (pathValueOf arg) := by
  unfold isPathForm at h
  unfold processArg
  rw [if_pos h]
  rfl

theorem processArg_flat (D : String) (st : LoopState) (arg : String)
    (h : isPathForm arg = false) :
    processArg D st arg = processFlatArg st arg (flagOf arg) (valueOf arg) := by
  unfold isPathForm at h
  unfold processArg flagOf valueOf
  rw [if_neg (by rw [h]; exact Bool.false_ne_true)]
  rcases strings.splitN_eq_cases arg with ⟨_, he⟩ | ⟨a, b, _, _, he⟩ <;> rw [he]

/-- The flag and value of a flat-form option with no `=`. -/
theorem flagOf_valueOf_bare (arg : String) (h : '=' ∉ arg.data) :
    flagOf arg = arg ∧ valueOf arg = "" := by
  unfold flagOf valueOf
  rcases strings.splitN_eq_cases arg with ⟨_, he⟩ | ⟨a, b, hab, _, _⟩
  · rw [he]
    exact ⟨rfl, rfl⟩
  · rw [hab] at h
    exact absurd (by simp) h

/-- The flag and value of a flat-form option `flag=text`: the text before
and after its first `=`. -/
theorem flagOf_valueOf_pair (flag text : String) (h : '=' ∉ flag.data) :
    flagOf (flag ++ "=" ++ text) = flag ∧ valueOf (flag ++ "=" ++ text) = text := by
  have hdata : (flag ++ "=" ++ text).data = flag.data ++ '=' :: text.data := by
    rw [strings.data_append3]
    simp
  have hi : strings.indexAux ['='] (flag.data ++ '=' :: text.data) = some flag.data.length :=
    strings.indexAux_single_append '=' flag.data text.data h
  have hd : List.drop (flag.data.length + 1) (flag.data ++ '=' :: text.data) = text.data := by
    have h1 : flag.data ++ '=' :: text.data = (flag.data ++ ['=']) ++ text.data := by simp
    rw [h1]
    exact List.drop_left' (by simp)
  have hs : strings.SplitN (flag ++ "=" ++ text) "=" 2 = [flag, text] := by
    simp only [strings.SplitN, strings.splitAux, hdata]
    rw [hi]
    simp only [List.length_singleton, List.map_cons, List.map_nil, hd]
    simp
  unfold flagOf valueOf
  rw [hs]
  exact ⟨rfl, rfl⟩

theorem flagOf_no_eq (arg : String) : '=' ∉ (flagOf arg).data := by
  unfold flagOf
  cases hs : strings.SplitN arg "=" 2 with
  | nil => simp
  | cons flag rest => exact strings.splitN_head_no_eq arg flag rest hs

/-! ## C5: path form and flat form are exclusive -/

/-- C5: path-form and flat-form parsing are mutually exclusive per option.
Processing an option that contains `:` and does not contain `https` leaves
the flat map as it was or only sets `prometheus-port` to `0`, and changes
neither `TokenServerIdentityProvider` nor `HostNetworkKSAOptIn` (whether or
not the option contains `=`); processing an option that has no `:` or
contains `https` leaves the config-file map as it was. -/
theorem C5_path_and_flat_form_exclusive (D : String) (st : LoopState) (arg : String) :
    (strings.Contains arg ":" = true ∧ strings.Contains arg "https" = false →
      ((processArg D st arg).flagMap = st.flagMap ∨
        (processArg D st arg).flagMap = st.flagMap.set "prometheus-port" "0") ∧
      (processArg D st arg).mc.TokenServerIdentityProvider =
        st.mc.TokenServerIdentityProvider ∧
      (processArg D st arg).mc.HostNetworkKSAOptIn = st.mc.HostNetworkKSAOptIn) ∧
    (strings.Contains arg ":" = false ∨ strings.Contains arg "https" = true →
      (processArg D st arg).configFileFlagMap = st.configFileFlagMap) := by
  constructor
  · rintro ⟨h1, h2⟩
    have hp : isPathForm arg = true := by simp [isPathForm, h1, h2]
    rw [processArg_path D st arg hp]
    unfold processPathArg
    split_ifs <;> simp
  · intro h
    have hp : isPathForm arg = false := by
      rcases h with h | h <;> simp [isPathForm, h]
    rw [processArg_flat D st arg hp]
    unfold processFlatArg
    split_ifs <;> rfl

/-- C5 at concrete options: `a:b=c` has a `:` and an `=` and is stored in
the config-file map only, under the key before its last `:`; `x=https://h:1`
contains `https` and is stored in the flat map only. -/
theorem C5_path_and_flat_form_witness :
    (processArg "disable-metrics-for-gke" (initLoop 62990 (exampleConfig [])) "a:b=c").flagMap =
      baseFlagMap 62990 (exampleConfig []) ∧
    (processArg "disable-metrics-for-gke" (initLoop 62990 (exampleConfig []))
      "a:b=c").configFileFlagMap.get "a" = some "b=c" ∧
    (processArg "disable-metrics-for-gke" (initLoop 62990 (exampleConfig []))
      "x=https://h:1").configFileFlagMap = baseConfigFileFlagMap ∧
    (processArg "disable-metrics-for-gke" (initLoop 62990 (exampleConfig []))
      "x=https://h:1").flagMap.get "x" = some "https://h:1" := by
  refine ⟨?_, by decide, ?_, by decide⟩
  · rcases ((C5_path_and_flat_form_exclusive "disable-metrics-for-gke"
      (initLoop 62990 (exampleConfig [])) "a:b=c").1 ⟨by decide, by decide⟩).1 with h | h
    · exact h
    · exact absurd h (by decide)
  · exact (C5_path_and_flat_form_exclusive "disable-metrics-for-gke"
      (initLoop 62990 (exampleConfig [])) "x=https://h:1").2 (Or.inr (by decide))

/-! ## Decimal rendering -/

theorem digitChar_value : ∀ d < 10, (strconv.digitChar d).toNat - 48 = d := by decide

theorem digitsValue_digitsAux :
    ∀ (fuel n : Nat) (acc : List Char), n < 10 ^ fuel →
      strconv.digitsValue (strconv.digitsAux fuel n acc) =
        n * 10 ^ acc.length + strconv.digitsValue acc := by
  intro fuel
  induction fuel with
  | zero =>
    intro n acc h
    have hn : n = 0 := by simpa using h
    simp [strconv.digitsAux, hn]
  | succ fuel ih =>
    intro n acc h
    have hd : (strconv.digitChar (n % 10)).toNat - 48 = n % 10 :=
      digitChar_value (n % 10) (Nat.mod_lt _ (by decide))
    have hdiv : n / 10 < 10 ^ fuel := by
      rw [Nat.div_lt_iff_lt_mul (by decide)]
      calc n < 10 ^ (fuel + 1) := h
        _ = 10 ^ fuel * 10 := by ring
    have hmod : n = 10 * (n / 10) + n % 10 := (Nat.div_add_mod n 10).symm
    unfold strconv.digitsAux
    split_ifs with h0
    · simp only [strconv.digitsValue, hd]
      have : n % 10 = n := by omega
      rw [this]
    · rw [ih (n / 10) _ hdiv]
      simp only [strconv.digitsValue, hd, List.length_cons]
      have hp : 10 ^ (acc.length + 1) = 10 * 10 ^ acc.length := by ring
      rw [hp]
      calc n / 10 * (10 * 10 ^ acc.length) + (n % 10 * 10 ^ acc.length + strconv.digitsValue acc)
          = (10 * (n / 10) + n % 10) * 10 ^ acc.length + strconv.digitsValue acc := by ring
        _ = n * 10 ^ acc.length + strconv.digitsValue acc := by rw [← hmod]

/-- The decimal rendering of `n` denotes `n`. -/
theorem digitsValue_formatNat (n : Nat) : strconv.digitsValue (strconv.formatNat n).data = n := by
  unfold strconv.formatNat
  have h : n < 10 ^ (n + 1) := by
    calc n < 10 ^ n := Nat.lt_pow_self (by decide) n
      _ ≤ 10 ^ (n + 1) := Nat.pow_le_pow_right (by decide) (Nat.le_succ n)
  rw [digitsValue_digitsAux (n + 1) n [] h]
  simp [strconv.digitsValue]

theorem formatNat_injective {a b : Nat} (h : strconv.formatNat a = strconv.formatNat b) :
    a = b := by
  rw [← digitsValue_formatNat a, ← digitsValue_formatNat b, h]

/-- Distinct non-negative counters have distinct renderings. -/
theorem Itoa_ne_of_nonneg {a b : Int} (ha : 0 ≤ a) (hb : 0 ≤ b) (hab : a ≠ b) :
    strconv.Itoa a ≠ strconv.Itoa b := by
  obtain ⟨n, rfl⟩ := Int.eq_ofNat_of_zero_le ha
  obtain ⟨k, rfl⟩ := Int.eq_ofNat_of_zero_le hb
  intro h
  apply hab
  have : n = k := formatNat_injective h
  rw [this]

/-- Only the counter value zero renders as `0`. -/
theorem Itoa_ne_zero {a : Int} (ha : a ≠ 0) : strconv.Itoa a ≠ "0" := by
  cases a with
  | ofNat n =>
    intro h
    have h0 : strconv.formatNat 0 = "0" := by decide
    have hn : n = 0 := formatNat_injective (h.trans h0.symm)
    exact ha (by rw [hn]; rfl)
  | negSucc n =>
    intro h
    have hd : (strconv.Itoa (Int.negSucc n)).data = '-' :: (strconv.formatNat (n + 1)).data := by
      simp [strconv.Itoa, String.data_append]
    rw [h] at hd
    cases hd

/-! ## The monitoring port -/

theorem processFlatArg_port (st : LoopState) (arg flag value : String) :
    (processFlatArg st arg flag value).flagMap.get "prometheus-port" =
      st.flagMap.get "prometheus-port" := by
  have hfold : "prometheus-port" ≠ flag ++ "=" ++ value := by
    intro e
    have := folded_has_eq flag value
    rw [← e] at this
    exact absurd this (by decide)
  unfold processFlatArg
  split_ifs with h1 h2 h3 h4 h5 h6
  · rfl
  · rfl
  · rfl
  · exact StrMap.get_set_ne _ _ hfold
  · rfl
  · exact StrMap.get_set_ne _ _ (ne_of_disallowed (by decide) (by simpa using h1))
  · exact StrMap.get_set_ne _ _ (ne_of_disallowed (by decide) (by simpa using h1))

/-- One iteration sets the port flag to `0` when the option disables
metrics and leaves it as it was otherwise. -/
theorem processArg_port (D : String) (st : LoopState) (arg : String) :
    (processArg D st arg).flagMap.get "prometheus-port" =
      if disablesMetrics D arg = true then some "0" else st.flagMap.get "prometheus-port" := by
  cases hp : isPathForm arg with
  | false =>
    rw [processArg_flat D st arg hp, processFlatArg_port]
    simp [disablesMetrics, hp]
  | true =>
    rw [processArg_path D st arg hp]
    unfold processPathArg disablesMetrics
    rw [hp]
    by_cases h1 : pathOf arg = D
    · by_cases h2 : pathValueOf arg = util.TrueStr
      · simp [h1, h2, StrMap.get_set_self]
      · simp [h1, h2]
    · simp only [h1, if_false, decide_False, Bool.and_false, Bool.false_and, Bool.false_eq_true]
      split_ifs <;> rfl

theorem runLoop_port (D : String) (args : List String) :
    ∀ st : LoopState, (runLoop D st args).flagMap.get "prometheus-port" =
      if args.any (disablesMetrics D) = true then some "0"
      else st.flagMap.get "prometheus-port" := by
  induction args with
  | nil => intro st; simp [runLoop_nil]
  | cons a rest ih =>
    intro st
    rw [runLoop_cons, ih, processArg_port]
    by_cases h1 : rest.any (disablesMetrics D) = true
    · simp [h1]
    · by_cases h2 : disablesMetrics D a = true
      · simp [h1, h2]
      · simp [h1, h2]

theorem initLoop_port (port : Int) (mc : MountConfig) :
    (initLoop port mc).flagMap.get "prometheus-port" = some (strconv.Itoa port) := by
  simp [initLoop, baseFlagMap, StrMap.get]

/-- An option disables metrics exactly when it is the toggle name followed
by `:true` and is read in path form. -/
theorem disablesMetrics_iff (D arg : String) :
    disablesMetrics D arg = true ↔ arg = D ++ ":true" ∧ isPathForm arg = true := by
  have htrue : ':' ∉ ("true" : String).data := by decide
  constructor
  · intro h
    simp only [disablesMetrics, Bool.and_eq_true, decide_eq_true_eq] at h
    obtain ⟨⟨hp, hf⟩, hv⟩ := h
    refine ⟨?_, hp⟩
    have hc : strings.Contains arg ":" = true := by
      simp only [isPathForm, Bool.and_eq_true] at hp
      exact hp.1
    have hmem : ':' ∈ arg.data := (strings.contains_single_iff arg ':').1 hc
    obtain ⟨a, b, hab, hb⟩ := strings.exists_last_split ':' arg.data hmem
    obtain ⟨h1, h2⟩ := strings.lastColon_cut arg a b hab hb
    have hD : D = ⟨a⟩ := by rw [← hf]; exact h1
    have hV : (⟨b⟩ : String) = "true" := by rw [← h2]; exact hv
    apply String.ext
    have hb' : b = ("true" : String).data := by rw [← hV]
    rw [hab, String.data_append, hD, hb']
  · rintro ⟨harg, hp⟩
    have hab : arg.data = D.data ++ ':' :: ("true" : String).data := by
      rw [harg, String.data_append]
    obtain ⟨h1, h2⟩ := strings.lastColon_cut arg D.data _ hab htrue
    simp only [disablesMetrics, Bool.and_eq_true, decide_eq_true_eq]
    exact ⟨⟨hp, h1⟩, h2⟩

theorem wrapInt_of_range (n : Int) (hlo : -2 ^ 63 ≤ n) (hhi : n < 2 ^ 63) : wrapInt n = n := by
  unfold wrapInt
  have h1 : (n + 2 ^ 63) % 2 ^ 64 = n + 2 ^ 63 :=
    Int.emod_eq_of_lt (by omega) (by omega)
  rw [h1]
  ring

/-! ## C6 and C7: allocation of the monitoring port -/

theorem prepareMountArgs_port_flag (D : String) (port : Int) (mc : MountConfig) :
    (prepareMountArgs D port mc).mc.FlagMap.get "prometheus-port" =
      if mc.Options.any (disablesMetrics D) = true then some "0"
      else some (strconv.Itoa port) := by
  show (runLoop D (initLoop port mc) mc.Options).flagMap.get "prometheus-port" = _
  rw [runLoop_port, initLoop_port]

theorem any_disables_eq_false (D : String) (args : List String)
    (h : ∀ arg ∈ args, disablesMetrics D arg = false) :
    args.any (disablesMetrics D) = false := by
  rw [List.any_eq_false]
  intro a ha
  rw [h a ha]
  exact Bool.false_ne_true

/-- C6: monitoring-port allocation.  For a counter value `port` reachable
from its initial value `prometheusPort` before a 64-bit `int` wraps, every run of
`prepareMountArgs`, whatever its options, leaves the counter at `port + 1`,
so a second run leaves it at `port + 2`; and when neither of two sequential
runs has an option that disables metrics, their `prometheus-port` flags are
the decimal renderings of `port` and `port + 1`, which are distinct strings
of strictly increasing numbers. -/
theorem C6_port_counter_increments (D : String) (port : Int) (mc1 mc2 : MountConfig)
    (hlo : prometheusPort ≤ port) (hhi : port + 2 < 2 ^ 63) :
    (prepareMountArgs D port mc1).port = port + 1 ∧
    (prepareMountArgs D (prepareMountArgs D port mc1).port mc2).port = port + 2 ∧
    ((∀ arg ∈ mc1.Options, disablesMetrics D arg = false) →
      (∀ arg ∈ mc2.Options, disablesMetrics D arg = false) →
      (prepareMountArgs D port mc1).mc.FlagMap.get "prometheus-port" =
        some (strconv.Itoa port) ∧
      (prepareMountArgs D (prepareMountArgs D port mc1).port mc2).mc.FlagMap.get
        "prometheus-port" = some (strconv.Itoa (port + 1)) ∧
      strconv.Itoa port ≠ strconv.Itoa (port + 1) ∧
      port < port + 1) := by
  have hlo' : (62990 : Int) ≤ port := hlo
  have h1 : (prepareMountArgs D port mc1).port = port + 1 :=
    wrapInt_of_range (port + 1) (by omega) (by omega)
  have h2 : (prepareMountArgs D (port + 1) mc2).port = port + 2 := by
    show wrapInt (port + 1 + 1) = port + 2
    rw [wrapInt_of_range (port + 1 + 1) (by omega) (by omega)]
    ring
  refine ⟨h1, by rw [h1]; exact h2, ?_⟩
  intro hd1 hd2
  refine ⟨?_, ?_, Itoa_ne_of_nonneg (by omega) (by omega) (by omega), by omega⟩
  · rw [prepareMountArgs_port_flag, any_disables_eq_false D _ hd1]
    simp
  · rw [h1, prepareMountArgs_port_flag, any_disables_eq_false D _ hd2]
    simp

/-- C6 at the initial counter value: two sequential runs, the first with a
metrics-unrelated option, get the ports 62990 and 62991 and leave the
counter at 62992. -/
theorem C6_port_counter_witness :
    (prepareMountArgs "disable-metrics-for-gke" 62990 (exampleConfig ["uid=1000"])).port
      = 62990 + 1 ∧
    (prepareMountArgs "disable-metrics-for-gke"
      (prepareMountArgs "disable-metrics-for-gke" 62990 (exampleConfig ["uid=1000"])).port
      (exampleConfig [])).port = 62990 + 2 ∧
    (prepareMountArgs "disable-metrics-for-gke" 62990
      (exampleConfig ["uid=1000"])).mc.FlagMap.get "prometheus-port" =
        some (strconv.Itoa 62990) ∧
    (prepareMountArgs "disable-metrics-for-gke"
      (prepareMountArgs "disable-metrics-for-gke" 62990 (exampleConfig ["uid=1000"])).port
      (exampleConfig [])).mc.FlagMap.get "prometheus-port" = some (strconv.Itoa (62990 + 1)) ∧
    strconv.Itoa 62990 = "62990" ∧ strconv.Itoa (62990 + 1) = "62991" := by
  have h := C6_port_counter_increments "disable-metrics-for-gke" 62990
    (exampleConfig ["uid=1000"]) (exampleConfig []) (by decide) (by decide)
  have h3 := h.2.2 (by decide) (by decide)
  exact ⟨h.1, h.2.1, h3.1, h3.2.1, by decide, by decide⟩

/-- C7: a metrics-disable option forces the port to `0`.  For a counter
value other than zero (the counter starts at 62990 and only grows), the
`prometheus-port` flag after `prepareMountArgs` is `0` if and only if some
option of the list, at any position, is the toggle name followed by `:true`
read in path form; otherwise it is the decimal rendering of the counter
value at the start of the run. -/
theorem C7_metrics_disable_forces_port_zero (D : String) (port : Int) (mc : MountConfig)
    (hport : port ≠ 0) :
    ((prepareMountArgs D port mc).mc.FlagMap.get "prometheus-port" = some "0" ↔
      ∃ arg ∈ mc.Options, arg = D ++ ":true" ∧ isPathForm arg = true) ∧
    ((¬ ∃ arg ∈ mc.Options, arg = D ++ ":true" ∧ isPathForm arg = true) →
      (prepareMountArgs D port mc).mc.FlagMap.get "prometheus-port" =
        some (strconv.Itoa port)) := by
  have hany : mc.Options.any (disablesMetrics D) = true ↔
      ∃ arg ∈ mc.Options, arg = D ++ ":true" ∧ isPathForm arg = true := by
    rw [List.any_eq_true]
    constructor
    · rintro ⟨a, ha, hd⟩
      exact ⟨a, ha, (disablesMetrics_iff D a).1 hd⟩
    · rintro ⟨a, ha, hd⟩
      exact ⟨a, ha, (disablesMetrics_iff D a).2 hd⟩
  rw [prepareMountArgs_port_flag, ← hany]
  cases h : mc.Options.any (disablesMetrics D) with
  | true => simp
  | false =>
    have hne := Itoa_ne_zero hport
    simp [hne]

/-- C7 at a concrete input: the toggle between two other options forces the
port flag to `0` at counter value 62990. -/
theorem C7_metrics_disable_witness :
    (prepareMountArgs "disable-metrics-for-gke" 62990
      (exampleConfig ["uid=1", "disable-metrics-for-gke:true", "gid=2"])).mc.FlagMap.get
        "prometheus-port" = some "0" :=
  (C7_metrics_disable_forces_port_zero "disable-metrics-for-gke" 62990
    (exampleConfig ["uid=1", "disable-metrics-for-gke:true", "gid=2"]) (by decide)).1.2
    ⟨"disable-metrics-for-gke:true", by decide, by decide, by decide⟩

/-! ## C8: rejected options are dropped, nothing else -/

theorem boolFlags_not_special :
    ∀ b ∈ boolFlagNames, b ≠ identityProviderFlag ∧ b ≠ hostNetworkKSAOptInFlag ∧
      b ≠ "app-name" ∧ disallowedFlags b = false := by
  decide

theorem boolFlags_iff (b : String) : boolFlags b = true ↔ b ∈ boolFlagNames := by
  simp [boolFlags]

/-- A flat-form option with a non-empty value is its flag, `=`, its value. -/
theorem flag_eq_value (arg : String) (h : valueOf arg ≠ "") :
    flagOf arg ++ "=" ++ valueOf arg = arg := by
  rcases strings.splitN_eq_cases arg with ⟨hno, _⟩ | ⟨a, b, hab, _, he⟩
  · exact absurd (flagOf_valueOf_bare arg hno).2 h
  · unfold flagOf valueOf
    rw [he]
    apply String.ext
    rw [strings.data_append3, hab]
    simp [flatValue]

theorem processPathArg_sameOutputs (D : String) (st st' : LoopState) (arg f v : String)
    (h : SameOutputs st st') :
    SameOutputs (processPathArg D st arg f v) (processPathArg D st' arg f v) := by
  obtain ⟨h1, h2, h3, h4, h5⟩ := h
  unfold processPathArg
  split_ifs <;> constructor <;> simp only [h1, h2, h3, h4, h5]

theorem processFlatArg_sameOutputs (st st' : LoopState) (arg flag value : String)
    (h : SameOutputs st st') :
    SameOutputs (processFlatArg st arg flag value) (processFlatArg st' arg flag value) := by
  obtain ⟨h1, h2, h3, h4, h5⟩ := h
  unfold processFlatArg
  split_ifs <;> constructor <;> simp only [h1, h2, h3, h4, h5]

theorem processArg_sameOutputs (D : String) (st st' : LoopState) (arg : String)
    (h : SameOutputs st st') :
    SameOutputs (processArg D st arg) (processArg D st' arg) := by
  cases hp : isPathForm arg with
  | true =>
    rw [processArg_path D st arg hp, processArg_path D st' arg hp]
    exact processPathArg_sameOutputs D st st' arg _ _ h
  | false =>
    rw [processArg_flat D st arg hp, processArg_flat D st' arg hp]
    exact processFlatArg_sameOutputs st st' arg _ _ h

/-- A rejected option is recorded as invalid and has no other effect. -/
theorem processArg_rejected (D : String) (hD : disallowedFlags D = false) (st : LoopState)
    (arg : String) (h : isRejected arg = true) :
    processArg D st arg = { st with invalidArgs := st.invalidArgs ++ [arg] } := by
  unfold isRejected at h
  cases hp : isPathForm arg with
  | true =>
    rw [hp] at h
    simp only [if_true] at h
    rw [processArg_path D st arg hp]
    unfold processPathArg
    have h1 : pathOf arg ≠ D := ne_of_disallowed h hD
    have h2 : ¬ (pathOf arg = "file-cache:max-size-mb" ∧ pathValueOf arg ≠ "0") := by
      rintro ⟨e, _⟩
      rw [e] at h
      exact absurd h (by decide)
    simp only [h1, h, h2, if_true, if_false]
  | false =>
    rw [hp] at h
    simp only [Bool.false_eq_true, if_false, Bool.or_eq_true, Bool.and_eq_true,
      decide_eq_true_eq] at h
    rw [processArg_flat D st arg hp]
    unfold processFlatArg
    rcases h with h | ⟨⟨⟨hb, hv⟩, ht⟩, hf⟩
    · simp only [h, if_true]
    · obtain ⟨n1, n2, _, n4⟩ := boolFlags_not_special _ ((boolFlags_iff _).1 hb)
      have hcond : boolFlags (flagOf arg) = true ∧ valueOf arg ≠ "" := ⟨hb, hv⟩
      have hlit : ¬ (valueOf arg = util.TrueStr ∨ valueOf arg = util.FalseStr) := by
        rintro (e | e)
        · exact ht e
        · exact hf e
      rw [if_neg (by rw [n4]; exact Bool.false_ne_true), if_neg n1, if_neg n2, if_pos hcond,
        if_neg hlit, flag_eq_value arg hv]

/-- An option that is not rejected is not recorded as invalid. -/
theorem processArg_accepted (D : String) (st : LoopState) (arg : String)
    (h : isRejected arg = false) :
    (processArg D st arg).invalidArgs = st.invalidArgs := by
  unfold isRejected at h
  cases hp : isPathForm arg with
  | true =>
    rw [hp] at h
    simp only [if_true] at h
    rw [processArg_path D st arg hp]
    unfold processPathArg
    simp only [h, Bool.false_eq_true, if_false]
    split_ifs <;> rfl
  | false =>
    rw [hp] at h
    simp only [Bool.false_eq_true, if_false, Bool.or_eq_false_iff] at h
    obtain ⟨hd, hb⟩ := h
    rw [processArg_flat D st arg hp]
    unfold processFlatArg
    simp only [hd, Bool.false_eq_true, if_false]
    split_ifs with h1 h2 h3 h4 h5
    · rfl
    · rfl
    · rfl
    · exfalso
      have : (boolFlags (flagOf arg) && decide (valueOf arg ≠ "") &&
          decide (valueOf arg ≠ "true") && decide (valueOf arg ≠ "false")) = true := by
        simp only [Bool.and_eq_true, decide_eq_true_eq]
        exact ⟨⟨⟨h3.1, h3.2⟩, fun e => h4 (Or.inl e)⟩, fun e => h4 (Or.inr e)⟩
      rw [hb] at this
      cases this
    · rfl
    · rfl

/-- The option loop on a list and on the list without its rejected options:
same outputs, and the invalid options recorded are the rejected ones. -/
theorem runLoop_filter_rejected (D : String) (hD : disallowedFlags D = false)
    (args : List String) :
    ∀ st st' : LoopState, SameOutputs st st' →
      SameOutputs (runLoop D st args)
        (runLoop D st' (args.filter (fun a => !isRejected a))) ∧
      (runLoop D st args).invalidArgs = st.invalidArgs ++ args.filter isRejected ∧
      (runLoop D st' (args.filter (fun a => !isRejected a))).invalidArgs = st'.invalidArgs := by
  induction args with
  | nil =>
    intro st st' h
    exact ⟨h, by simp [runLoop_nil], rfl⟩
  | cons a rest ih =>
    intro st st' h
    cases hr : isRejected a with
    | true =>
      have hstep := processArg_rejected D hD st a hr
      have hsame : SameOutputs (processArg D st a) st' := by
        rw [hstep]
        exact ⟨h.1, h.2, h.3, h.4, h.5⟩
      obtain ⟨i1, i2, i3⟩ := ih (processArg D st a) st' hsame
      simp only [List.filter_cons, hr, Bool.not_true, Bool.false_eq_true, if_false, if_true,
        runLoop_cons]
      refine ⟨i1, ?_, i3⟩
      rw [i2, hstep]
      simp
    | false =>
      have hsame := processArg_sameOutputs D st st' a h
      obtain ⟨i1, i2, i3⟩ := ih (processArg D st a) (processArg D st' a) hsame
      simp only [List.filter_cons, hr, Bool.not_false, Bool.false_eq_true, if_false, if_true,
        runLoop_cons]
      refine ⟨i1, ?_, ?_⟩
      · rw [i2, processArg_accepted D st a hr]
      · rw [i3, processArg_accepted D st' a hr]

/-- C8: invalid options are tolerated and dropped.  `prepareMountArgs` is a
total function (it has no failure result), and for every option list, with
the metrics toggle not deny-listed, its outputs (flat map, config-file map,
identity provider, host-network opt-in) equal the outputs for the same list
with the rejected options removed; the options it records as invalid are
the rejected ones, in order, and the list without them records none. -/
theorem C8_invalid_options_are_dropped (D : String) (port : Int) (mc : MountConfig)
    (hD : disallowedFlags D = false) :
    (prepareMountArgs D port mc).mc.FlagMap =
      (prepareMountArgs D port
        { mc with Options := mc.Options.filter (fun a => !isRejected a) }).mc.FlagMap ∧
    (prepareMountArgs D port mc).mc.ConfigFileFlagMap =
      (prepareMountArgs D port
        { mc with Options := mc.Options.filter (fun a => !isRejected a) }).mc.ConfigFileFlagMap ∧
    (prepareMountArgs D port mc).mc.TokenServerIdentityProvider =
      (prepareMountArgs D port
        { mc with Options := mc.Options.filter (fun a => !isRejected a) }).mc.TokenServerIdentityProvider ∧
    (prepareMountArgs D port mc).mc.HostNetworkKSAOptIn =
      (prepareMountArgs D port
        { mc with Options := mc.Options.filter (fun a => !isRejected a) }).mc.HostNetworkKSAOptIn ∧
    (prepareMountArgs D port mc).invalidArgs = mc.Options.filter isRejected ∧
    (prepareMountArgs D port
      { mc with Options := mc.Options.filter (fun a => !isRejected a) }).invalidArgs = [] := by
  have hinit : SameOutputs (initLoop port mc)
      (initLoop port { mc with Options := mc.Options.filter (fun a => !isRejected a) }) :=
    ⟨rfl, rfl, rfl, rfl, rfl⟩
  obtain ⟨hs, hi, hi'⟩ := runLoop_filter_rejected D hD mc.Options _ _ hinit
  refine ⟨hs.flagMap, ?_, hs.identity, hs.hostNetwork, ?_, hi'⟩
  · show some _ = some _
    rw [hs.configFileFlagMap]
  · rw [show (prepareMountArgs D port mc).invalidArgs =
      (runLoop D (initLoop port mc) mc.Options).invalidArgs from rfl, hi]
    rfl

/-- C8 at the options `temp-dir=/evil` and `debug_fuse=notabool`: both are
recorded as invalid and both maps are the baseline maps. -/
theorem C8_invalid_options_witness :
    (prepareMountArgs "disable-metrics-for-gke" 62990
      (exampleConfig ["temp-dir=/evil", "debug_fuse=notabool"])).invalidArgs =
        ["temp-dir=/evil", "debug_fuse=notabool"] ∧
    (prepareMountArgs "disable-metrics-for-gke" 62990
      (exampleConfig ["temp-dir=/evil", "debug_fuse=notabool"])).mc.FlagMap =
        baseFlagMap 62990 (exampleConfig []) ∧
    (prepareMountArgs "disable-metrics-for-gke" 62990
      (exampleConfig ["temp-dir=/evil", "debug_fuse=notabool"])).mc.ConfigFileFlagMap =
        some baseConfigFileFlagMap := by
  have h := C8_invalid_options_are_dropped "disable-metrics-for-gke" 62990
    (exampleConfig ["temp-dir=/evil", "debug_fuse=notabool"]) (by decide)
  refine ⟨?_, ?_, ?_⟩
  · rw [h.2.2.2.2.1]
    decide
  · rw [h.1]
    rfl
  · rw [h.2.1]
    rfl

/-! ## C9: the file-cache example -/

theorem processArg_flat_config (D : String) (st : LoopState) (arg : String)
    (h : isPathForm arg = false) :
    (processArg D st arg).configFileFlagMap = st.configFileFlagMap ∧
    (processArg D st arg).mc.CacheDir = st.mc.CacheDir := by
  rw [processArg_flat D st arg h]
  unfold processFlatArg
  split_ifs <;> exact ⟨rfl, rfl⟩

/-- The config-file map after the option loop on the list
`implicit-dirs, uid=1000, x, app-name=myapp` is the baseline map after the
one option `x`. -/
theorem runLoop_example_config (D : String) (port : Int) (mc : MountConfig) (x : String) :
    (runLoop D (initLoop port mc)
      ["implicit-dirs", "uid=1000", x, "app-name=myapp"]).configFileFlagMap =
    (processArg D
      (processArg D (processArg D (initLoop port mc) "implicit-dirs") "uid=1000")
      x).configFileFlagMap := by
  simp only [runLoop_cons, runLoop_nil]
  exact (processArg_flat_config D _ "app-name=myapp" (by decide)).1

theorem example_prefix_config (D : String) (port : Int) (mc : MountConfig) :
    (processArg D (processArg D (initLoop port mc) "implicit-dirs")
      "uid=1000").configFileFlagMap = baseConfigFileFlagMap ∧
    (processArg D (processArg D (initLoop port mc) "implicit-dirs")
      "uid=1000").mc.CacheDir = mc.CacheDir := by
  have h1 := processArg_flat_config D (initLoop port mc) "implicit-dirs" (by decide)
  have h2 := processArg_flat_config D (processArg D (initLoop port mc) "implicit-dirs")
    "uid=1000" (by decide)
  exact ⟨h2.1.trans h1.1, h2.2.trans h1.2⟩

/-- The option `file-cache:max-size-mb=100` is cut at its last colon. -/
theorem example_eq_option_config (D : String) (st : LoopState) :
    (processArg D st "file-cache:max-size-mb=100").configFileFlagMap =
      if "file-cache" = D then st.configFileFlagMap
      else st.configFileFlagMap.set "file-cache" "max-size-mb=100" := by
  rw [processArg_path D st _ (by decide)]
  have hf : pathOf "file-cache:max-size-mb=100" = "file-cache" := by decide
  have hv : pathValueOf "file-cache:max-size-mb=100" = "max-size-mb=100" := by decide
  rw [hf, hv]
  unfold processPathArg
  by_cases hD : "file-cache" = D
  · rw [if_pos hD, if_pos hD, if_neg (by decide)]
  · rw [if_neg hD, if_neg hD]
    rfl

/-- The option `file-cache:max-size-mb:100` stores the size limit and
enables the cache directory. -/
theorem example_colon_option_config (D : String) (st : LoopState)
    (hD : D ≠ "file-cache:max-size-mb") :
    (processArg D st "file-cache:max-size-mb:100").configFileFlagMap =
      (st.configFileFlagMap.set "file-cache:max-size-mb" "100").set "cache-dir"
        st.mc.CacheDir := by
  rw [processArg_path D st _ (by decide)]
  have hf : pathOf "file-cache:max-size-mb:100" = "file-cache:max-size-mb" := by decide
  have hv : pathValueOf "file-cache:max-size-mb:100" = "100" := by decide
  rw [hf, hv]
  unfold processPathArg
  rw [if_neg (fun e => hD e.symm)]
  rfl

theorem example_eq_list_config (D : String) (port : Int) (mc : MountConfig)
    (h : mc.Options = ["implicit-dirs", "uid=1000", "file-cache:max-size-mb=100",
      "app-name=myapp"]) :
    (prepareMountArgs D port mc).mc.ConfigFileFlagMap =
      some (if "file-cache" = D then baseConfigFileFlagMap
        else baseConfigFileFlagMap.set "file-cache" "max-size-mb=100") := by
  show some (runLoop D (initLoop port mc) mc.Options).configFileFlagMap = _
  rw [h, runLoop_example_config, example_eq_option_config, (example_prefix_config D port mc).1]

theorem example_colon_list_config (D : String) (port : Int) (mc : MountConfig)
    (h : mc.Options = ["implicit-dirs", "uid=1000", "file-cache:max-size-mb:100",
      "app-name=myapp"]) (hD : D ≠ "file-cache:max-size-mb") :
    (prepareMountArgs D port mc).mc.ConfigFileFlagMap =
      some ((baseConfigFileFlagMap.set "file-cache:max-size-mb" "100").set "cache-dir"
        mc.CacheDir) := by
  show some (runLoop D (initLoop port mc) mc.Options).configFileFlagMap = _
  rw [h, runLoop_example_config, example_colon_option_config D _ hD,
    (example_prefix_config D port mc).1, (example_prefix_config D port mc).2]

/-- C9, the claim as stated fails: for the option list `implicit-dirs`,
`uid=1000`, `file-cache:max-size-mb=100`, `app-name=myapp`, whatever the
metrics toggle is named, the config-file map after `prepareMountArgs` does
not bind `file-cache:max-size-mb` to `100` with `cache-dir` set to the
cache path. -/
theorem C9_file_cache_example_counterexample :
    ¬ ∃ D : String, ∃ cm : StrMap,
      (prepareMountArgs D 62990 (exampleConfig ["implicit-dirs", "uid=1000",
        "file-cache:max-size-mb=100", "app-name=myapp"])).mc.ConfigFileFlagMap = some cm ∧
      cm.get "file-cache:max-size-mb" = some "100" ∧
      cm.get "cache-dir" = some (exampleConfig ["implicit-dirs", "uid=1000",
        "file-cache:max-size-mb=100", "app-name=myapp"]).CacheDir := by
  rintro ⟨D, cm, h1, h2, _⟩
  rw [example_eq_list_config D 62990 _ rfl] at h1
  injection h1 with h1
  subst h1
  by_cases hD : "file-cache" = D
  · rw [if_pos hD] at h2
    exact absurd h2 (by decide)
  · rw [if_neg hD] at h2
    exact absurd h2 (by decide)

/-- C9 as amended.  For the option list `implicit-dirs`, `uid=1000`,
`file-cache:max-size-mb:100`, `app-name=myapp`, the size limit written in
path form with its value after the last colon (and the metrics toggle not
named `file-cache:max-size-mb`), the config-file map after
`prepareMountArgs` binds `file-cache:max-size-mb` to `100` and `cache-dir`
to `mc.CacheDir`.  For the list with `file-cache:max-size-mb=100`, the option
is cut at its last colon: the map has no key `file-cache:max-size-mb`,
`cache-dir` stays empty, and (the toggle not being named `file-cache`) the
entry stored is `file-cache` bound to `max-size-mb=100`. -/
theorem C9_file_cache_example_amended (D : String) (port : Int) (mc : MountConfig) :
    (mc.Options = ["implicit-dirs", "uid=1000", "file-cache:max-size-mb:100",
        "app-name=myapp"] →
      D ≠ "file-cache:max-size-mb" →
      ∃ cm, (prepareMountArgs D port mc).mc.ConfigFileFlagMap = some cm ∧
        cm.get "file-cache:max-size-mb" = some "100" ∧
        cm.get "cache-dir" = some mc.CacheDir) ∧
    (mc.Options = ["implicit-dirs", "uid=1000", "file-cache:max-size-mb=100",
        "app-name=myapp"] →
      ∃ cm, (prepareMountArgs D port mc).mc.ConfigFileFlagMap = some cm ∧
        cm.get "file-cache:max-size-mb" = none ∧
        cm.get "cache-dir" = some "" ∧
        (D ≠ "file-cache" → cm.get "file-cache" = some "max-size-mb=100")) := by
  constructor
  · intro h hD
    refine ⟨_, example_colon_list_config D port mc h hD, ?_, StrMap.get_set_self _ _ _⟩
    rw [StrMap.get_set_ne _ _ (by decide), StrMap.get_set_self]
  · intro h
    refine ⟨_, example_eq_list_config D port mc h, ?_, ?_, ?_⟩
    · by_cases hD : "file-cache" = D
      · rw [if_pos hD]; decide
      · rw [if_neg hD]; decide
    · by_cases hD : "file-cache" = D
      · rw [if_pos hD]; decide
      · rw [if_neg hD]; decide
    · intro hD
      rw [if_neg (fun e => hD e.symm)]
      decide

/-- C9 as amended, at a concrete configuration: the colon form enables the
cache, the `=` form does not. -/
theorem C9_file_cache_example_witness :
    (∃ cm, (prepareMountArgs "disable-metrics-for-gke" 62990
        (exampleConfig ["implicit-dirs", "uid=1000", "file-cache:max-size-mb:100",
          "app-name=myapp"])).mc.ConfigFileFlagMap = some cm ∧
      cm.get "file-cache:max-size-mb" = some "100" ∧
      cm.get "cache-dir" = some "/gcsfuse-cache/.volumes/vol") ∧
    (∃ cm, (prepareMountArgs "disable-metrics-for-gke" 62990
        (exampleConfig ["implicit-dirs", "uid=1000", "file-cache:max-size-mb=100",
          "app-name=myapp"])).mc.ConfigFileFlagMap = some cm ∧
      cm.get "file-cache:max-size-mb" = none ∧
      cm.get "cache-dir" = some "" ∧
      cm.get "file-cache" = some "max-size-mb=100") := by
  constructor
  · exact (C9_file_cache_example_amended "disable-metrics-for-gke" 62990
      (exampleConfig ["implicit-dirs", "uid=1000", "file-cache:max-size-mb:100",
        "app-name=myapp"])).1 rfl (by decide)
  · obtain ⟨cm, h1, h2, h3, h4⟩ := (C9_file_cache_example_amended "disable-metrics-for-gke"
      62990 (exampleConfig ["implicit-dirs", "uid=1000", "file-cache:max-size-mb=100",
        "app-name=myapp"])).2 rfl
    exact ⟨cm, h1, h2, h3, h4 (by decide)⟩

/-! ## C10: baseline keys and accepted flat options -/

theorem appName_prefix (v : String) :
    GCSFuseAppName ++ "-" ++ v = "gke-gcs-fuse-csi-" ++ v := by
  apply String.ext
  rw [strings.data_append3, String.data_append]
  rfl

/-- An accepted flat-form option writes its flag into the flat map. -/
theorem processArg_acceptedFlat (D : String) (st : LoopState) (arg : String)
    (h : isAcceptedFlat arg = true) :
    processArg D st arg =
      { st with flagMap := st.flagMap.set (flagOf arg) (storedValue arg) } := by
  simp only [isAcceptedFlat, Bool.and_eq_true, Bool.not_eq_true', decide_eq_true_eq,
    Bool.and_eq_false_iff, decide_eq_false_iff_not, not_not] at h
  obtain ⟨⟨⟨⟨hp, hd⟩, hi⟩, hh⟩, hb⟩ := h
  rw [processArg_flat D st arg hp]
  unfold processFlatArg
  have hcond : ¬ (boolFlags (flagOf arg) = true ∧ valueOf arg ≠ "") := by
    rintro ⟨h1, h2⟩
    rcases hb with hb | hb
    · rw [hb] at h1; cases h1
    · exact h2 hb
  rw [if_neg (by rw [hd]; exact Bool.false_ne_true), if_neg hi, if_neg hh, if_neg hcond]
  unfold storedValue
  by_cases ha : flagOf arg = "app-name"
  · rw [if_pos ha, if_pos ha, appName_prefix]
  · rw [if_neg ha, if_neg ha]

/-- A key without `=` that is not deny-listed keeps its binding through an
iteration, unless the option is an accepted flat-form option with that flag. -/
theorem processArg_flagMap_get_other (D : String) (st : LoopState) (arg k : String)
    (hk : '=' ∉ k.data) (hkd : disallowedFlags k = false)
    (h : ¬ (isAcceptedFlat arg = true ∧ flagOf arg = k)) :
    (processArg D st arg).flagMap.get k = st.flagMap.get k := by
  cases hp : isPathForm arg with
  | true =>
    rw [processArg_path D st arg hp]
    unfold processPathArg
    have hport : k ≠ "prometheus-port" := fun e => by
      rw [e] at hkd
      exact absurd hkd (by decide)
    split_ifs
    · exact StrMap.get_set_ne _ _ hport
    all_goals rfl
  | false =>
    rw [processArg_flat D st arg hp]
    unfold processFlatArg
    have hfold : k ≠ flagOf arg ++ "=" ++ valueOf arg := by
      intro e
      rw [e] at hk
      exact hk (folded_has_eq _ _)
    have hacc : ∀ (_ : disallowedFlags (flagOf arg) = false)
        (_ : flagOf arg ≠ identityProviderFlag) (_ : flagOf arg ≠ hostNetworkKSAOptInFlag)
        (_ : ¬ (boolFlags (flagOf arg) = true ∧ valueOf arg ≠ "")), k ≠ flagOf arg := by
      intro h1 h2 h3 h4 e
      apply h
      refine ⟨?_, e.symm⟩
      simp only [isAcceptedFlat, Bool.and_eq_true, Bool.not_eq_true', decide_eq_true_eq,
        Bool.and_eq_false_iff, decide_eq_false_iff_not, not_not]
      refine ⟨⟨⟨⟨hp, h1⟩, h2⟩, h3⟩, ?_⟩
      by_cases hb : boolFlags (flagOf arg) = true
      · right
        by_contra hv
        exact h4 ⟨hb, hv⟩
      · left
        simpa using hb
    split_ifs with h1 h2 h3 h4 h5 h6
    · rfl
    · rfl
    · rfl
    · exact StrMap.get_set_ne _ _ hfold
    · rfl
    · exact StrMap.get_set_ne _ _ (hacc (by simpa using h1) h2 h3 h4)
    · exact StrMap.get_set_ne _ _ (hacc (by simpa using h1) h2 h3 h4)

theorem runLoop_flagMap_get_other (D : String) (k : String) (hk : '=' ∉ k.data)
    (hkd : disallowedFlags k = false) (args : List String)
    (h : ∀ o ∈ args, isAcceptedFlat o = true → flagOf o ≠ k) :
    ∀ st : LoopState, (runLoop D st args).flagMap.get k = st.flagMap.get k := by
  induction args with
  | nil => intro st; rfl
  | cons a rest ih =>
    intro st
    rw [runLoop_cons, ih (fun o ho => h o (List.mem_cons_of_mem _ ho))]
    exact processArg_flagMap_get_other D st a k hk hkd
      (fun hc => h a (List.mem_cons_self _ _) hc.1 hc.2)

/-- No iteration removes a key from either map. -/
theorem effect_keeps_keys (st st' : LoopState) (he : Effect st st') (k : String) :
    (st.flagMap.has k = true → st'.flagMap.has k = true) ∧
    (st.configFileFlagMap.has k = true → st'.configFileFlagMap.has k = true) := by
  cases he with
  | none => exact ⟨id, id⟩
  | port =>
    refine ⟨fun h => ?_, id⟩
    show (st.flagMap.set _ _).has k = true
    rw [StrMap.has_set, h, Bool.or_true]
  | invalid x => exact ⟨id, id⟩
  | config f v hf =>
    refine ⟨id, fun h => ?_⟩
    show (st.configFileFlagMap.set _ _).has k = true
    rw [StrMap.has_set, h, Bool.or_true]
  | configCache f v hf =>
    refine ⟨id, fun h => ?_⟩
    show ((st.configFileFlagMap.set _ _).set _ _).has k = true
    rw [StrMap.has_set, StrMap.has_set, h, Bool.or_true, Bool.or_true]
  | identity x => exact ⟨id, id⟩
  | hostNetwork b => exact ⟨id, id⟩
  | flat k' v hk =>
    refine ⟨fun h => ?_, id⟩
    show (st.flagMap.set _ _).has k = true
    rw [StrMap.has_set, h, Bool.or_true]

theorem runLoop_keeps_keys (D : String) (k : String) (args : List String) (st : LoopState) :
    (st.flagMap.has k = true → (runLoop D st args).flagMap.has k = true) ∧
    (st.configFileFlagMap.has k = true →
      (runLoop D st args).configFileFlagMap.has k = true) := by
  constructor
  · intro h
    exact runLoop_invariant D (fun s => s.flagMap.has k = true)
      (fun s a hs => (effect_keeps_keys s _ (processArg_effect D s a) k).1 hs) args st h
  · intro h
    exact runLoop_invariant D (fun s => s.configFileFlagMap.has k = true)
      (fun s a hs => (effect_keeps_keys s _ (processArg_effect D s a) k).2 hs) args st h

theorem isAcceptedFlat_flag (arg : String) (h : isAcceptedFlat arg = true) :
    disallowedFlags (flagOf arg) = false := by
  simp only [isAcceptedFlat, Bool.and_eq_true, Bool.not_eq_true'] at h
  exact h.1.1.1.2

/-- After the option loop, the flag of the last accepted flat-form option
writing it is bound to the value that option stores. -/
theorem runLoop_last_writer (D : String) (st : LoopState) (pre post : List String)
    (arg : String) (hacc : isAcceptedFlat arg = true)
    (hlast : ∀ o ∈ post, isAcceptedFlat o = true → flagOf o ≠ flagOf arg) :
    (runLoop D st (pre ++ arg :: post)).flagMap.get (flagOf arg) =
      some (storedValue arg) := by
  rw [runLoop_append, runLoop_cons,
    runLoop_flagMap_get_other D (flagOf arg) (flagOf_no_eq arg) (isAcceptedFlat_flag arg hacc)
      post hlast,
    processArg_acceptedFlat D _ arg hacc]
  exact StrMap.get_set_self _ _ _

/-- C10: baseline keys plus accepted flat keys, last writer wins.  For every
option list, after `prepareMountArgs` the flat map has all seven baseline
keys and the config-file map its three baseline keys; the flag of every
accepted flat-form option is a key of the flat map; and it is bound to the
value stored by the last option of the list writing that flag: the text
after the first `=` (empty when there is none), prefixed with
`gke-gcs-fuse-csi-` when the flag is `app-name`.  The last two parts say
that flag and value of a flat-form option are the text before and after its
first `=`. -/
theorem C10_baseline_and_accepted_flat_keys (D : String) (port : Int) (mc : MountConfig) :
    (∀ k ∈ baselineFlagKeys, (prepareMountArgs D port mc).mc.FlagMap.has k = true) ∧
    (∃ cm, (prepareMountArgs D port mc).mc.ConfigFileFlagMap = some cm ∧
      ∀ k ∈ baselineConfigKeys, cm.has k = true) ∧
    (∀ arg ∈ mc.Options, isAcceptedFlat arg = true →
      (prepareMountArgs D port mc).mc.FlagMap.has (flagOf arg) = true) ∧
    (∀ pre arg post, mc.Options = pre ++ arg :: post → isAcceptedFlat arg = true →
      (∀ o ∈ post, isAcceptedFlat o = true → flagOf o ≠ flagOf arg) →
      (prepareMountArgs D port mc).mc.FlagMap.get (flagOf arg) = some (storedValue arg)) ∧
    (∀ arg : String, '=' ∉ arg.data → flagOf arg = arg ∧ valueOf arg = "") ∧
    (∀ flag text : String, '=' ∉ flag.data →
      flagOf (flag ++ "=" ++ text) = flag ∧ valueOf (flag ++ "=" ++ text) = text) := by
  refine ⟨?_, ⟨_, rfl, ?_⟩, ?_, ?_, flagOf_valueOf_bare, flagOf_valueOf_pair⟩
  · intro k hk
    refine (runLoop_keeps_keys D k mc.Options (initLoop port mc)).1 ?_
    simp only [baselineFlagKeys, List.mem_cons, List.mem_singleton, List.not_mem_nil,
      or_false] at hk
    rcases hk with h | h | h | h | h | h | h <;> subst h <;>
      simp [initLoop, baseFlagMap, StrMap.has, StrMap.get]
  · intro k hk
    refine (runLoop_keeps_keys D k mc.Options (initLoop port mc)).2 ?_
    have hall : ∀ k ∈ baselineConfigKeys, baseConfigFileFlagMap.has k = true := by decide
    exact hall k hk
  · intro arg harg hacc
    obtain ⟨pre, post, hsplit⟩ := List.append_of_mem harg
    show (runLoop D (initLoop port mc) mc.Options).flagMap.has (flagOf arg) = true
    rw [hsplit, runLoop_append, runLoop_cons]
    refine (runLoop_keeps_keys D _ post _).1 ?_
    rw [processArg_acceptedFlat D _ arg hacc]
    show (StrMap.set _ _ _).has _ = true
    rw [StrMap.has_set]
    simp
  · intro pre arg post hsplit hacc hlast
    show (runLoop D (initLoop port mc) mc.Options).flagMap.get (flagOf arg) = _
    rw [hsplit]
    exact runLoop_last_writer D _ pre post arg hacc hlast

/-- C10 at the options `implicit-dirs`, `uid=1000`, `app-name=myapp`: the
flat map binds `implicit-dirs` to the empty string, `uid` to `1000` (over
the baseline `0`) and `app-name` to `gke-gcs-fuse-csi-myapp`. -/
theorem C10_baseline_and_accepted_flat_witness :
    (prepareMountArgs "disable-metrics-for-gke" 62990
      (exampleConfig ["implicit-dirs", "uid=1000", "app-name=myapp"])).mc.FlagMap.get
        "implicit-dirs" = some "" ∧
    (prepareMountArgs "disable-metrics-for-gke" 62990
      (exampleConfig ["implicit-dirs", "uid=1000", "app-name=myapp"])).mc.FlagMap.get
        "uid" = some "1000" ∧
    (prepareMountArgs "disable-metrics-for-gke" 62990
      (exampleConfig ["implicit-dirs", "uid=1000", "app-name=myapp"])).mc.FlagMap.get
        "app-name" = some "gke-gcs-fuse-csi-myapp" := by
  have h := (C10_baseline_and_accepted_flat_keys "disable-metrics-for-gke" 62990
    (exampleConfig ["implicit-dirs", "uid=1000", "app-name=myapp"])).2.2.2.1
  exact ⟨h [] "implicit-dirs" ["uid=1000", "app-name=myapp"] rfl (by decide) (by decide),
    h ["implicit-dirs"] "uid=1000" ["app-name=myapp"] rfl (by decide) (by decide),
    h ["implicit-dirs", "uid=1000"] "app-name=myapp" [] rfl (by decide) (by decide)⟩

/-! ## Leaf typing -/

theorem int64_range_of_nat (n : Nat) :
    (-2 ^ 63 ≤ (n : Int) ∧ (n : Int) < 2 ^ 63) ↔ n < 2 ^ 63 := by
  constructor
  · rintro ⟨_, h⟩
    exact_mod_cast h
  · intro h
    constructor
    · have h0 : (0 : Int) ≤ n := Int.ofNat_nonneg n
      have h2 : (-2 ^ 63 : Int) ≤ 0 := by norm_num
      exact le_trans h2 h0
    · exact_mod_cast h

theorem int64_range_of_neg_nat (n : Nat) :
    (-2 ^ 63 ≤ -(n : Int) ∧ -(n : Int) < 2 ^ 63) ↔ n ≤ 2 ^ 63 := by
  constructor
  · rintro ⟨h, _⟩
    have h' : (n : Int) ≤ 2 ^ 63 := by linarith
    exact_mod_cast h'
  · intro h
    have h' : (n : Int) ≤ 2 ^ 63 := by exact_mod_cast h
    have h0 : (0 : Int) ≤ n := Int.ofNat_nonneg n
    constructor
    · linarith
    · have : (0 : Int) < 2 ^ 63 := by norm_num
      linarith

theorem checked_nat_iff (m : Nat) (n : Int) :
    (if m < 2 ^ 63 then some (m : Int) else none) = some n ↔
      some (m : Int) = some n ∧ -2 ^ 63 ≤ n ∧ n < 2 ^ 63 := by
  by_cases hm : m < 2 ^ 63
  · rw [if_pos hm]
    constructor
    · intro h
      injection h with h
      subst h
      exact ⟨rfl, (int64_range_of_nat m).2 hm⟩
    · rintro ⟨h, _⟩
      exact h
  · rw [if_neg hm]
    constructor
    · intro h
      cases h
    · rintro ⟨h, hr⟩
      injection h with h
      subst h
      exact absurd ((int64_range_of_nat m).1 hr) hm

theorem checked_neg_nat_iff (m : Nat) (n : Int) :
    (if m ≤ 2 ^ 63 then some (-(m : Int)) else none) = some n ↔
      some (-(m : Int)) = some n ∧ -2 ^ 63 ≤ n ∧ n < 2 ^ 63 := by
  by_cases hm : m ≤ 2 ^ 63
  · rw [if_pos hm]
    constructor
    · intro h
      injection h with h
      subst h
      exact ⟨rfl, (int64_range_of_neg_nat m).2 hm⟩
    · rintro ⟨h, _⟩
      exact h
  · rw [if_neg hm]
    constructor
    · intro h
      cases h
    · rintro ⟨h, hr⟩
      injection h with h
      subst h
      exact absurd ((int64_range_of_neg_nat m).1 hr) hm

/-- Go `strconv.ParseInt` accepts the signed decimal integers within the signed 64-bit
range, with their value. -/
theorem ParseInt_eq_some_iff (v : String) (n : Int) :
    strconv.ParseInt v = some n ↔
      signedDecimal v = some n ∧ -2 ^ 63 ≤ n ∧ n < 2 ^ 63 := by
  unfold strconv.ParseInt signedDecimal
  cases v.data with
  | nil => exact ⟨fun h => (nomatch h), fun h => (nomatch h.1)⟩
  | cons c cs =>
    dsimp only
    by_cases h1 : c = '+'
    · rw [if_pos h1, if_pos h1]
      cases strconv.parseDigits cs with
      | none => exact ⟨fun h => (nomatch h), fun h => (nomatch h.1)⟩
      | some m => exact checked_nat_iff m n
    · rw [if_neg h1, if_neg h1]
      by_cases h2 : c = '-'
      · rw [if_pos h2, if_pos h2]
        cases strconv.parseDigits cs with
        | none => exact ⟨fun h => (nomatch h), fun h => (nomatch h.1)⟩
        | some m => exact checked_neg_nat_iff m n
      · rw [if_neg h2, if_neg h2]
        cases strconv.parseDigits (c :: cs) with
        | none => exact ⟨fun h => (nomatch h), fun h => (nomatch h.1)⟩
        | some m => exact checked_nat_iff m n

theorem ParseBool_eq_none (v : String) (h1 : v ≠ "1") (h0 : v ≠ "0") (hw : v ∉ boolWords) :
    strconv.ParseBool v = none := by
  simp only [boolWords, List.mem_cons, List.mem_singleton, List.not_mem_nil, or_false,
    not_or] at hw
  obtain ⟨a1, a2, a3, a4, a5, a6, a7, a8, a9, a10⟩ := hw
  unfold strconv.ParseBool
  rw [if_neg (by simp only [h1, a1, a2, a3, a4, a5, or_self, not_false_eq_true]),
    if_neg (by simp only [h0, a6, a7, a8, a9, a10, or_self, not_false_eq_true])]

theorem typedLeaf_of_int (v : String) (n : Int) (h : strconv.ParseInt v = some n) :
    typedLeaf v = Node.int n := by
  unfold typedLeaf
  rw [h]

theorem typedLeaf_of_str (v : String) (hi : strconv.ParseInt v = none)
    (hb : strconv.ParseBool v = none) : typedLeaf v = Node.str v := by
  unfold typedLeaf
  rw [hi, hb]

/-! ## Keys and their segment sequences -/

theorem indexAux_single_some (c : Char) (s : List Char) (m : Nat)
    (h : strings.indexAux [c] s = some m) :
    ∃ a b, s = a ++ c :: b ∧ c ∉ a ∧ m = a.length := by
  have hmem : c ∈ s := (strings.indexAux_single_isSome c s).1 (by rw [h]; rfl)
  obtain ⟨a, b, hab, ha⟩ := strings.exists_first_split c s hmem
  refine ⟨a, b, hab, ha, ?_⟩
  have h2 := strings.indexAux_single_append c a b ha
  rw [← hab, h] at h2
  injection h2

theorem joinSegments_cons (x : List Char) (rest : List (List Char)) (h : rest ≠ []) :
    joinSegments (x :: rest) = x ++ ':' :: joinSegments rest := by
  cases rest with
  | nil => exact absurd rfl h
  | cons y ys => rfl

/-- Joining the segments of a string with colons gives the string back. -/
theorem joinSegments_splitAux (fuel : Nat) :
    ∀ s : List Char, joinSegments (strings.splitAux [':'] fuel s) = s := by
  induction fuel with
  | zero => intro s; rfl
  | succ k ih =>
    intro s
    unfold strings.splitAux
    cases hi : strings.indexAux [':'] s with
    | none => rfl
    | some m =>
      obtain ⟨a, b, hab, _, hm⟩ := indexAux_single_some ':' s m hi
      simp only
      rw [joinSegments_cons _ _ (splitAux_ne_nil _ _ _), ih]
      subst hm
      rw [hab]
      have h1 : a ++ ':' :: b = (a ++ [':']) ++ b := by simp
      have hd : List.drop (a.length + [':'].length) (a ++ ':' :: b) = b := by
        rw [h1]
        exact List.drop_left' (by simp)
      rw [hd, List.take_left' rfl]

theorem map_mk_injective {l1 l2 : List (List Char)}
    (h : l1.map String.mk = l2.map String.mk) : l1 = l2 := by
  induction l1 generalizing l2 with
  | nil =>
    cases l2 with
    | nil => rfl
    | cons y ys => simp at h
  | cons x xs ih =>
    cases l2 with
    | nil => simp at h
    | cons y ys =>
      simp only [List.map_cons, List.cons.injEq] at h
      have hx : x = y := congrArg String.data h.1
      rw [hx, ih h.2]

/-- Distinct keys have distinct segment sequences. -/
theorem segments_injective {k1 k2 : String} (h : segments k1 = segments k2) : k1 = k2 := by
  unfold segments strings.Split at h
  have h2 := map_mk_injective h
  have e1 := joinSegments_splitAux k1.data.length k1.data
  have e2 := joinSegments_splitAux k2.data.length k2.data
  have hsep : (":" : String).data = [':'] := rfl
  rw [hsep] at h2
  rw [h2, e2] at e1
  exact String.ext e1.symm

/-! ## The document tree: every entry ends at its typed value -/

/-- When the construction succeeds on entries with distinct keys, every
entry's path ends at the typed form of its value, and every earlier path
that no entry rewrites ends where it did. -/
theorem buildTree_ok_resolve :
    ∀ (entries : List (String × String)) (cur doc : Level) (paths : List (List String)),
      TreeInv cur paths → (entries.map Prod.fst).Nodup →
      buildTree entries cur = Except.ok doc →
      (∀ e ∈ entries, resolve (segments e.1) doc = some (typedLeaf e.2)) ∧
      (∀ q ∈ paths, (∀ e ∈ entries, segments e.1 ≠ q) → resolve q doc = resolve q cur) := by
  intro entries
  induction entries with
  | nil =>
    intro cur doc paths _ _ hok
    simp only [buildTree] at hok
    injection hok with hok
    subst hok
    exact ⟨fun e he => absurd he (List.not_mem_nil e), fun q _ _ => rfl⟩
  | cons e rest ih =>
    intro cur doc paths hinv hnodup hok
    obtain ⟨f, v⟩ := e
    have ht := segments_ne_nil f
    simp only [List.map_cons, List.nodup_cons] at hnodup
    obtain ⟨hf, hrest⟩ := hnodup
    cases hr : placeTokens f v (segments f) cur with
    | error err =>
      rw [buildTree_cons_error f v rest cur err hr] at hok
      cases hok
    | ok cur1 =>
      rw [buildTree_cons_ok f v rest cur cur1 hr] at hok
      have hinv1 := treeInv_step f v (segments f) cur cur1 paths hinv ht hr
      obtain ⟨ia, ib⟩ := ih cur1 doc (segments f :: paths) hinv1 hrest hok
      obtain ⟨sa, _, sc⟩ := placeTokens_ok_spec f v (segments f) cur cur1 ht hr
      have hnoerr : ¬ ∃ p ∈ paths, ProperPrefix p (segments f) ∨ ProperPrefix (segments f) p := by
        rw [← placeTokens_error_iff_collide f v (segments f) cur paths hinv ht, hr]
        simp [isError]
      have hfresh : ∀ e ∈ rest, segments e.1 ≠ segments f := by
        intro e he heq
        apply hf
        rw [← segments_injective heq]
        exact List.mem_map_of_mem Prod.fst he
      constructor
      · intro e he
        rcases List.mem_cons.1 he with h1 | h1
        · subst h1
          rw [ib (segments f) (List.mem_cons_self _ _) hfresh]
          exact sa
        · exact ia e h1
      · intro q hq hne
        rw [ib q (List.mem_cons_of_mem _ hq) (fun e he => hne e (List.mem_cons_of_mem _ he))]
        apply sc
        intro hpre
        by_cases heq : q = segments f
        · exact hne (f, v) (List.mem_cons_self _ _) heq.symm
        · exact hnoerr ⟨q, hq, Or.inl ⟨hpre, heq⟩⟩

/-! ## C3: leaf typing -/

/-- C3, the claim as stated fails.  The raw value `True` is neither a
signed decimal integer nor one of `true` and `false`, yet its leaf is the
boolean `true`, not the string `True`; and the raw value
`9223372036854775808` is a signed decimal integer, yet its leaf is the
string itself, not an integer. -/
theorem C3_leaf_typing_counterexample :
    (signedDecimal "True" = none ∧ "True" ≠ "true" ∧ "True" ≠ "false" ∧
      typedLeaf "True" = Node.bool true ∧ typedLeaf "True" ≠ Node.str "True") ∧
    (signedDecimal "9223372036854775808" = some 9223372036854775808 ∧
      typedLeaf "9223372036854775808" = Node.str "9223372036854775808" ∧
      ∀ n, typedLeaf "9223372036854775808" ≠ Node.int n) := by
  have h1 : typedLeaf "True" = Node.bool true := by rfl
  have h2 : typedLeaf "9223372036854775808" = Node.str "9223372036854775808" := by rfl
  refine ⟨⟨by decide, by decide, by decide, h1, ?_⟩, by decide, h2, ?_⟩
  · rw [h1]
    intro h
    cases h
  · intro n
    rw [h2]
    intro h
    cases h

/-- C3 as amended.  For every raw value `v`: the leaf is the integer `n`
when `v` is a signed decimal integer whose value `n` fits in a signed 64-bit
integer; it is the boolean `true` when `v` is one of `t T TRUE true True`
and the boolean `false` when `v` is one of `f F FALSE false False`; it is
the string `v` itself when `v` is neither such an integer nor one of these
ten words.  The leaf depends on `v` alone: whatever the document held
before, placing `v` puts this typed value at the end of its path, and when
the construction succeeds on a map (distinct keys), every entry's path
ends at the typed form of its own value. -/
theorem C3_leaf_typing_amended (v : String) :
    (∀ n : Int, signedDecimal v = some n → -2 ^ 63 ≤ n → n < 2 ^ 63 →
      typedLeaf v = Node.int n) ∧
    (v ∈ ["t", "T", "TRUE", "true", "True"] → typedLeaf v = Node.bool true) ∧
    (v ∈ ["f", "F", "FALSE", "false", "False"] → typedLeaf v = Node.bool false) ∧
    ((∀ n : Int, signedDecimal v = some n → ¬ (-2 ^ 63 ≤ n ∧ n < 2 ^ 63)) →
      v ∉ boolWords → typedLeaf v = Node.str v) ∧
    (∀ (f : String) (toks : List String) (cur cur' : Level), toks ≠ [] →
      placeTokens f v toks cur = Except.ok cur' →
      resolve toks cur' = some (typedLeaf v)) ∧
    (∀ (entries : List (String × String)) (doc : Level) (k : String),
      (entries.map Prod.fst).Nodup → buildTree entries Level.empty = Except.ok doc →
      (k, v) ∈ entries → resolve (segments k) doc = some (typedLeaf v)) := by
  refine ⟨?_, ?_, ?_, ?_, ?_, ?_⟩
  · intro n hs hlo hhi
    exact typedLeaf_of_int v n ((ParseInt_eq_some_iff v n).2 ⟨hs, hlo, hhi⟩)
  · intro h
    simp only [List.mem_cons, List.mem_singleton, List.not_mem_nil, or_false] at h
    rcases h with h | h | h | h | h <;> subst h <;> rfl
  · intro h
    simp only [List.mem_cons, List.mem_singleton, List.not_mem_nil, or_false] at h
    rcases h with h | h | h | h | h <;> subst h <;> rfl
  · intro hint hwords
    have hi : strconv.ParseInt v = none := by
      cases hp : strconv.ParseInt v with
      | none => rfl
      | some n =>
        obtain ⟨hs, hr⟩ := (ParseInt_eq_some_iff v n).1 hp
        exact absurd hr (hint n hs)
    have h1 : v ≠ "1" := by
      intro e
      subst e
      exact hint 1 (by decide) ⟨by norm_num, by norm_num⟩
    have h0 : v ≠ "0" := by
      intro e
      subst e
      exact hint 0 (by decide) ⟨by norm_num, by norm_num⟩
    exact typedLeaf_of_str v hi (ParseBool_eq_none v h1 h0 hwords)
  · intro f toks cur cur' ht hok
    exact (placeTokens_ok_spec f v toks cur cur' ht hok).1
  · intro entries doc k hnodup hok hmem
    exact (buildTree_ok_resolve entries Level.empty doc [] treeInv_empty hnodup hok).1
      (k, v) hmem

/-- C3 as amended, at concrete raw values: `42` and `+42` are the integer
42, `1` is the integer 1, `true` and `T` are booleans, `yes` stays a string,
also next to a sibling entry in a document. -/
theorem C3_leaf_typing_witness :
    typedLeaf "42" = Node.int 42 ∧ typedLeaf "+42" = Node.int 42 ∧
    typedLeaf "1" = Node.int 1 ∧ typedLeaf "true" = Node.bool true ∧
    typedLeaf "T" = Node.bool true ∧ typedLeaf "yes" = Node.str "yes" ∧
    (∀ doc : Level, buildTree [("a:b", "42"), ("a:c", "yes")] Level.empty = Except.ok doc →
      resolve ["a", "c"] doc = some (Node.str "yes")) := by
  refine ⟨(C3_leaf_typing_amended "42").1 42 (by decide) (by norm_num) (by norm_num),
    (C3_leaf_typing_amended "+42").1 42 (by decide) (by norm_num) (by norm_num),
    (C3_leaf_typing_amended "1").1 1 (by decide) (by norm_num) (by norm_num),
    (C3_leaf_typing_amended "true").2.1 (by decide),
    (C3_leaf_typing_amended "T").2.1 (by decide), ?_, ?_⟩
  · have h : typedLeaf "yes" = Node.str "yes" := by rfl
    exact h
  · intro doc hok
    have h := (C3_leaf_typing_amended "yes").2.2.2.2.2
      [("a:b", "42"), ("a:c", "yes")] doc "a:c" (by decide) hok (by decide)
    have hseg : segments "a:c" = ["a", "c"] := by decide
    have hleaf : typedLeaf "yes" = Node.str "yes" := by rfl
    rw [hseg, hleaf] at h
    exact h

/-! ## C17: the metrics toggle with a value other than the truthy literal -/

/-- A path-form option whose path is the metrics toggle is consumed: it
resets the port when its value is the truthy literal and does nothing
otherwise. -/
theorem processArg_toggle (D : String) (st : LoopState) (arg : String)
    (hp : isPathForm arg = true) (hf : pathOf arg = D) :
    processArg D st arg =
      if pathValueOf arg = util.TrueStr then
        { st with flagMap := st.flagMap.set "prometheus-port" "0" }
      else st := by
  rw [processArg_path D st arg hp]
  unfold processPathArg
  rw [if_pos hf]

theorem toggle_false_cut (D : String) :
    pathOf (D ++ ":false") = D ∧ pathValueOf (D ++ ":false") = "false" := by
  have hab : (D ++ ":false").data = D.data ++ ':' :: ("false" : String).data := by
    rw [String.data_append]
  exact strings.lastColon_cut (D ++ ":false") D.data _ hab (by decide)

theorem baseConfig_get_ne_false (k : String) : baseConfigFileFlagMap.get k ≠ some "false" := by
  unfold baseConfigFileFlagMap
  simp only [StrMap.get]
  split_ifs <;> decide

/-- C17, the claim as stated fails: whatever the metrics toggle is named, the
path-form option made of the toggle name and the value `false`, processed
from the baseline state, is not stored under the toggle name in the
config-file map. -/
theorem C17_toggle_other_value_counterexample :
    ¬ ∃ D : String, isPathForm (D ++ ":false") = true ∧
      (processArg D (initLoop 62990 (exampleConfig [D ++ ":false"]))
        (D ++ ":false")).configFileFlagMap.get D = some "false" := by
  rintro ⟨D, hp, h⟩
  rw [processArg_toggle D _ _ hp (toggle_false_cut D).1, (toggle_false_cut D).2,
    if_neg (by decide)] at h
  exact baseConfig_get_ne_false D h

/-- C17 as amended.  A path-form option whose path is the metrics toggle is
always consumed by the special case: when its value is `true` the port flag
is set to `0` and nothing else changes; with any other value the loop state
is left exactly as it was, so the option is neither stored in the
config-file map nor recorded as invalid nor passed to the remaining
path-form rules. -/
theorem C17_toggle_always_consumed (D : String) (st : LoopState) (arg : String)
    (hp : isPathForm arg = true) (hf : pathOf arg = D) :
    (pathValueOf arg = "true" →
      processArg D st arg = { st with flagMap := st.flagMap.set "prometheus-port" "0" }) ∧
    (pathValueOf arg ≠ "true" → processArg D st arg = st) := by
  rw [processArg_toggle D st arg hp hf]
  constructor
  · intro h
    exact if_pos h
  · intro h
    exact if_neg h

/-- C17 as amended, at the option `disable-metrics-for-gke:false`: the map
and the list of invalid options are those of the baseline state. -/
theorem C17_toggle_always_consumed_witness :
    (processArg "disable-metrics-for-gke" (initLoop 62990 (exampleConfig []))
      "disable-metrics-for-gke:false").configFileFlagMap = baseConfigFileFlagMap ∧
    (processArg "disable-metrics-for-gke" (initLoop 62990 (exampleConfig []))
      "disable-metrics-for-gke:false").invalidArgs = [] ∧
    disallowedFlags "disable-metrics-for-gke" = false := by
  have h := (C17_toggle_always_consumed "disable-metrics-for-gke"
    (initLoop 62990 (exampleConfig [])) "disable-metrics-for-gke:false"
    (by decide) (by decide)).2 (by decide)
  rw [h]
  exact ⟨rfl, rfl, by decide⟩

/-! ## Bool flags -/

theorem boolFlags_no_eq : ∀ b ∈ boolFlagNames, '=' ∉ b.data := by decide

theorem folded_true (b : String) : b ++ "=" ++ "true" = b ++ "=true" := by
  rw [String.append_assoc]
  rfl

theorem folded_false (b : String) : b ++ "=" ++ "false" = b ++ "=false" := by
  rw [String.append_assoc]
  rfl

theorem has_eq_of_suffix (b s : String) (h : '=' ∈ s.data) : '=' ∈ (b ++ s).data := by
  rw [String.data_append]
  exact List.mem_append_right _ h

theorem isBoolKey_ne_port {k : String} (h : IsBoolKey k) : k ≠ "prometheus-port" := by
  obtain ⟨b, hb, hk | hk | hk⟩ := h
  · intro e
    have := (boolFlags_not_special b ((boolFlags_iff b).1 hb)).2.2.2
    rw [← hk, e] at this
    exact absurd this (by decide)
  · intro e
    have := has_eq_of_suffix b "=true" (by decide)
    rw [← hk, e] at this
    exact absurd this (by decide)
  · intro e
    have := has_eq_of_suffix b "=false" (by decide)
    rw [← hk, e] at this
    exact absurd this (by decide)

theorem isBoolKey_ne_appName {k : String} (h : IsBoolKey k) : k ≠ "app-name" := by
  obtain ⟨b, hb, hk | hk | hk⟩ := h
  · rw [hk]
    exact (boolFlags_not_special b ((boolFlags_iff b).1 hb)).2.2.1
  · intro e
    have := has_eq_of_suffix b "=true" (by decide)
    rw [← hk, e] at this
    exact absurd this (by decide)
  · intro e
    have := has_eq_of_suffix b "=false" (by decide)
    rw [← hk, e] at this
    exact absurd this (by decide)

/-- A bare flag that is a bool key is a bool flag. -/
theorem isBoolKey_flag {flag : String} (hno : '=' ∉ flag.data) (h : IsBoolKey flag) :
    boolFlags flag = true := by
  obtain ⟨b, hb, hk | hk | hk⟩ := h
  · rw [hk]; exact hb
  · rw [hk] at hno
    exact absurd (has_eq_of_suffix b "=true" (by decide)) hno
  · rw [hk] at hno
    exact absurd (has_eq_of_suffix b "=false" (by decide)) hno

/-- Every iteration keeps a bool key bound to the empty string. -/
theorem processArg_boolKey (D : String) (st : LoopState) (arg k : String) (hk : IsBoolKey k)
    (h : st.flagMap.get k = some "") : (processArg D st arg).flagMap.get k = some "" := by
  cases hp : isPathForm arg with
  | true =>
    rw [processArg_path D st arg hp]
    unfold processPathArg
    split_ifs
    · show (st.flagMap.set _ _).get k = _
      rw [StrMap.get_set_ne _ _ (isBoolKey_ne_port hk)]
      exact h
    all_goals exact h
  | false =>
    rw [processArg_flat D st arg hp]
    unfold processFlatArg
    split_ifs with h1 h2 h3 h4 h5 h6
    · exact h
    · exact h
    · exact h
    · show (st.flagMap.set _ _).get k = _
      rw [StrMap.get_set]
      split_ifs
      · rfl
      · exact h
    · exact h
    · show (st.flagMap.set _ _).get k = _
      rw [h6, StrMap.get_set_ne _ _ (isBoolKey_ne_appName hk)]
      exact h
    · show (st.flagMap.set _ _).get k = _
      rw [StrMap.get_set]
      split_ifs with hkf
      · have hb : boolFlags (flagOf arg) = true := by
          rw [← hkf]
          exact isBoolKey_flag (by rw [hkf]; exact flagOf_no_eq arg) hk
        have hv : valueOf arg = "" := by
          by_contra hne
          exact h4 ⟨hb, hne⟩
        rw [hv]
      · exact h

theorem runLoop_boolKey (D : String) (k : String) (hk : IsBoolKey k) (args : List String)
    (st : LoopState) (h : st.flagMap.get k = some "") :
    (runLoop D st args).flagMap.get k = some "" :=
  runLoop_invariant D (fun s => s.flagMap.get k = some "")
    (fun s a hs => processArg_boolKey D s a k hk hs) args st h

/-- A flat-form option of a bool flag with no value or with the value
`true` or `false` binds its key to the empty string. -/
theorem processArg_boolFlag (D : String) (st : LoopState) (arg : String)
    (hp : isPathForm arg = false) (hb : boolFlags (flagOf arg) = true)
    (hv : valueOf arg = "" ∨ valueOf arg = "true" ∨ valueOf arg = "false") :
    processArg D st arg = { st with flagMap := st.flagMap.set (boolKeyOf arg) "" } := by
  obtain ⟨n1, n2, n3, n4⟩ := boolFlags_not_special _ ((boolFlags_iff _).1 hb)
  rw [processArg_flat D st arg hp]
  unfold processFlatArg boolKeyOf
  rw [if_neg (by rw [n4]; exact Bool.false_ne_true), if_neg n1, if_neg n2]
  by_cases hempty : valueOf arg = ""
  · rw [if_neg (fun hc => hc.2 hempty), if_neg n3, if_pos hempty, hempty]
  · have hlit : valueOf arg = util.TrueStr ∨ valueOf arg = util.FalseStr := by
      rcases hv with h | h | h
      · exact absurd h hempty
      · exact Or.inl h
      · exact Or.inr h
    rw [if_pos ⟨hb, hempty⟩, if_pos hlit, if_neg hempty]

theorem boolKeyOf_isBoolKey (arg : String) (hb : boolFlags (flagOf arg) = true)
    (hv : valueOf arg = "" ∨ valueOf arg = "true" ∨ valueOf arg = "false") :
    IsBoolKey (boolKeyOf arg) := by
  refine ⟨flagOf arg, hb, ?_⟩
  unfold boolKeyOf
  rcases hv with h | h | h
  · left
    rw [if_pos h]
  · right; left
    rw [if_neg (by rw [h]; decide), h, folded_true]
  · right; right
    rw [if_neg (by rw [h]; decide), h, folded_false]

theorem baseFlagMap_no_eq (port : Int) (mc : MountConfig) (k : String) (hk : '=' ∈ k.data) :
    (baseFlagMap port mc).get k = none := by
  unfold baseFlagMap
  simp only [StrMap.get]
  split_ifs with h1 h2 h3 h4 h5 h6 h7
  · rw [← h1] at hk; exact absurd hk (by decide)
  · rw [← h2] at hk; exact absurd hk (by decide)
  · rw [← h3] at hk; exact absurd hk (by decide)
  · rw [← h4] at hk; exact absurd hk (by decide)
  · rw [← h5] at hk; exact absurd hk (by decide)
  · rw [← h6] at hk; exact absurd hk (by decide)
  · rw [← h7] at hk; exact absurd hk (by decide)
  · rfl

theorem foldedKeysFrom_step (D : String) (allowed : String → Prop) (st : LoopState)
    (arg : String) (harg : IsFoldedBoolOption arg → allowed arg)
    (h : FoldedKeysFrom allowed st) : FoldedKeysFrom allowed (processArg D st arg) := by
  intro k x hk hget
  cases hp : isPathForm arg with
  | true =>
    rw [processArg_path D st arg hp] at hget
    unfold processPathArg at hget
    have hport : k ≠ "prometheus-port" := by
      intro e
      rw [e] at hk
      exact absurd hk (by decide)
    split_ifs at hget
    · change (st.flagMap.set _ _).get k = some x at hget
      rw [StrMap.get_set_ne _ _ hport] at hget
      exact h k x hk hget
    all_goals exact h k x hk hget
  | false =>
    rw [processArg_flat D st arg hp] at hget
    unfold processFlatArg at hget
    have hflag : k ≠ flagOf arg := by
      intro e
      rw [e] at hk
      exact flagOf_no_eq arg hk
    split_ifs at hget with h1 h2 h3 h4 h5 h6
    · exact h k x hk hget
    · exact h k x hk hget
    · exact h k x hk hget
    · change (st.flagMap.set _ _).get k = some x at hget
      rw [StrMap.get_set] at hget
      split_ifs at hget with hk2
      · injection hget with hx
        refine ⟨hx.symm, ?_⟩
        rw [hk2, flag_eq_value arg h4.2]
        exact harg ⟨hp, h4.1, h5⟩
      · exact h k x hk hget
    · exact h k x hk hget
    · change (st.flagMap.set _ _).get k = some x at hget
      rw [StrMap.get_set_ne _ _ hflag] at hget
      exact h k x hk hget
    · change (st.flagMap.set _ _).get k = some x at hget
      rw [StrMap.get_set_ne _ _ hflag] at hget
      exact h k x hk hget

theorem foldedKeysFrom_run (D : String) (allowed : String → Prop) (args : List String)
    (hargs : ∀ a ∈ args, IsFoldedBoolOption a → allowed a) :
    ∀ st : LoopState, FoldedKeysFrom allowed st → FoldedKeysFrom allowed (runLoop D st args) := by
  induction args with
  | nil => intro st h; exact h
  | cons a rest ih =>
    intro st h
    rw [runLoop_cons]
    exact ih (fun b hb => hargs b (List.mem_cons_of_mem _ hb)) _
      (foldedKeysFrom_step D allowed st a (hargs a (List.mem_cons_self _ _)) h)

/-- After `prepareMountArgs`, a key of the flat map that contains `=` is
bound to the empty string and is itself an option of the list, in flat form,
of a bool flag with the value `true` or `false`. -/
theorem prepareMountArgs_foldedKeys (D : String) (port : Int) (mc : MountConfig) (k x : String)
    (hk : '=' ∈ k.data) (hget : (prepareMountArgs D port mc).mc.FlagMap.get k = some x) :
    x = "" ∧ k ∈ mc.Options ∧ IsFoldedBoolOption k := by
  have hinit : FoldedKeysFrom (fun a => a ∈ mc.Options ∧ IsFoldedBoolOption a)
      (initLoop port mc) := by
    intro k' x' hk' hget'
    rw [show (initLoop port mc).flagMap = baseFlagMap port mc from rfl,
      baseFlagMap_no_eq port mc k' hk'] at hget'
    cases hget'
  exact foldedKeysFrom_run D _ mc.Options (fun a ha hf => ⟨ha, hf⟩) _ hinit k x hk hget

/-- After `prepareMountArgs`, the key of every flat-form option of a bool
flag with no value or the value `true` or `false` is bound to the empty
string. -/
theorem prepareMountArgs_boolKey (D : String) (port : Int) (mc : MountConfig) (arg : String)
    (harg : arg ∈ mc.Options) (hp : isPathForm arg = false)
    (hb : boolFlags (flagOf arg) = true)
    (hv : valueOf arg = "" ∨ valueOf arg = "true" ∨ valueOf arg = "false") :
    (prepareMountArgs D port mc).mc.FlagMap.get (boolKeyOf arg) = some "" := by
  obtain ⟨pre, post, hsplit⟩ := List.append_of_mem harg
  show (runLoop D (initLoop port mc) mc.Options).flagMap.get (boolKeyOf arg) = _
  rw [hsplit, runLoop_append, runLoop_cons]
  apply runLoop_boolKey D _ (boolKeyOf_isBoolKey arg hb hv)
  rw [processArg_boolFlag D _ arg hp hb hv]
  exact StrMap.get_set_self _ _ _

theorem flagOf_valueOf_folded (b v : String) (hb : boolFlags b = true) :
    flagOf (b ++ "=" ++ v) = b ∧ valueOf (b ++ "=" ++ v) = v :=
  flagOf_valueOf_pair b v (boolFlags_no_eq b ((boolFlags_iff b).1 hb))

theorem boolKeyOf_forms (b : String) (hb : boolFlags b = true) :
    boolKeyOf b = b ∧ boolKeyOf (b ++ "=true") = b ++ "=true" ∧
      boolKeyOf (b ++ "=false") = b ++ "=false" := by
  have hno := boolFlags_no_eq b ((boolFlags_iff b).1 hb)
  have h0 := flagOf_valueOf_bare b hno
  have h1 := flagOf_valueOf_folded b "true" hb
  have h2 := flagOf_valueOf_folded b "false" hb
  rw [folded_true] at h1
  rw [folded_false] at h2
  refine ⟨?_, ?_, ?_⟩
  · unfold boolKeyOf
    rw [if_pos h0.2, h0.1]
  · unfold boolKeyOf
    rw [h1.1, h1.2, if_neg (by decide), folded_true]
  · unfold boolKeyOf
    rw [h2.1, h2.2, if_neg (by decide), folded_false]

/-! ## C11: bool-flag validation -/

/-- C11: bool-flag validation.  For every option list, every key of the flat
map after `prepareMountArgs` that contains `=` has the form `b=true` or
`b=false` with `b` a bool flag and is bound to the empty string; and a
flat-form option `b=v` with `b` a bool flag and `v` non-empty and different
from `true` and `false` changes neither map: its only effect is that the
combined string `b=v`, which is the option string itself, is recorded as
invalid. -/
theorem C11_bool_flag_validation (D : String) (port : Int) (mc : MountConfig) :
    (∀ k : String, '=' ∈ k.data → (prepareMountArgs D port mc).mc.FlagMap.has k = true →
      (∃ b, boolFlags b = true ∧ (k = b ++ "=true" ∨ k = b ++ "=false")) ∧
      (prepareMountArgs D port mc).mc.FlagMap.get k = some "") ∧
    (∀ (st : LoopState) (b v : String), boolFlags b = true →
      v ≠ "" → v ≠ "true" → v ≠ "false" → isPathForm (b ++ "=" ++ v) = false →
      processArg D st (b ++ "=" ++ v) =
        { st with invalidArgs := st.invalidArgs ++ [b ++ "=" ++ v] }) := by
  constructor
  · intro k hk hhas
    unfold StrMap.has at hhas
    cases hget : (prepareMountArgs D port mc).mc.FlagMap.get k with
    | none => rw [hget] at hhas; cases hhas
    | some x =>
      obtain ⟨hx, _, _, hb, hv⟩ := prepareMountArgs_foldedKeys D port mc k x hk hget
      have hval : valueOf k ≠ "" := by
        rcases hv with h | h <;> rw [h] <;> decide
      have hkey := flag_eq_value k hval
      refine ⟨⟨flagOf k, hb, ?_⟩, by rw [hx]⟩
      rcases hv with h | h
      · left
        rw [h, folded_true] at hkey
        exact hkey.symm
      · right
        rw [h, folded_false] at hkey
        exact hkey.symm
  · intro st b v hb hv ht hf hp
    obtain ⟨n1, n2, _, n4⟩ := boolFlags_not_special b ((boolFlags_iff b).1 hb)
    obtain ⟨e1, e2⟩ := flagOf_valueOf_folded b v hb
    rw [processArg_flat D st _ hp, e1, e2]
    unfold processFlatArg
    have hlit : ¬ (v = util.TrueStr ∨ v = util.FalseStr) := by
      rintro (e | e)
      · exact ht e
      · exact hf e
    rw [if_neg (by rw [n4]; exact Bool.false_ne_true), if_neg n1, if_neg n2,
      if_pos ⟨hb, hv⟩, if_neg hlit]

/-- C11 at the options `debug_fuse=true` and `debug_fuse=notabool`: the
first is stored under the key `debug_fuse=true` with the empty string, the
second only recorded as invalid. -/
theorem C11_bool_flag_validation_witness :
    (prepareMountArgs "disable-metrics-for-gke" 62990
      (exampleConfig ["debug_fuse=true", "debug_fuse=notabool"])).mc.FlagMap.get
        "debug_fuse=true" = some "" ∧
    (prepareMountArgs "disable-metrics-for-gke" 62990
      (exampleConfig ["debug_fuse=true", "debug_fuse=notabool"])).invalidArgs =
        ["debug_fuse=notabool"] ∧
    processArg "disable-metrics-for-gke" (initLoop 62990 (exampleConfig []))
      ("debug_fuse" ++ "=" ++ "notabool") =
      { initLoop 62990 (exampleConfig []) with invalidArgs := [] ++ ["debug_fuse=notabool"] } := by
  have h := C11_bool_flag_validation "disable-metrics-for-gke" 62990
    (exampleConfig ["debug_fuse=true", "debug_fuse=notabool"])
  refine ⟨(h.1 "debug_fuse=true" (by decide) (by decide)).2, by decide, ?_⟩
  exact h.2 (initLoop 62990 (exampleConfig [])) "debug_fuse" "notabool" (by decide)
    (by decide) (by decide) (by decide) (by decide)

/-! ## C20: several keys of one bool flag -/

/-- C20, the claim as stated fails: after the options `implicit-dirs=true`
and `implicit-dirs=false`, the flat map holds both keys `implicit-dirs=true`
and `implicit-dirs=false` of the bool flag `implicit-dirs`. -/
theorem C20_bool_flag_last_writer_counterexample :
    boolFlags "implicit-dirs" = true ∧
    (prepareMountArgs "disable-metrics-for-gke" 62990
      (exampleConfig ["implicit-dirs=true", "implicit-dirs=false"])).mc.FlagMap.has
        "implicit-dirs=true" = true ∧
    (prepareMountArgs "disable-metrics-for-gke" 62990
      (exampleConfig ["implicit-dirs=true", "implicit-dirs=false"])).mc.FlagMap.has
        "implicit-dirs=false" = true := by
  decide

/-- C20 as amended.  Last writer wins per key, not per flag: for every
option list, every flat-form option of a bool flag `b` that has no value or
the value `true` or `false` leaves its own key (`b`, `b=true` or `b=false`)
in the flat map bound to the empty string, whatever later options set `b`
to; so the map holds `b=true` exactly when the list has the flat-form option
`b=true`, `b=false` exactly when it has `b=false`, and it holds both when
the list has both. -/
theorem C20_bool_flag_keys_accumulate (D : String) (port : Int) (mc : MountConfig) :
    (∀ arg ∈ mc.Options, isPathForm arg = false → boolFlags (flagOf arg) = true →
      (valueOf arg = "" ∨ valueOf arg = "true" ∨ valueOf arg = "false") →
      (prepareMountArgs D port mc).mc.FlagMap.get (boolKeyOf arg) = some "") ∧
    (∀ b, boolFlags b = true →
      boolKeyOf b = b ∧ boolKeyOf (b ++ "=true") = b ++ "=true" ∧
      boolKeyOf (b ++ "=false") = b ++ "=false" ∧
      ((prepareMountArgs D port mc).mc.FlagMap.has (b ++ "=true") = true ↔
        (b ++ "=true") ∈ mc.Options ∧ isPathForm (b ++ "=true") = false) ∧
      ((prepareMountArgs D port mc).mc.FlagMap.has (b ++ "=false") = true ↔
        (b ++ "=false") ∈ mc.Options ∧ isPathForm (b ++ "=false") = false)) := by
  refine ⟨prepareMountArgs_boolKey D port mc, ?_⟩
  intro b hb
  obtain ⟨k0, k1, k2⟩ := boolKeyOf_forms b hb
  have h1 := flagOf_valueOf_folded b "true" hb
  have h2 := flagOf_valueOf_folded b "false" hb
  rw [folded_true] at h1
  rw [folded_false] at h2
  have key : ∀ k : String, '=' ∈ k.data → flagOf k = b →
      (valueOf k = "true" ∨ valueOf k = "false") → boolKeyOf k = k →
      ((prepareMountArgs D port mc).mc.FlagMap.has k = true ↔
        k ∈ mc.Options ∧ isPathForm k = false) := by
    intro k hk hfl hv hkey
    constructor
    · intro hhas
      unfold StrMap.has at hhas
      cases hget : (prepareMountArgs D port mc).mc.FlagMap.get k with
      | none => rw [hget] at hhas; cases hhas
      | some x =>
        obtain ⟨_, hmem, hp, _, _⟩ := prepareMountArgs_foldedKeys D port mc k x hk hget
        exact ⟨hmem, hp⟩
    · rintro ⟨hmem, hp⟩
      have := prepareMountArgs_boolKey D port mc k hmem hp (by rw [hfl]; exact hb)
        (Or.inr hv)
      rw [hkey] at this
      unfold StrMap.has
      rw [this]
      rfl
  exact ⟨k0, k1, k2,
    key _ (has_eq_of_suffix b "=true" (by decide)) h1.1 (Or.inl h1.2) k1,
    key _ (has_eq_of_suffix b "=false" (by decide)) h2.1 (Or.inr h2.2) k2⟩

/-- C20 as amended, at the options `implicit-dirs`, `implicit-dirs=false`
and `implicit-dirs=true`: all three keys stay in the flat map. -/
theorem C20_bool_flag_keys_witness :
    (prepareMountArgs "disable-metrics-for-gke" 62990
      (exampleConfig ["implicit-dirs", "implicit-dirs=false", "implicit-dirs=true"])).mc.FlagMap.get
        (boolKeyOf "implicit-dirs") = some "" ∧
    (prepareMountArgs "disable-metrics-for-gke" 62990
      (exampleConfig ["implicit-dirs", "implicit-dirs=false", "implicit-dirs=true"])).mc.FlagMap.get
        (boolKeyOf "implicit-dirs=false") = some "" ∧
    (prepareMountArgs "disable-metrics-for-gke" 62990
      (exampleConfig ["implicit-dirs", "implicit-dirs=false", "implicit-dirs=true"])).mc.FlagMap.get
        (boolKeyOf "implicit-dirs=true") = some "" ∧
    boolKeyOf "implicit-dirs" = "implicit-dirs" ∧
    boolKeyOf "implicit-dirs=false" = "implicit-dirs=false" := by
  have h := (C20_bool_flag_keys_accumulate "disable-metrics-for-gke" 62990
    (exampleConfig ["implicit-dirs", "implicit-dirs=false", "implicit-dirs=true"])).1
  exact ⟨h "implicit-dirs" (by decide) (by decide) (by decide) (by decide),
    h "implicit-dirs=false" (by decide) (by decide) (by decide) (by decide),
    h "implicit-dirs=true" (by decide) (by decide) (by decide) (by decide),
    by decide, by decide⟩

/-! ## C12: the two options kept by the sidecar -/

theorem processArg_identity (D : String) (st : LoopState) (arg : String) :
    (processArg D st arg).mc.TokenServerIdentityProvider =
      if isIdentityOption arg = true then valueOf arg
      else st.mc.TokenServerIdentityProvider := by
  unfold isIdentityOption
  cases hp : isPathForm arg with
  | true =>
    rw [processArg_path D st arg hp]
    unfold processPathArg
    simp only [Bool.not_true, Bool.false_and, Bool.false_eq_true, if_false]
    split_ifs <;> rfl
  | false =>
    rw [processArg_flat D st arg hp]
    unfold processFlatArg
    simp only [Bool.not_false, Bool.true_and, decide_eq_true_eq]
    by_cases hf : flagOf arg = identityProviderFlag
    · rw [if_pos hf, if_neg (by rw [hf]; decide), if_pos hf]
    · rw [if_neg hf]
      split_ifs <;> rfl

theorem processArg_hostNetwork (D : String) (st : LoopState) (arg : String) :
    (processArg D st arg).mc.HostNetworkKSAOptIn =
      if isHostNetworkOption arg = true then decide (valueOf arg = "true")
      else st.mc.HostNetworkKSAOptIn := by
  unfold isHostNetworkOption
  cases hp : isPathForm arg with
  | true =>
    rw [processArg_path D st arg hp]
    unfold processPathArg
    simp only [Bool.not_true, Bool.false_and, Bool.false_eq_true, if_false]
    split_ifs <;> rfl
  | false =>
    rw [processArg_flat D st arg hp]
    unfold processFlatArg
    simp only [Bool.not_false, Bool.true_and, decide_eq_true_eq]
    by_cases hf : flagOf arg = hostNetworkKSAOptInFlag
    · rw [if_pos hf, if_neg (by rw [hf]; decide), if_neg (by rw [hf]; decide), if_pos hf]
      rfl
    · rw [if_neg hf]
      split_ifs <;> rfl

/-- A flat-form option with one of the two keys writes neither map. -/
theorem processArg_special_maps (D : String) (st : LoopState) (arg : String)
    (h : isIdentityOption arg = true ∨ isHostNetworkOption arg = true) :
    (processArg D st arg).flagMap = st.flagMap ∧
    (processArg D st arg).configFileFlagMap = st.configFileFlagMap ∧
    (processArg D st arg).invalidArgs = st.invalidArgs := by
  have hp : isPathForm arg = false := by
    rcases h with h | h
    · simp only [isIdentityOption, Bool.and_eq_true, Bool.not_eq_true'] at h
      exact h.1
    · simp only [isHostNetworkOption, Bool.and_eq_true, Bool.not_eq_true'] at h
      exact h.1
  rw [processArg_flat D st arg hp]
  unfold processFlatArg
  rcases h with h | h
  · simp only [isIdentityOption, Bool.and_eq_true, decide_eq_true_eq] at h
    rw [if_neg (by rw [h.2]; decide), if_pos h.2]
    exact ⟨rfl, rfl, rfl⟩
  · simp only [isHostNetworkOption, Bool.and_eq_true, decide_eq_true_eq] at h
    rw [if_neg (by rw [h.2]; decide), if_neg (by rw [h.2]; decide), if_pos h.2]
    exact ⟨rfl, rfl, rfl⟩

theorem runLoop_identity_none (D : String) (args : List String)
    (h : ∀ o ∈ args, isIdentityOption o = false) :
    ∀ st : LoopState, (runLoop D st args).mc.TokenServerIdentityProvider =
      st.mc.TokenServerIdentityProvider := by
  induction args with
  | nil => intro st; rfl
  | cons a rest ih =>
    intro st
    rw [runLoop_cons, ih (fun o ho => h o (List.mem_cons_of_mem _ ho)), processArg_identity,
      h a (List.mem_cons_self _ _)]
    rfl

theorem runLoop_hostNetwork_none (D : String) (args : List String)
    (h : ∀ o ∈ args, isHostNetworkOption o = false) :
    ∀ st : LoopState, (runLoop D st args).mc.HostNetworkKSAOptIn =
      st.mc.HostNetworkKSAOptIn := by
  induction args with
  | nil => intro st; rfl
  | cons a rest ih =>
    intro st
    rw [runLoop_cons, ih (fun o ho => h o (List.mem_cons_of_mem _ ho)),
      processArg_hostNetwork, h a (List.mem_cons_self _ _)]
    rfl

theorem special_not_accepted (arg : String) (hacc : isAcceptedFlat arg = true) :
    flagOf arg ≠ identityProviderFlag ∧ flagOf arg ≠ hostNetworkKSAOptInFlag := by
  simp only [isAcceptedFlat, Bool.and_eq_true, decide_eq_true_eq] at hacc
  exact ⟨hacc.1.1.2, hacc.1.2⟩

/-- A list with an element satisfying `p` splits at the last such element. -/
theorem exists_last_option (p : String → Bool) (l : List String) (h : ∃ o ∈ l, p o = true) :
    ∃ pre arg post, l = pre ++ arg :: post ∧ p arg = true ∧ ∀ o ∈ post, p o = false := by
  induction l with
  | nil =>
    obtain ⟨o, ho, _⟩ := h
    exact absurd ho (List.not_mem_nil o)
  | cons a rest ih =>
    by_cases hrest : ∃ o ∈ rest, p o = true
    · obtain ⟨pre, arg, post, hsplit, harg, hpost⟩ := ih hrest
      exact ⟨a :: pre, arg, post, by rw [hsplit]; rfl, harg, hpost⟩
    · obtain ⟨o, ho, hpo⟩ := h
      have ha : p a = true := by
        rcases List.mem_cons.1 ho with e | e
        · rw [← e]; exact hpo
        · exact absurd ⟨o, e, hpo⟩ hrest
      refine ⟨[], a, rest, rfl, ha, ?_⟩
      intro o' ho'
      cases hpo' : p o' with
      | false => rfl
      | true => exact absurd ⟨o', ho', hpo'⟩ hrest

/-- C12: extraction of the sidecar-only options.  Processing a flat-form
option whose flag is `token-server-identity-provider` or `hnw-ksa` changes
neither map, and neither name is a key of the flat map after
`prepareMountArgs`.  `TokenServerIdentityProvider` ends as the value of the
last flat-form identity-provider option, and as it was on entry when there
is none; `HostNetworkKSAOptIn` ends true exactly when the last flat-form
`hnw-ksa` option has the value `true` (a bare `hnw-ksa` or any other value
gives false), and as it was on entry when there is none; on entry it is
false in a `MountConfig` built by `NewMountConfig`, and then it ends true
exactly when there is a last flat-form `hnw-ksa` option and its value is
`true`. -/
theorem C12_sidecar_only_options (D : String) (port : Int) (mc : MountConfig) :
    (∀ (st : LoopState) (arg : String),
      isIdentityOption arg = true ∨ isHostNetworkOption arg = true →
      (processArg D st arg).flagMap = st.flagMap ∧
      (processArg D st arg).configFileFlagMap = st.configFileFlagMap) ∧
    (prepareMountArgs D port mc).mc.FlagMap.get "token-server-identity-provider" = none ∧
    (prepareMountArgs D port mc).mc.FlagMap.get "hnw-ksa" = none ∧
    (∀ pre arg post, mc.Options = pre ++ arg :: post → isIdentityOption arg = true →
      (∀ o ∈ post, isIdentityOption o = false) →
      (prepareMountArgs D port mc).mc.TokenServerIdentityProvider = valueOf arg) ∧
    ((∀ o ∈ mc.Options, isIdentityOption o = false) →
      (prepareMountArgs D port mc).mc.TokenServerIdentityProvider =
        mc.TokenServerIdentityProvider) ∧
    (∀ pre arg post, mc.Options = pre ++ arg :: post → isHostNetworkOption arg = true →
      (∀ o ∈ post, isHostNetworkOption o = false) →
      ((prepareMountArgs D port mc).mc.HostNetworkKSAOptIn = true ↔ valueOf arg = "true")) ∧
    ((∀ o ∈ mc.Options, isHostNetworkOption o = false) →
      (prepareMountArgs D port mc).mc.HostNetworkKSAOptIn = mc.HostNetworkKSAOptIn) ∧
    (mc.HostNetworkKSAOptIn = false →
      ((prepareMountArgs D port mc).mc.HostNetworkKSAOptIn = true ↔
        ∃ pre arg post, mc.Options = pre ++ arg :: post ∧ isHostNetworkOption arg = true ∧
          (∀ o ∈ post, isHostNetworkOption o = false) ∧ valueOf arg = "true")) := by
  have hlast : ∀ pre arg post, mc.Options = pre ++ arg :: post →
      isHostNetworkOption arg = true → (∀ o ∈ post, isHostNetworkOption o = false) →
      ((prepareMountArgs D port mc).mc.HostNetworkKSAOptIn = true ↔ valueOf arg = "true") := by
    intro pre arg post hsplit harg hpost
    show (runLoop D (initLoop port mc) mc.Options).mc.HostNetworkKSAOptIn = true ↔ _
    rw [hsplit, runLoop_append, runLoop_cons, runLoop_hostNetwork_none D post hpost,
      processArg_hostNetwork, if_pos harg]
    exact decide_eq_true_iff
  have hnone : (∀ o ∈ mc.Options, isHostNetworkOption o = false) →
      (prepareMountArgs D port mc).mc.HostNetworkKSAOptIn = mc.HostNetworkKSAOptIn := by
    intro hnone
    show (runLoop D (initLoop port mc) mc.Options).mc.HostNetworkKSAOptIn = _
    rw [runLoop_hostNetwork_none D _ hnone]
    rfl
  refine ⟨?_, ?_, ?_, ?_, ?_, hlast, hnone, ?_⟩
  rotate_left 5
  · intro hentry
    constructor
    · intro htrue
      by_cases hex : ∃ o ∈ mc.Options, isHostNetworkOption o = true
      · obtain ⟨pre, arg, post, hsplit, harg, hpost⟩ :=
          exists_last_option isHostNetworkOption mc.Options hex
        exact ⟨pre, arg, post, hsplit, harg, hpost,
          (hlast pre arg post hsplit harg hpost).1 htrue⟩
      · have hall : ∀ o ∈ mc.Options, isHostNetworkOption o = false := by
          intro o ho
          cases hpo : isHostNetworkOption o with
          | false => rfl
          | true => exact absurd ⟨o, ho, hpo⟩ hex
        rw [hnone hall, hentry] at htrue
        cases htrue
    · rintro ⟨pre, arg, post, hsplit, harg, hpost, hv⟩
      exact (hlast pre arg post hsplit harg hpost).2 hv
  · intro st arg h
    exact ⟨(processArg_special_maps D st arg h).1, (processArg_special_maps D st arg h).2.1⟩
  · show (runLoop D (initLoop port mc) mc.Options).flagMap.get _ = none
    rw [runLoop_flagMap_get_other D "token-server-identity-provider" (by decide) (by decide)
      mc.Options (fun o _ hacc => (special_not_accepted o hacc).1)]
    simp [initLoop, baseFlagMap, StrMap.get]
  · show (runLoop D (initLoop port mc) mc.Options).flagMap.get _ = none
    rw [runLoop_flagMap_get_other D "hnw-ksa" (by decide) (by decide)
      mc.Options (fun o _ hacc => (special_not_accepted o hacc).2)]
    simp [initLoop, baseFlagMap, StrMap.get]
  · intro pre arg post hsplit harg hpost
    show (runLoop D (initLoop port mc) mc.Options).mc.TokenServerIdentityProvider = _
    rw [hsplit, runLoop_append, runLoop_cons, runLoop_identity_none D post hpost,
      processArg_identity, if_pos harg]
  · intro hnone
    show (runLoop D (initLoop port mc) mc.Options).mc.TokenServerIdentityProvider = _
    rw [runLoop_identity_none D _ hnone]
    rfl

/-- C12 at concrete options: the last identity-provider option gives the
field, a bare `hnw-ksa` after `hnw-ksa=true` gives false, and neither name
is a key of the flat map. -/
theorem C12_sidecar_only_options_witness :
    (prepareMountArgs "disable-metrics-for-gke" 62990
      (exampleConfig ["token-server-identity-provider=a", "hnw-ksa=true",
        "token-server-identity-provider=b", "hnw-ksa"])).mc.TokenServerIdentityProvider =
      valueOf "token-server-identity-provider=b" ∧
    valueOf "token-server-identity-provider=b" = "b" ∧
    ¬ (prepareMountArgs "disable-metrics-for-gke" 62990
      (exampleConfig ["token-server-identity-provider=a", "hnw-ksa=true",
        "token-server-identity-provider=b", "hnw-ksa"])).mc.HostNetworkKSAOptIn = true ∧
    (prepareMountArgs "disable-metrics-for-gke" 62990
      (exampleConfig ["token-server-identity-provider=a", "hnw-ksa=true",
        "token-server-identity-provider=b", "hnw-ksa"])).mc.FlagMap.get "hnw-ksa" = none := by
  have h := C12_sidecar_only_options "disable-metrics-for-gke" 62990
    (exampleConfig ["token-server-identity-provider=a", "hnw-ksa=true",
      "token-server-identity-provider=b", "hnw-ksa"])
  refine ⟨h.2.2.2.1 ["token-server-identity-provider=a", "hnw-ksa=true"]
      "token-server-identity-provider=b" ["hnw-ksa"] rfl (by decide) (by decide),
    by decide, ?_, h.2.2.1⟩
  intro hc
  have := (h.2.2.2.2.2.1 ["token-server-identity-provider=a", "hnw-ksa=true",
    "token-server-identity-provider=b"] "hnw-ksa" [] rfl (by decide) (by decide)).1 hc
  exact absurd this (by decide)

/-! ## C18: the cache directory -/

theorem processArg_cacheDir_field (D : String) (st : LoopState) (arg : String) :
    (processArg D st arg).mc.CacheDir = st.mc.CacheDir := by
  have h := processArg_effect D st arg
  generalize processArg D st arg = st' at h
  cases h <;> rfl

theorem runLoop_cacheDir_field (D : String) (args : List String) (st : LoopState) :
    (runLoop D st args).mc.CacheDir = st.mc.CacheDir := by
  induction args generalizing st with
  | nil => rfl
  | cons a rest ih => rw [runLoop_cons, ih, processArg_cacheDir_field]

/-- The config-file map after the path-form branch. -/
theorem processPathArg_config (D : String) (st : LoopState) (arg f v : String) :
    (processPathArg D st arg f v).configFileFlagMap =
      if f = D ∨ disallowedFlags f = true then st.configFileFlagMap
      else if f = "file-cache:max-size-mb" ∧ v ≠ "0" then
        (st.configFileFlagMap.set f v).set "cache-dir" st.mc.CacheDir
      else st.configFileFlagMap.set f v := by
  unfold processPathArg
  by_cases h1 : f = D
  · rw [if_pos h1, if_pos (Or.inl h1)]
    by_cases ht : v = util.TrueStr
    · rw [if_pos ht]
    · rw [if_neg ht]
  · rw [if_neg h1]
    by_cases h3 : disallowedFlags f = true
    · have h2 : ¬ (f = "file-cache:max-size-mb" ∧ v ≠ "0") := by
        rintro ⟨e, _⟩
        rw [e] at h3
        exact absurd h3 (by decide)
      rw [if_pos (Or.inr h3)]
      simp only [h3, h2, if_true, if_false]
    · have hn : ¬ (f = D ∨ disallowedFlags f = true) := by
        rintro (e | e)
        · exact h1 e
        · exact h3 e
      rw [if_neg hn]
      have hd : disallowedFlags f = false := by simpa using h3
      by_cases h2 : f = "file-cache:max-size-mb" ∧ v ≠ "0"
      · simp only [hd, Bool.false_eq_true, if_false, if_pos h2]
      · simp only [hd, Bool.false_eq_true, if_false, if_neg h2]

/-- One iteration sets the cache directory when the option enables the
cache and leaves the entry as it was otherwise. -/
theorem processArg_cacheDir_entry (D : String) (st : LoopState) (arg : String) :
    (processArg D st arg).configFileFlagMap.get "cache-dir" =
      if enablesCache D arg = true then some st.mc.CacheDir
      else st.configFileFlagMap.get "cache-dir" := by
  cases hp : isPathForm arg with
  | false =>
    rw [(processArg_flat_config D st arg hp).1]
    simp [enablesCache, hp]
  | true =>
    rw [processArg_path D st arg hp, processPathArg_config]
    by_cases h1 : pathOf arg = D ∨ disallowedFlags (pathOf arg) = true
    · have he : enablesCache D arg = false := by
        simp only [enablesCache, hp, Bool.true_and, Bool.and_eq_false_iff,
          decide_eq_false_iff_not, not_not]
        rcases h1 with e | e
        · exact Or.inl (Or.inl e)
        · left; right
          intro hk
          rw [hk] at e
          exact absurd e (by decide)
      rw [if_pos h1, he]
      rfl
    · rw [if_neg h1]
      have hD : pathOf arg ≠ D := fun e => h1 (Or.inl e)
      have hdis : disallowedFlags (pathOf arg) = false := by
        cases hd : disallowedFlags (pathOf arg) with
        | false => rfl
        | true => exact absurd (Or.inr hd) h1
      by_cases h2 : pathOf arg = "file-cache:max-size-mb" ∧ pathValueOf arg ≠ "0"
      · have he : enablesCache D arg = true := by
          simp only [enablesCache, hp, Bool.true_and, Bool.and_eq_true, decide_eq_true_eq]
          exact ⟨⟨hD, h2.1⟩, h2.2⟩
        rw [if_pos h2, he, if_pos rfl]
        exact StrMap.get_set_self _ _ _
      · have he : enablesCache D arg = false := by
          cases hc : enablesCache D arg with
          | false => rfl
          | true =>
            simp only [enablesCache, hp, Bool.true_and, Bool.and_eq_true,
              decide_eq_true_eq] at hc
            exact absurd ⟨hc.1.2, hc.2⟩ h2
        rw [if_neg h2, he]
        exact StrMap.get_set_ne _ _ (ne_of_disallowed (by decide) hdis)

theorem runLoop_cacheDir_entry (D : String) (args : List String) :
    ∀ st : LoopState, (runLoop D st args).configFileFlagMap.get "cache-dir" =
      if args.any (enablesCache D) = true then some st.mc.CacheDir
      else st.configFileFlagMap.get "cache-dir" := by
  induction args with
  | nil => intro st; simp [runLoop_nil]
  | cons a rest ih =>
    intro st
    rw [runLoop_cons, ih, processArg_cacheDir_entry, processArg_cacheDir_field]
    by_cases h1 : rest.any (enablesCache D) = true
    · simp [h1]
    · by_cases h2 : enablesCache D a = true
      · simp [h1, h2]
      · simp [h1, h2]

theorem sizeLimitInv_step (D : String) (st : LoopState) (arg : String)
    (h : SizeLimitInv st) : SizeLimitInv (processArg D st arg) := by
  intro v hv hv0
  rw [processArg_cacheDir_field]
  cases hp : isPathForm arg with
  | false =>
    rw [(processArg_flat_config D st arg hp).1] at hv ⊢
    exact h v hv hv0
  | true =>
    rw [processArg_cacheDir_entry]
    by_cases he : enablesCache D arg = true
    · rw [if_pos he]
    · rw [if_neg he]
      apply h v _ hv0
      rw [processArg_path D st arg hp, processPathArg_config] at hv
      by_cases h1 : pathOf arg = D ∨ disallowedFlags (pathOf arg) = true
      · rw [if_pos h1] at hv
        exact hv
      · rw [if_neg h1] at hv
        have hD : pathOf arg ≠ D := fun e => h1 (Or.inl e)
        have h2 : ¬ (pathOf arg = "file-cache:max-size-mb" ∧ pathValueOf arg ≠ "0") := by
          intro hc
          apply he
          simp only [enablesCache, hp, Bool.true_and, Bool.and_eq_true, decide_eq_true_eq]
          exact ⟨⟨hD, hc.1⟩, hc.2⟩
        rw [if_neg h2, StrMap.get_set] at hv
        by_cases hk : "file-cache:max-size-mb" = pathOf arg
        · rw [if_pos hk] at hv
          injection hv with hv
          have hzero : pathValueOf arg = "0" := by
            by_contra hne
            exact h2 ⟨hk.symm, hne⟩
          rw [hzero] at hv
          exact absurd hv.symm hv0
        · rw [if_neg hk] at hv
          exact hv

theorem sizeLimitInv_run (D : String) (port : Int) (mc : MountConfig) :
    SizeLimitInv (runLoop D (initLoop port mc) mc.Options) :=
  runLoop_invariant D SizeLimitInv (fun st a h => sizeLimitInv_step D st a h) mc.Options _
    (fun v hv _ => by
      have : baseConfigFileFlagMap.get "file-cache:max-size-mb" = none := by decide
      rw [show (initLoop port mc).configFileFlagMap = baseConfigFileFlagMap from rfl, this] at hv
      cases hv)

theorem processArg_enablesCache_has (D : String) (st : LoopState) (arg : String)
    (h : enablesCache D arg = true) :
    (processArg D st arg).configFileFlagMap.has "file-cache:max-size-mb" = true := by
  simp only [enablesCache, Bool.and_eq_true, decide_eq_true_eq] at h
  obtain ⟨⟨⟨hp, hD⟩, hk⟩, hv⟩ := h
  have hn : ¬ (pathOf arg = D ∨ disallowedFlags (pathOf arg) = true) := by
    rintro (e | e)
    · exact hD e
    · rw [hk] at e
      exact absurd e (by decide)
  rw [processArg_path D st arg hp, processPathArg_config, if_neg hn, if_pos ⟨hk, hv⟩,
    StrMap.has_set, StrMap.has_set, hk]
  simp

theorem prepareMountArgs_sizeLimit_absent (D : String) (port : Int) (mc : MountConfig)
    (h : (runLoop D (initLoop port mc) mc.Options).configFileFlagMap.get
      "file-cache:max-size-mb" = none) :
    mc.Options.any (enablesCache D) = false := by
  cases hany : mc.Options.any (enablesCache D) with
  | false => rfl
  | true =>
    obtain ⟨arg, harg, he⟩ := List.any_eq_true.1 hany
    obtain ⟨pre, post, hsplit⟩ := List.append_of_mem harg
    have hhas : (runLoop D (initLoop port mc) mc.Options).configFileFlagMap.has
        "file-cache:max-size-mb" = true := by
      rw [hsplit, runLoop_append, runLoop_cons]
      exact (runLoop_keeps_keys D _ post _).2 (processArg_enablesCache_has D _ arg he)
    unfold StrMap.has at hhas
    rw [h] at hhas
    cases hhas

/-- C18, the claim as stated fails: after the options
`file-cache:max-size-mb:100` and `file-cache:max-size-mb:0`, the config-file
map binds `cache-dir` to the cache path although its size-limit entry is
`0`. -/
theorem C18_cache_dir_iff_counterexample :
    ∃ cm, (prepareMountArgs "disable-metrics-for-gke" 62990
        (exampleConfig ["file-cache:max-size-mb:100",
          "file-cache:max-size-mb:0"])).mc.ConfigFileFlagMap = some cm ∧
      cm.get "cache-dir" = some (exampleConfig ["file-cache:max-size-mb:100",
          "file-cache:max-size-mb:0"]).CacheDir ∧
      cm.get "file-cache:max-size-mb" = some "0" ∧
      (exampleConfig ["file-cache:max-size-mb:100", "file-cache:max-size-mb:0"]).CacheDir ≠ "" :=
  ⟨_, rfl, by decide, by decide, by decide⟩

/-- C18 as amended.  For every option list, in the config-file map after
`prepareMountArgs` the `cache-dir` entry is `mc.CacheDir` when some
path-form option of the list (not the metrics toggle) has the path
`file-cache:max-size-mb` and a value other than `0`, and the empty string
otherwise.  So it is `mc.CacheDir` whenever the size-limit entry is present
with a value other than `0`, and the empty string whenever the size-limit
entry is absent; a later size limit `0` does not reset it. -/
theorem C18_cache_dir_amended (D : String) (port : Int) (mc : MountConfig) :
    ∃ cm, (prepareMountArgs D port mc).mc.ConfigFileFlagMap = some cm ∧
      cm.get "cache-dir" =
        some (if mc.Options.any (enablesCache D) = true then mc.CacheDir else "") ∧
      (∀ v, cm.get "file-cache:max-size-mb" = some v → v ≠ "0" →
        cm.get "cache-dir" = some mc.CacheDir) ∧
      (cm.get "file-cache:max-size-mb" = none → cm.get "cache-dir" = some "") := by
  have hentry : (runLoop D (initLoop port mc) mc.Options).configFileFlagMap.get "cache-dir" =
      some (if mc.Options.any (enablesCache D) = true then mc.CacheDir else "") := by
    rw [runLoop_cacheDir_entry]
    by_cases h : mc.Options.any (enablesCache D) = true
    · rw [if_pos h, if_pos h]
      rfl
    · rw [if_neg h, if_neg h]
      rfl
  refine ⟨_, rfl, hentry, ?_, ?_⟩
  · intro v hv hv0
    have := sizeLimitInv_run D port mc v hv hv0
    rw [runLoop_cacheDir_field] at this
    exact this
  · intro hnone
    rw [hentry, prepareMountArgs_sizeLimit_absent D port mc hnone]
    rfl

/-- C18 as amended, at concrete option lists: a nonzero size limit sets the
cache directory, also when a later option sets the limit to `0`; a zero
size limit alone leaves it empty. -/
theorem C18_cache_dir_witness :
    (∃ cm, (prepareMountArgs "disable-metrics-for-gke" 62990
        (exampleConfig ["file-cache:max-size-mb:100"])).mc.ConfigFileFlagMap = some cm ∧
      cm.get "cache-dir" = some "/gcsfuse-cache/.volumes/vol") ∧
    (∃ cm, (prepareMountArgs "disable-metrics-for-gke" 62990
        (exampleConfig ["file-cache:max-size-mb:0"])).mc.ConfigFileFlagMap = some cm ∧
      cm.get "cache-dir" = some "") := by
  constructor
  · obtain ⟨cm, h1, h2, _⟩ := C18_cache_dir_amended "disable-metrics-for-gke" 62990
      (exampleConfig ["file-cache:max-size-mb:100"])
    refine ⟨cm, h1, ?_⟩
    rw [h2, if_pos (by decide)]
    rfl
  · obtain ⟨cm, h1, h2, _⟩ := C18_cache_dir_amended "disable-metrics-for-gke" 62990
      (exampleConfig ["file-cache:max-size-mb:0"])
    refine ⟨cm, h1, ?_⟩
    rw [h2, if_neg (by decide)]

/-! ## Decimal digits -/

theorem digitVal_eq_some (c : Char) (d : Nat) :
    strconv.digitVal c = some d ↔ IsDigit c ∧ d = c.toNat - 48 := by
  unfold strconv.digitVal IsDigit
  by_cases h : '0' ≤ c ∧ c ≤ '9'
  · rw [if_pos h]
    constructor
    · intro e
      injection e with e
      exact ⟨h, e.symm⟩
    · rintro ⟨_, e⟩
      rw [e]
  · rw [if_neg h]
    constructor
    · intro e
      cases e
    · rintro ⟨hc, _⟩
      exact absurd hc h

theorem parseDigitsAux_eq_some (s : List Char) :
    ∀ acc n : Nat, strconv.parseDigitsAux s acc = some n ↔
      (∀ c ∈ s, IsDigit c) ∧ n = acc * 10 ^ s.length + strconv.digitsValue s := by
  induction s with
  | nil =>
    intro acc n
    simp only [strconv.parseDigitsAux, strconv.digitsValue, List.length_nil, pow_zero, mul_one,
      add_zero, List.not_mem_nil, false_imp_iff, implies_true, true_and, Option.some.injEq]
    exact eq_comm
  | cons c cs ih =>
    intro acc n
    unfold strconv.parseDigitsAux
    cases hd : strconv.digitVal c with
    | none =>
      simp only
      constructor
      · intro e
        cases e
      · rintro ⟨hall, _⟩
        have hc := hall c (List.mem_cons_self _ _)
        have := (digitVal_eq_some c (c.toNat - 48)).2 ⟨hc, rfl⟩
        rw [hd] at this
        cases this
    | some d =>
      simp only
      obtain ⟨hc, hdv⟩ := (digitVal_eq_some c d).1 hd
      rw [ih (10 * acc + d) n]
      have hval : (10 * acc + d) * 10 ^ cs.length + strconv.digitsValue cs =
          acc * 10 ^ (c :: cs).length + strconv.digitsValue (c :: cs) := by
        simp only [strconv.digitsValue, List.length_cons, ← hdv]
        ring
      rw [hval]
      constructor
      · rintro ⟨hall, hn⟩
        refine ⟨?_, hn⟩
        intro x hx
        rcases List.mem_cons.1 hx with e | e
        · rw [e]; exact hc
        · exact hall x e
      · rintro ⟨hall, hn⟩
        exact ⟨fun x hx => hall x (List.mem_cons_of_mem _ hx), hn⟩

/-- The digit parser accepts the non-empty strings of decimal digits, with
the number they denote. -/
theorem parseDigits_eq_some (s : List Char) (n : Nat) :
    strconv.parseDigits s = some n ↔
      s ≠ [] ∧ (∀ c ∈ s, IsDigit c) ∧ n = strconv.digitsValue s := by
  cases s with
  | nil =>
    simp only [strconv.parseDigits, ne_eq, not_true_eq_false, false_and, iff_false]
    intro e
    cases e
  | cons c cs =>
    show strconv.parseDigitsAux (c :: cs) 0 = some n ↔ _
    rw [parseDigitsAux_eq_some]
    simp

theorem sign_not_digit : ¬ IsDigit '+' ∧ ¬ IsDigit '-' := by
  unfold IsDigit
  constructor <;> decide

/-- The signed decimal integers are the strings made of an optional sign
and one or more decimal digits. -/
theorem signedDecimal_eq_some (v : String) (n : Int) :
    signedDecimal v = some n ↔ DenotesInteger v n := by
  unfold signedDecimal DenotesInteger
  cases hv : v.data with
  | nil =>
    simp only
    constructor
    · intro e
      cases e
    · rintro ⟨sign, digits, hsplit, _, hne, _⟩
      have := List.append_eq_nil.1 hsplit.symm
      exact absurd this.2 hne
  | cons c cs =>
    simp only
    by_cases h1 : c = '+'
    · rw [if_pos h1]
      subst h1
      constructor
      · intro e
        cases hp : strconv.parseDigits cs with
        | none => rw [hp] at e; cases e
        | some m =>
          rw [hp] at e
          injection e with e
          obtain ⟨hne, hall, hm⟩ := (parseDigits_eq_some cs m).1 hp
          refine ⟨['+'], cs, rfl, Or.inr (Or.inl rfl), hne, hall, ?_⟩
          rw [if_neg (by decide), ← hm, e]
      · rintro ⟨sign, digits, hsplit, hsign, hne, hall, hn⟩
        rcases hsign with hs | hs | hs
        · subst hs
          rw [List.nil_append] at hsplit
          have := hall '+' (by rw [← hsplit]; exact List.mem_cons_self _ _)
          exact absurd this sign_not_digit.1
        · subst hs
          injection hsplit with _ hcs
          subst hcs
          rw [(parseDigits_eq_some cs _).2 ⟨hne, hall, rfl⟩, hn, if_neg (by decide)]
        · subst hs
          injection hsplit with hc _
          exact absurd hc (by decide)
    · rw [if_neg h1]
      by_cases h2 : c = '-'
      · rw [if_pos h2]
        subst h2
        constructor
        · intro e
          cases hp : strconv.parseDigits cs with
          | none => rw [hp] at e; cases e
          | some m =>
            rw [hp] at e
            injection e with e
            obtain ⟨hne, hall, hm⟩ := (parseDigits_eq_some cs m).1 hp
            refine ⟨['-'], cs, rfl, Or.inr (Or.inr rfl), hne, hall, ?_⟩
            rw [if_pos rfl, ← hm, e]
        · rintro ⟨sign, digits, hsplit, hsign, hne, hall, hn⟩
          rcases hsign with hs | hs | hs
          · subst hs
            rw [List.nil_append] at hsplit
            have := hall '-' (by rw [← hsplit]; exact List.mem_cons_self _ _)
            exact absurd this sign_not_digit.2
          · subst hs
            injection hsplit with hc _
            exact absurd hc (by decide)
          · subst hs
            injection hsplit with _ hcs
            subst hcs
            rw [(parseDigits_eq_some cs _).2 ⟨hne, hall, rfl⟩, hn, if_pos rfl]
      · rw [if_neg h2]
        constructor
        · intro e
          cases hp : strconv.parseDigits (c :: cs) with
          | none => rw [hp] at e; cases e
          | some m =>
            rw [hp] at e
            injection e with e
            obtain ⟨hne, hall, hm⟩ := (parseDigits_eq_some (c :: cs) m).1 hp
            refine ⟨[], c :: cs, rfl, Or.inl rfl, hne, hall, ?_⟩
            rw [if_neg (by decide), ← hm, e]
        · rintro ⟨sign, digits, hsplit, hsign, hne, hall, hn⟩
          rcases hsign with hs | hs | hs
          · subst hs
            rw [List.nil_append] at hsplit
            subst hsplit
            rw [(parseDigits_eq_some (c :: cs) _).2 ⟨hne, hall, rfl⟩, hn, if_neg (by decide)]
          · subst hs
            injection hsplit with hc _
            exact absurd hc h1
          · subst hs
            injection hsplit with hc _
            exact absurd hc h2

/-! ## C14: order of the leaf type inference -/

theorem typedLeaf_eq_int_iff (v : String) (n : Int) :
    typedLeaf v = Node.int n ↔ strconv.ParseInt v = some n := by
  unfold typedLeaf
  cases hp : strconv.ParseInt v with
  | some m =>
    simp only
    constructor
    · intro e
      injection e with e
      rw [e]
    · intro e
      injection e with e
      rw [e]
  | none =>
    simp only
    constructor
    · intro e
      cases hb : strconv.ParseBool v with
      | none => rw [hb] at e; cases e
      | some b => rw [hb] at e; cases e
    · intro e
      cases e

/-- C14: order of the leaf type inference.  In `prepareConfigFile` a raw
value `v` is typed as the integer `n` exactly when `v` is an optional sign
followed by one or more decimal digits denoting `n` and `n` fits in a signed
64-bit integer; a signed decimal outside that range is not an integer leaf.
The integer check comes first: `1` and `0`, which the boolean parser would
accept as well, become the integers 1 and 0. -/
theorem C14_leaf_type_inference_order (v : String) :
    (∀ n : Int, typedLeaf v = Node.int n ↔
      DenotesInteger v n ∧ -2 ^ 63 ≤ n ∧ n < 2 ^ 63) ∧
    (∀ n : Int, DenotesInteger v n → ¬ (-2 ^ 63 ≤ n ∧ n < 2 ^ 63) →
      ∀ k : Int, typedLeaf v ≠ Node.int k) ∧
    typedLeaf "1" = Node.int 1 ∧ typedLeaf "0" = Node.int 0 ∧
    strconv.ParseBool "1" = some true ∧ strconv.ParseBool "0" = some false := by
  have hiff : ∀ n : Int, typedLeaf v = Node.int n ↔
      DenotesInteger v n ∧ -2 ^ 63 ≤ n ∧ n < 2 ^ 63 := by
    intro n
    rw [typedLeaf_eq_int_iff, ParseInt_eq_some_iff, signedDecimal_eq_some]
  refine ⟨hiff, ?_, by rfl, by rfl, by decide, by decide⟩
  intro n hn hrange k hk
  obtain ⟨hdk, hrk⟩ := (hiff k).1 hk
  have e1 := (signedDecimal_eq_some v n).2 hn
  have e2 := (signedDecimal_eq_some v k).2 hdk
  rw [e1] at e2
  injection e2 with e2
  rw [e2] at hrange
  exact hrange hrk

/-- C14 at concrete raw values: `-9223372036854775808` is the least integer
leaf, `9223372036854775808` is not an integer leaf, `1` is the integer 1. -/
theorem C14_leaf_type_inference_witness :
    typedLeaf "-9223372036854775808" = Node.int (-9223372036854775808) ∧
    (∀ k : Int, typedLeaf "9223372036854775808" ≠ Node.int k) ∧
    typedLeaf "1" = Node.int 1 := by
  have h1 := (C14_leaf_type_inference_order "-9223372036854775808").1 (-9223372036854775808)
  have h2 := (C14_leaf_type_inference_order "9223372036854775808").2.1 9223372036854775808
  refine ⟨h1.2 ⟨?_, by norm_num, by norm_num⟩, h2 ?_ (by norm_num),
    (C14_leaf_type_inference_order "1").2.2.1⟩
  · exact (signedDecimal_eq_some _ _).1 (by decide)
  · exact (signedDecimal_eq_some _ _).1 (by decide)

/-! ## The authentication block -/

/-- When the construction succeeds, the document holds exactly the paths
it started with and the paths of the entries. -/
theorem buildTree_treeInv :
    ∀ (entries : List (String × String)) (cur doc : Level) (paths : List (List String)),
      TreeInv cur paths → buildTree entries cur = Except.ok doc →
      TreeInv doc (pathsOf entries.reverse ++ paths) := by
  intro entries
  induction entries with
  | nil =>
    intro cur doc paths h hok
    simp only [buildTree] at hok
    injection hok with hok
    subst hok
    exact h
  | cons e rest ih =>
    intro cur doc paths h hok
    obtain ⟨f, v⟩ := e
    cases hr : placeTokens f v (segments f) cur with
    | error err =>
      rw [buildTree_cons_error f v rest cur err hr] at hok
      cases hok
    | ok cur1 =>
      rw [buildTree_cons_ok f v rest cur cur1 hr] at hok
      have h1 := treeInv_step f v (segments f) cur cur1 paths h (segments_ne_nil f) hr
      have h2 := ih cur1 doc (segments f :: paths) h1 hok
      have e : pathsOf ((f, v) :: rest).reverse ++ paths =
          pathsOf rest.reverse ++ segments f :: paths := by
        simp [pathsOf]
      rw [e]
      exact h2

/-- A top-level entry of the document built from a map is the first segment
of one of the map's keys. -/
theorem buildTree_top_level (entries : List (String × String)) (doc : Level) (t : String)
    (hok : buildTree entries Level.empty = Except.ok doc) (ht : doc t ≠ none) :
    ∃ k ∈ entries.map Prod.fst, (segments k).head? = some t := by
  have hinv := buildTree_treeInv entries Level.empty doc [] treeInv_empty hok
  rw [List.append_nil] at hinv
  have hmem : ∀ p, p ∈ pathsOf entries.reverse → ∃ k ∈ entries.map Prod.fst, segments k = p := by
    intro p hp
    simp only [pathsOf, List.map_reverse, List.mem_reverse, List.mem_map] at hp
    obtain ⟨e, he, hpe⟩ := hp
    exact ⟨e.1, List.mem_map_of_mem Prod.fst he, hpe⟩
  cases hx : doc t with
  | none => exact absurd hx ht
  | some x =>
    cases hm : x.asMap with
    | none =>
      have hleaf : LeafAt [t] doc := ⟨x, by rw [resolve_cons_leaf [] hx hm]; rfl, hm⟩
      obtain ⟨k, hk, hseg⟩ := hmem _ ((hinv.leaf [t] (by simp)).1 hleaf)
      exact ⟨k, hk, by rw [hseg]; rfl⟩
    | some next =>
      have hxm := asMap_eq_some hm
      subst hxm
      have hmap : MapAt [t] doc := ⟨next, by rw [resolve_cons_map [] hx, resolve_nil]⟩
      obtain ⟨p, hp, hpp⟩ := (hinv.map [t] (by simp)).1 hmap
      obtain ⟨k, hk, hseg⟩ := hmem p hp
      refine ⟨k, hk, ?_⟩
      rw [hseg]
      cases p with
      | nil => exact absurd hpp (not_properPrefix_nil _)
      | cons a p' =>
        have := ((properPrefix_cons_cons t a [] p').1 hpp).1
        rw [this]
        rfl

/-- The document of `prepareConfigFile` once the tree construction has
succeeded: the tree, with the `gcs-auth` entry replaced by the block when
the block is added. -/
theorem configDocument_of_tree (filepathJoin : String → String → String) (mc : MountConfig)
    (cm : StrMap) (tree : Level) (hmap : mc.ConfigFileFlagMap = some cm)
    (htree : buildTree cm.entries Level.empty = Except.ok tree) :
    (addsAuthBlock mc → configDocument filepathJoin mc =
      Except.ok (Level.set tree "gcs-auth" (Node.map (authBlock filepathJoin mc)))) ∧
    (¬ addsAuthBlock mc → configDocument filepathJoin mc = Except.ok tree) := by
  unfold configDocument addsAuthBlock
  rw [hmap]
  simp only
  rw [htree]
  simp only
  constructor
  · intro h
    rw [if_pos h]
    rfl
  · intro h
    rw [if_neg h]

/-! ## C13: the authentication block -/

/-- C13: the authentication block.  When the tree construction of
`prepareConfigFile` succeeds, the document is built without error; when
`TokenServerIdentityProvider` is non-empty and `HostNetworkKSAOptIn` is
true, its top-level entry `gcs-auth` is the mapping with the one entry
`token-url` bound to the string `unix://` followed by
`filepath.Join(mc.TempDir, "token.sock")`; when either condition fails, the
document is the tree as built, and it has a `gcs-auth` entry only if some
key of the config-file map starts with the segment `gcs-auth`. -/
theorem C13_authentication_block (filepathJoin : String → String → String)
    (mc : MountConfig) (cm : StrMap) (tree : Level)
    (hmap : mc.ConfigFileFlagMap = some cm)
    (htree : buildTree cm.entries Level.empty = Except.ok tree) :
    ∃ doc, configDocument filepathJoin mc = Except.ok doc ∧
      (mc.TokenServerIdentityProvider ≠ "" ∧ mc.HostNetworkKSAOptIn = true →
        ∃ block : Level, doc "gcs-auth" = some (Node.map block) ∧
          block "token-url" =
            some (Node.str ("unix://" ++ filepathJoin mc.TempDir "token.sock")) ∧
          ∀ t, t ≠ "token-url" → block t = none) ∧
      (¬ (mc.TokenServerIdentityProvider ≠ "" ∧ mc.HostNetworkKSAOptIn = true) →
        doc = tree ∧
        (doc "gcs-auth" ≠ none →
          ∃ k ∈ cm.keys, (segments k).head? = some "gcs-auth")) := by
  obtain ⟨h1, h2⟩ := configDocument_of_tree filepathJoin mc cm tree hmap htree
  by_cases hc : addsAuthBlock mc
  · refine ⟨_, h1 hc, ?_, fun hn => absurd hc hn⟩
    intro _
    refine ⟨authBlock filepathJoin mc, Level.set_self _ _ _, Level.set_self _ _ _, ?_⟩
    intro t ht
    unfold authBlock
    rw [Level.set_ne _ _ ht]
    rfl
  · refine ⟨_, h2 hc, fun hy => absurd hy hc, ?_⟩
    intro _
    exact ⟨rfl, fun hne => buildTree_top_level cm.entries tree "gcs-auth" htree hne⟩

/-- C13 at the volume with the options `authOptions`: the tree construction
succeeds, the block is added, and it points at the token socket under the
temp directory. -/
theorem C13_authentication_block_witness :
    (authConfig.TokenServerIdentityProvider ≠ "" ∧ authConfig.HostNetworkKSAOptIn = true) ∧
    ∃ doc, configDocument slashJoin authConfig = Except.ok doc ∧
      ∃ block : Level, doc "gcs-auth" = some (Node.map block) ∧
        block "token-url" = some (Node.str "unix:///gcsfuse-tmp/.volumes/vol/token.sock") ∧
        ∀ t, t ≠ "token-url" → block t = none := by
  have hc : authConfig.TokenServerIdentityProvider ≠ "" ∧
      authConfig.HostNetworkKSAOptIn = true := by decide
  obtain ⟨tree, htree⟩ : ∃ tree, buildTree (StrMap.entries
      [("logging:file-path", "/dev/fd/1"), ("logging:format", "json"), ("cache-dir", ""),
        ("gcs-auth:anonymous-access", "true")]) Level.empty = Except.ok tree := ⟨_, rfl⟩
  obtain ⟨doc, hdoc, hyes, _⟩ := C13_authentication_block slashJoin authConfig _ tree rfl htree
  obtain ⟨block, hb1, hb2, hb3⟩ := hyes hc
  exact ⟨hc, doc, hdoc, block, hb1, hb2, hb3⟩

/-! ## C19: the authentication block replaces the `gcs-auth` entry -/

/-- What is found under the top-level entry `gcs-auth` once the block is
set: the socket string at `token-url`, nothing anywhere else. -/
theorem resolve_authBlock (filepathJoin : String → String → String) (mc : MountConfig)
    (tree : Level) (q : List String) (hq : q ≠ []) :
    resolve ("gcs-auth" :: q)
        (Level.set tree "gcs-auth" (Node.map (authBlock filepathJoin mc))) =
      if q = ["token-url"] then
        some (Node.str ("unix://" ++ filepathJoin mc.TempDir "token.sock"))
      else none := by
  rw [resolve_cons_map q (Level.set_self tree "gcs-auth" _)]
  cases q with
  | nil => exact absurd rfl hq
  | cons t ts =>
    by_cases ht : t = "token-url"
    · subst ht
      have hb : authBlock filepathJoin mc "token-url" =
          some (Node.str ("unix://" ++ filepathJoin mc.TempDir "token.sock")) :=
        Level.set_self _ _ _
      rw [resolve_cons_leaf ts hb rfl]
      by_cases hts : ts = []
      · subst hts
        simp
      · rw [if_neg hts, if_neg]
        intro h
        exact hts (List.cons.inj h).2
    · have hb : authBlock filepathJoin mc t = none := by
        unfold authBlock
        rw [Level.set_ne _ _ ht]
        rfl
      rw [resolve_cons_none ts hb, if_neg]
      intro h
      exact ht (List.cons.inj h).1

/-- C19 fails as stated: for the options `gcs-auth:anonymous-access:true`,
`token-server-identity-provider=provider` and `hnw-ksa=true` the
config-file map holds the entry `gcs-auth:anonymous-access = true`, the
document is built without error, and the path of that entry ends nowhere
in it. -/
theorem C19_auth_block_overwrites_counterexample :
    ∃ cm doc, authConfig.ConfigFileFlagMap = some cm ∧
      cm.get "gcs-auth:anonymous-access" = some "true" ∧
      authConfig.TokenServerIdentityProvider ≠ "" ∧ authConfig.HostNetworkKSAOptIn = true ∧
      configDocument slashJoin authConfig = Except.ok doc ∧
      segments "gcs-auth:anonymous-access" = ["gcs-auth", "anonymous-access"] ∧
      resolve (segments "gcs-auth:anonymous-access") doc = none := by
  obtain ⟨tree, htree⟩ : ∃ tree, buildTree (StrMap.entries
      [("logging:file-path", "/dev/fd/1"), ("logging:format", "json"), ("cache-dir", ""),
        ("gcs-auth:anonymous-access", "true")]) Level.empty = Except.ok tree := ⟨_, rfl⟩
  have hc : addsAuthBlock authConfig := by
    unfold addsAuthBlock
    decide
  have hseg : segments "gcs-auth:anonymous-access" = ["gcs-auth", "anonymous-access"] := by
    decide
  refine ⟨_, _, rfl, by decide, hc.1, hc.2,
    (configDocument_of_tree slashJoin authConfig _ tree rfl htree).1 hc, hseg, ?_⟩
  rw [hseg, resolve_authBlock slashJoin authConfig tree ["anonymous-access"] (by simp)]
  rw [if_neg (by decide)]

/-- C19 as amended: when `TokenServerIdentityProvider` is non-empty and
`HostNetworkKSAOptIn` is true and the tree construction succeeds, the
document is built without error and is the tree with its top-level entry
`gcs-auth` replaced by the block: every entry of `ConfigFileFlagMap` whose
path does not start with the segment `gcs-auth` still ends at its typed
leaf, every path not under `gcs-auth` ends where it did in the tree, below
`gcs-auth` only the path `gcs-auth:token-url` ends anywhere, at the socket
string, and so an entry whose path starts with `gcs-auth` ends at its typed
leaf only when it is `gcs-auth:token-url` with that very string as its typed
value. -/
theorem C19_auth_block_replaces_gcs_auth (filepathJoin : String → String → String)
    (mc : MountConfig) (cm : StrMap) (tree : Level)
    (hmap : mc.ConfigFileFlagMap = some cm) (hnodup : cm.keys.Nodup)
    (htree : buildTree cm.entries Level.empty = Except.ok tree)
    (hauth : mc.TokenServerIdentityProvider ≠ "" ∧ mc.HostNetworkKSAOptIn = true) :
    ∃ doc, configDocument filepathJoin mc = Except.ok doc ∧
      (∀ e ∈ cm.entries, (segments e.1).head? ≠ some "gcs-auth" →
        resolve (segments e.1) doc = some (typedLeaf e.2)) ∧
      (∀ t q, t ≠ "gcs-auth" → resolve (t :: q) doc = resolve (t :: q) tree) ∧
      (∀ q, q ≠ [] → resolve ("gcs-auth" :: q) doc =
        if q = ["token-url"] then
          some (Node.str ("unix://" ++ filepathJoin mc.TempDir "token.sock"))
        else none) ∧
      (∀ e ∈ cm.entries, (segments e.1).head? = some "gcs-auth" →
        resolve (segments e.1) doc = some (typedLeaf e.2) →
        segments e.1 = ["gcs-auth", "token-url"] ∧
        typedLeaf e.2 = Node.str ("unix://" ++ filepathJoin mc.TempDir "token.sock")) := by
  have hdoc := (configDocument_of_tree filepathJoin mc cm tree hmap htree).1 hauth
  have hother : ∀ t q, t ≠ "gcs-auth" →
      resolve (t :: q) (Level.set tree "gcs-auth" (Node.map (authBlock filepathJoin mc))) =
        resolve (t :: q) tree := by
    intro t q ht
    exact resolve_cons_congr q (Level.set_ne tree _ ht)
  refine ⟨_, hdoc, ?_, hother, ?_, ?_⟩
  · intro e he hhead
    have hres := (buildTree_ok_resolve cm.entries Level.empty tree [] treeInv_empty
      hnodup htree).1 e he
    cases hs : segments e.1 with
    | nil => exact absurd hs (segments_ne_nil e.1)
    | cons t q =>
      rw [hs] at hhead hres
      have ht : t ≠ "gcs-auth" := by
        intro h
        apply hhead
        rw [h]
        rfl
      rw [hother t q ht]
      exact hres
  · intro q hq
    exact resolve_authBlock filepathJoin mc tree q hq
  · intro e _ hhead hres
    cases hs : segments e.1 with
    | nil => exact absurd hs (segments_ne_nil e.1)
    | cons t q =>
      rw [hs] at hhead hres
      have ht : t = "gcs-auth" := by
        simpa using hhead
      subst ht
      cases q with
      | nil =>
        rw [resolve_cons_map [] (Level.set_self tree "gcs-auth" _), resolve_nil] at hres
        have h := congrArg Node.asMap (Option.some.inj hres)
        rw [typedLeaf_asMap] at h
        cases h
      | cons t2 q2 =>
        rw [resolve_authBlock filepathJoin mc tree (t2 :: q2) (by simp)] at hres
        by_cases hq : t2 :: q2 = ["token-url"]
        · rw [if_pos hq] at hres
          rw [hq]
          exact ⟨rfl, (Option.some.inj hres).symm⟩
        · rw [if_neg hq] at hres
          cases hres

/-- C19 as amended, at the volume with the options `authOptions`: the
entries under `logging` and the entry `cache-dir` still end at their typed
leaves, and below `gcs-auth` only `token-url` is left. -/
theorem C19_auth_block_replaces_witness :
    (authConfig.TokenServerIdentityProvider ≠ "" ∧ authConfig.HostNetworkKSAOptIn = true) ∧
    ∃ doc, configDocument slashJoin authConfig = Except.ok doc ∧
      resolve ["logging", "format"] doc = some (Node.str "json") ∧
      resolve ["cache-dir"] doc = some (Node.str "") ∧
      resolve ["gcs-auth", "token-url"] doc =
        some (Node.str "unix:///gcsfuse-tmp/.volumes/vol/token.sock") ∧
      resolve ["gcs-auth", "anonymous-access"] doc = none := by
  have hc : authConfig.TokenServerIdentityProvider ≠ "" ∧
      authConfig.HostNetworkKSAOptIn = true := by decide
  obtain ⟨tree, htree⟩ : ∃ tree, buildTree (StrMap.entries
      [("logging:file-path", "/dev/fd/1"), ("logging:format", "json"), ("cache-dir", ""),
        ("gcs-auth:anonymous-access", "true")]) Level.empty = Except.ok tree := ⟨_, rfl⟩
  obtain ⟨doc, hdoc, hkeep, _, hunder, _⟩ :=
    C19_auth_block_replaces_gcs_auth slashJoin authConfig _ tree rfl (by decide) htree hc
  refine ⟨hc, doc, hdoc, ?_, ?_, ?_, ?_⟩
  · have h := hkeep ("logging:format", "json") (by decide) (by decide)
    have hseg : segments "logging:format" = ["logging", "format"] := by decide
    have hleaf : typedLeaf "json" = Node.str "json" := by rfl
    rw [hseg, hleaf] at h
    exact h
  · have h := hkeep ("cache-dir", "") (by decide) (by decide)
    have hseg : segments "cache-dir" = ["cache-dir"] := by decide
    have hleaf : typedLeaf "" = Node.str "" := by rfl
    rw [hseg, hleaf] at h
    exact h
  · have h := hunder ["token-url"] (by simp)
    rw [if_pos rfl] at h
    exact h
  · have h := hunder ["anonymous-access"] (by simp)
    rw [if_neg (by decide)] at h
    exact h

/-! ## The document tree: the order of the entries -/

theorem Level.set_set (m : Level) (t : String) (a b : Node) :
    Level.set (Level.set m t a) t b = Level.set m t b := by
  funext k
  unfold Level.set
  by_cases h : k = t
  · simp [h]
  · simp [h]

theorem Level.set_comm (m : Level) {t s : String} (a b : Node) (h : t ≠ s) :
    Level.set (Level.set m t a) s b = Level.set (Level.set m s b) t a := by
  funext k
  unfold Level.set
  by_cases h1 : k = s
  · have h2 : k ≠ t := fun e => h (e.symm.trans h1)
    simp [h1, h2, Ne.symm h]
  · simp [h1]

theorem slotOf_nil_leaf (f v : String) (x : Option Node)
    (h : ∀ y, x = some y → y.asMap = none) : slotOf f v [] x = Except.ok (typedLeaf v) := by
  cases x with
  | none => rfl
  | some y =>
    have hy := h y rfl
    cases y with
    | map m => simp [Node.asMap] at hy
    | int n => rfl
    | bool b => rfl
    | str s => rfl

theorem slotOf_nil_map (f v : String) (m : Level) :
    slotOf f v [] (some (Node.map m)) = Except.error (ConfigError.invalidFlag f) := rfl

theorem slotOf_cons_leaf (f v t2 : String) (ts : List String) (y : Node)
    (hy : y.asMap = none) :
    slotOf f v (t2 :: ts) (some y) = Except.error (ConfigError.invalidFlag f) := by
  cases y with
  | map m => simp [Node.asMap] at hy
  | int n => rfl
  | bool b => rfl
  | str s => rfl

theorem slotOf_cons_none_ok (f v t2 : String) (ts : List String) (next : Level)
    (h : placeTokens f v (t2 :: ts) Level.empty = Except.ok next) :
    slotOf f v (t2 :: ts) none = Except.ok (Node.map next) := by
  simp [slotOf, h]

theorem slotOf_cons_none_error (f v t2 : String) (ts : List String) (e : ConfigError)
    (h : placeTokens f v (t2 :: ts) Level.empty = Except.error e) :
    slotOf f v (t2 :: ts) none = Except.error e := by
  simp [slotOf, h]

theorem slotOf_cons_map_ok (f v t2 : String) (ts : List String) (m next : Level)
    (h : placeTokens f v (t2 :: ts) m = Except.ok next) :
    slotOf f v (t2 :: ts) (some (Node.map m)) = Except.ok (Node.map next) := by
  simp [slotOf, h]

theorem slotOf_cons_map_error (f v t2 : String) (ts : List String) (m : Level)
    (e : ConfigError) (h : placeTokens f v (t2 :: ts) m = Except.error e) :
    slotOf f v (t2 :: ts) (some (Node.map m)) = Except.error e := by
  simp [slotOf, h]

/-- Placing an entry writes only under the first token of its path, and
what it writes there depends only on what was there. -/
theorem placeTokens_slot (f v t : String) (rest : List String) (cur : Level) :
    (∀ x, slotOf f v rest (cur t) = Except.ok x →
      placeTokens f v (t :: rest) cur = Except.ok (Level.set cur t x)) ∧
    (∀ e, slotOf f v rest (cur t) = Except.error e →
      placeTokens f v (t :: rest) cur = Except.error e) := by
  cases rest with
  | nil =>
    cases hc : cur t with
    | none =>
      have h := placeTokens_single_ok f v t cur (by intro x hx; rw [hc] at hx; cases hx)
      rw [slotOf_nil_leaf f v none (by intro y hy; cases hy)]
      constructor
      · intro x hx
        injection hx with hx
        rw [← hx]
        exact h
      · intro e he
        cases he
    | some y =>
      cases hm : y.asMap with
      | none =>
        have h := placeTokens_single_ok f v t cur (by
          intro x hx
          rw [hc] at hx
          injection hx with hx
          rw [← hx]
          exact hm)
        rw [slotOf_nil_leaf f v (some y) (by
          intro z hz
          injection hz with hz
          rw [← hz]
          exact hm)]
        constructor
        · intro x hx
          injection hx with hx
          rw [← hx]
          exact h
        · intro e he
          cases he
      | some m =>
        have hy := asMap_eq_some hm
        subst hy
        rw [slotOf_nil_map]
        constructor
        · intro x hx
          cases hx
        · intro e he
          injection he with he
          rw [← he]
          exact placeTokens_single_map f v t cur m hc
  | cons t2 ts =>
    cases hc : cur t with
    | none =>
      cases hr : placeTokens f v (t2 :: ts) Level.empty with
      | ok next =>
        rw [slotOf_cons_none_ok f v t2 ts next hr]
        constructor
        · intro x hx
          injection hx with hx
          rw [← hx, placeTokens_cons_none_ok f v t t2 ts cur next hc hr, Level.set_set]
        · intro e he
          cases he
      | error err =>
        rw [slotOf_cons_none_error f v t2 ts err hr]
        constructor
        · intro x hx
          cases hx
        · intro e he
          injection he with he
          rw [← he]
          exact placeTokens_cons_none_error f v t t2 ts cur err hc hr
    | some y =>
      cases hm : y.asMap with
      | none =>
        rw [slotOf_cons_leaf f v t2 ts y hm]
        constructor
        · intro x hx
          cases hx
        · intro e he
          injection he with he
          rw [← he]
          exact placeTokens_cons_leaf f v t t2 ts cur y hc hm
      | some m =>
        have hy := asMap_eq_some hm
        subst hy
        cases hr : placeTokens f v (t2 :: ts) m with
        | ok next =>
          rw [slotOf_cons_map_ok f v t2 ts m next hr]
          constructor
          · intro x hx
            injection hx with hx
            rw [← hx]
            exact placeTokens_cons_map_ok f v t t2 ts cur m next hc hr
          · intro e he
            cases he
        | error err =>
          rw [slotOf_cons_map_error f v t2 ts m err hr]
          constructor
          · intro x hx
            cases hx
          · intro e he
            injection he with he
            rw [← he]
            exact placeTokens_cons_map_error f v t t2 ts cur m err hc hr

theorem placeTokens_ok_slot (f v t : String) (rest : List String) (cur cur' : Level)
    (h : placeTokens f v (t :: rest) cur = Except.ok cur') :
    ∃ x, slotOf f v rest (cur t) = Except.ok x ∧ cur' = Level.set cur t x := by
  obtain ⟨h1, h2⟩ := placeTokens_slot f v t rest cur
  cases hs : slotOf f v rest (cur t) with
  | ok x =>
    rw [h1 x hs] at h
    injection h with h
    exact ⟨x, rfl, h.symm⟩
  | error e =>
    rw [h2 e hs] at h
    cases h

/-- Two entries with different paths, placed one after the other without
error, can be placed in the other order, with the same document. -/
theorem placeTokens_comm (f1 v1 f2 v2 : String) :
    ∀ (toks1 toks2 : List String) (cur c1 c12 : Level),
      toks1 ≠ [] → toks2 ≠ [] → toks1 ≠ toks2 →
      placeTokens f1 v1 toks1 cur = Except.ok c1 →
      placeTokens f2 v2 toks2 c1 = Except.ok c12 →
      ∃ c2, placeTokens f2 v2 toks2 cur = Except.ok c2 ∧
        placeTokens f1 v1 toks1 c2 = Except.ok c12 := by
  intro toks1
  induction toks1 with
  | nil => intro toks2 cur c1 c12 h; exact absurd rfl h
  | cons t r1 ih =>
    intro toks2 cur c1 c12 _ h2 hne hp1 hp2
    cases toks2 with
    | nil => exact absurd rfl h2
    | cons s r2 =>
      obtain ⟨x1, hs1, hc1⟩ := placeTokens_ok_slot f1 v1 t r1 cur c1 hp1
      subst hc1
      obtain ⟨x2, hs2, hc12⟩ := placeTokens_ok_slot f2 v2 s r2 _ c12 hp2
      subst hc12
      by_cases hts : t = s
      · subst hts
        have hr : r1 ≠ r2 := fun e => hne (by rw [e])
        rw [Level.set_self] at hs2
        rw [Level.set_set]
        -- the slot under the shared first token
        have key : ∃ y2, slotOf f2 v2 r2 (cur t) = Except.ok y2 ∧
            slotOf f1 v1 r1 (some y2) = Except.ok x2 := by
          cases r1 with
          | nil =>
            have hx1 : x1 = typedLeaf v1 := by
              cases hc : cur t with
              | none =>
                rw [hc, slotOf_nil_leaf f1 v1 none (by intro y hy; cases hy)] at hs1
                injection hs1 with hs1
                exact hs1.symm
              | some y =>
                cases hm : y.asMap with
                | none =>
                  rw [hc, slotOf_nil_leaf f1 v1 (some y) (by
                    intro z hz
                    injection hz with hz
                    rw [← hz]
                    exact hm)] at hs1
                  injection hs1 with hs1
                  exact hs1.symm
                | some m =>
                  have hy := asMap_eq_some hm
                  subst hy
                  rw [hc, slotOf_nil_map] at hs1
                  cases hs1
            subst hx1
            cases r2 with
            | nil => exact absurd rfl hr
            | cons s2 ss =>
              rw [slotOf_cons_leaf f2 v2 s2 ss _ (typedLeaf_asMap v1)] at hs2
              cases hs2
          | cons t2 ts =>
            -- the first entry leaves a nested mapping
            have hx1 : ∃ m0 n1, placeTokens f1 v1 (t2 :: ts) m0 = Except.ok n1 ∧
                x1 = Node.map n1 ∧
                (∀ r y, (∀ n, placeTokens f2 v2 r m0 = Except.ok n → y = Node.map n →
                    r ≠ [] → slotOf f2 v2 r (cur t) = Except.ok y)) := by
              cases hc : cur t with
              | none =>
                rw [hc] at hs1
                cases hrec : placeTokens f1 v1 (t2 :: ts) Level.empty with
                | ok n1 =>
                  rw [slotOf_cons_none_ok f1 v1 t2 ts n1 hrec] at hs1
                  injection hs1 with hs1
                  refine ⟨Level.empty, n1, hrec, hs1.symm, ?_⟩
                  intro r y n hn hy hrne
                  cases r with
                  | nil => exact absurd rfl hrne
                  | cons a as =>
                    rw [hy]
                    exact slotOf_cons_none_ok f2 v2 a as n hn
                | error e =>
                  rw [slotOf_cons_none_error f1 v1 t2 ts e hrec] at hs1
                  cases hs1
              | some y =>
                rw [hc] at hs1
                cases hm : y.asMap with
                | none =>
                  rw [slotOf_cons_leaf f1 v1 t2 ts y hm] at hs1
                  cases hs1
                | some m =>
                  have hy := asMap_eq_some hm
                  subst hy
                  cases hrec : placeTokens f1 v1 (t2 :: ts) m with
                  | ok n1 =>
                    rw [slotOf_cons_map_ok f1 v1 t2 ts m n1 hrec] at hs1
                    injection hs1 with hs1
                    refine ⟨m, n1, hrec, hs1.symm, ?_⟩
                    intro r y n hn hy hrne
                    cases r with
                    | nil => exact absurd rfl hrne
                    | cons a as =>
                      rw [hy]
                      exact slotOf_cons_map_ok f2 v2 a as m n hn
                  | error e =>
                    rw [slotOf_cons_map_error f1 v1 t2 ts m e hrec] at hs1
                    cases hs1
            obtain ⟨m0, n1, hrec1, hx1e, hslot⟩ := hx1
            subst hx1e
            cases r2 with
            | nil =>
              rw [slotOf_nil_map] at hs2
              cases hs2
            | cons s2 ss =>
              cases hrec2 : placeTokens f2 v2 (s2 :: ss) n1 with
              | error e =>
                rw [slotOf_cons_map_error f2 v2 s2 ss n1 e hrec2] at hs2
                cases hs2
              | ok n12 =>
                rw [slotOf_cons_map_ok f2 v2 s2 ss n1 n12 hrec2] at hs2
                injection hs2 with hs2
                obtain ⟨n2, hn2, hn21⟩ := ih (s2 :: ss) m0 n1 n12 (by simp) (by simp) hr
                  hrec1 hrec2
                refine ⟨Node.map n2, hslot (s2 :: ss) (Node.map n2) n2 hn2 rfl (by simp), ?_⟩
                rw [← hs2]
                exact slotOf_cons_map_ok f1 v1 t2 ts n2 n12 hn21
        obtain ⟨y2, hy2, hy21⟩ := key
        refine ⟨Level.set cur t y2, (placeTokens_slot f2 v2 t r2 cur).1 y2 hy2, ?_⟩
        have h := (placeTokens_slot f1 v1 t r1 (Level.set cur t y2)).1 x2
          (by rw [Level.set_self]; exact hy21)
        rw [Level.set_set] at h
        exact h
      · have hst : s ≠ t := fun e => hts e.symm
        rw [Level.set_ne cur x1 hst] at hs2
        refine ⟨Level.set cur s x2, (placeTokens_slot f2 v2 s r2 cur).1 x2 hs2, ?_⟩
        have h := (placeTokens_slot f1 v1 t r1 (Level.set cur s x2)).1 x1
          (by rw [Level.set_ne cur x2 hts]; exact hs1)
        rw [h, Level.set_comm cur x1 x2 hts]

/-- The document built from entries with distinct keys is the document
built from any reordering of them. -/
theorem buildTree_perm {l1 l2 : List (String × String)} (hperm : l1.Perm l2) :
    ∀ (cur doc : Level), (l1.map Prod.fst).Nodup →
      buildTree l1 cur = Except.ok doc → buildTree l2 cur = Except.ok doc := by
  induction hperm with
  | nil => intro cur doc _ h; exact h
  | cons e _ ih =>
    intro cur doc hnodup hok
    obtain ⟨f, v⟩ := e
    simp only [List.map_cons, List.nodup_cons] at hnodup
    cases hr : placeTokens f v (segments f) cur with
    | error err =>
      rw [buildTree_cons_error f v _ cur err hr] at hok
      cases hok
    | ok cur1 =>
      rw [buildTree_cons_ok f v _ cur cur1 hr] at hok
      rw [buildTree_cons_ok f v _ cur cur1 hr]
      exact ih cur1 doc hnodup.2 hok
  | swap e1 e2 l =>
    intro cur doc hnodup hok
    obtain ⟨f1, v1⟩ := e1
    obtain ⟨f2, v2⟩ := e2
    have hne : f2 ≠ f1 := by
      simp only [List.map_cons, List.nodup_cons, List.mem_cons] at hnodup
      intro h
      exact hnodup.1 (Or.inl h)
    have hseg : segments f2 ≠ segments f1 := fun h => hne (segments_injective h)
    cases hr2 : placeTokens f2 v2 (segments f2) cur with
    | error err =>
      rw [buildTree_cons_error f2 v2 _ cur err hr2] at hok
      cases hok
    | ok c2 =>
      rw [buildTree_cons_ok f2 v2 _ cur c2 hr2] at hok
      cases hr1 : placeTokens f1 v1 (segments f1) c2 with
      | error err =>
        rw [buildTree_cons_error f1 v1 _ c2 err hr1] at hok
        cases hok
      | ok c21 =>
        rw [buildTree_cons_ok f1 v1 _ c2 c21 hr1] at hok
        obtain ⟨c1, h1, h12⟩ := placeTokens_comm f2 v2 f1 v1 (segments f2) (segments f1)
          cur c2 c21 (segments_ne_nil f2) (segments_ne_nil f1) hseg hr2 hr1
        rw [buildTree_cons_ok f1 v1 _ cur c1 h1, buildTree_cons_ok f2 v2 _ c1 c21 h12]
        exact hok
  | trans h12 _ ih1 ih2 =>
    intro cur doc hnodup hok
    exact ih2 cur doc ((h12.map Prod.fst).nodup_iff.1 hnodup) (ih1 cur doc hnodup hok)

/-! ## C16: the document is the inverse of flattening -/

/-- C16: document construction is a deterministic inverse of flattening.
For a config-file map (entries with distinct keys) on which the tree
construction succeeds with the document `doc`: the construction gives the
same document for every visit order of the entries, and this is the
document of `prepareConfigFile` when no authentication block is added;
following the colon-split segments of each key from the root reaches a leaf
holding the typed form of that key's value; the document has no other
leaves, i.e. a path ends at a leaf `x` exactly when it is the segment
sequence of a key whose typed value is `x`; and joining the segments of a
key with colons gives the key back. -/
theorem C16_document_inverse_of_flattening (entries order : List (String × String))
    (doc : Level) (hnodup : (entries.map Prod.fst).Nodup) (hperm : order.Perm entries)
    (hok : buildTree entries Level.empty = Except.ok doc) :
    buildTree order Level.empty = Except.ok doc ∧
    (∀ (filepathJoin : String → String → String) (mc : MountConfig),
      mc.ConfigFileFlagMap = some entries →
      ¬ (mc.TokenServerIdentityProvider ≠ "" ∧ mc.HostNetworkKSAOptIn = true) →
      configDocument filepathJoin mc = Except.ok doc) ∧
    (∀ e ∈ entries, resolve (segments e.1) doc = some (typedLeaf e.2)) ∧
    (∀ q x, (resolve q doc = some x ∧ x.asMap = none) ↔
      ∃ e ∈ entries, segments e.1 = q ∧ typedLeaf e.2 = x) ∧
    (∀ k x, (resolve (segments k) doc = some x ∧ x.asMap = none) ↔
      ∃ v, (k, v) ∈ entries ∧ typedLeaf v = x) ∧
    (∀ e ∈ entries, joinSegments ((segments e.1).map String.data) = e.1.data) := by
  have hres := (buildTree_ok_resolve entries Level.empty doc [] treeInv_empty hnodup hok).1
  have hinv := buildTree_treeInv entries Level.empty doc [] treeInv_empty hok
  rw [List.append_nil] at hinv
  have hleaves : ∀ q x, (resolve q doc = some x ∧ x.asMap = none) ↔
      ∃ e ∈ entries, segments e.1 = q ∧ typedLeaf e.2 = x := by
    intro q x
    constructor
    · rintro ⟨hq, hx⟩
      have hqne : q ≠ [] := by
        intro h
        rw [h, resolve_nil] at hq
        injection hq with hq
        rw [← hq] at hx
        simp [Node.asMap] at hx
      have hmem := (hinv.leaf q hqne).1 ⟨x, hq, hx⟩
      simp only [pathsOf, List.map_reverse, List.mem_reverse, List.mem_map] at hmem
      obtain ⟨e, he, hse⟩ := hmem
      refine ⟨e, he, hse, ?_⟩
      have h := hres e he
      rw [hse, hq] at h
      exact (Option.some.inj h).symm
    · rintro ⟨e, he, hse, hx⟩
      rw [← hse, ← hx]
      exact ⟨hres e he, typedLeaf_asMap e.2⟩
  refine ⟨buildTree_perm hperm.symm Level.empty doc hnodup hok, ?_, hres, hleaves, ?_, ?_⟩
  · intro filepathJoin mc hmap hno
    exact (configDocument_of_tree filepathJoin mc entries doc hmap hok).2 hno
  · intro k x
    rw [hleaves (segments k) x]
    constructor
    · rintro ⟨e, he, hse, hx⟩
      have hk : e.1 = k := segments_injective hse
      refine ⟨e.2, ?_, hx⟩
      rw [← hk]
      exact he
    · rintro ⟨v, hv, hx⟩
      exact ⟨(k, v), hv, rfl, hx⟩
  · intro e _
    unfold segments strings.Split
    have hsep : (":" : String).data = [':'] := rfl
    rw [hsep, List.map_map]
    have hid : (String.data ∘ String.mk) = id := by
      funext l
      rfl
    rw [hid, List.map_id]
    exact joinSegments_splitAux _ _

/-- C16 at the map with the entries `a:b = 42` and `a:c = yes`: both visit
orders give one document, whose leaves are the integer 42 at `a:b` and the
string `yes` at `a:c`. -/
theorem C16_document_inverse_witness :
    ∃ doc, buildTree [("a:b", "42"), ("a:c", "yes")] Level.empty = Except.ok doc ∧
      buildTree [("a:c", "yes"), ("a:b", "42")] Level.empty = Except.ok doc ∧
      resolve ["a", "b"] doc = some (Node.int 42) ∧
      resolve ["a", "c"] doc = some (Node.str "yes") ∧
      ¬ (∃ x, resolve ["a", "d"] doc = some x ∧ x.asMap = none) := by
  obtain ⟨doc, hdoc⟩ : ∃ doc, buildTree [("a:b", "42"), ("a:c", "yes")] Level.empty =
      Except.ok doc := ⟨_, rfl⟩
  obtain ⟨h1, _, h3, h4, _, _⟩ := C16_document_inverse_of_flattening
    [("a:b", "42"), ("a:c", "yes")] [("a:c", "yes"), ("a:b", "42")] doc (by decide)
    (List.Perm.swap _ _ _) hdoc
  have hab : segments "a:b" = ["a", "b"] := by decide
  have hac : segments "a:c" = ["a", "c"] := by decide
  have l1 : typedLeaf "42" = Node.int 42 := by rfl
  have l2 : typedLeaf "yes" = Node.str "yes" := by rfl
  refine ⟨doc, hdoc, h1, ?_, ?_, ?_⟩
  · have h := h3 ("a:b", "42") (by decide)
    rw [hab, l1] at h
    exact h
  · have h := h3 ("a:c", "yes") (by decide)
    rw [hac, l2] at h
    exact h
  · rintro ⟨x, hx⟩
    obtain ⟨e, he, hse, _⟩ := (h4 ["a", "d"] x).1 hx
    simp only [List.mem_cons, List.mem_singleton, List.not_mem_nil, or_false] at he
    rcases he with he | he
    · rw [he, hab] at hse
      exact absurd hse (by decide)
    · rw [he, hac] at hse
      exact absurd hse (by decide)

/-! ## The errors of the tree construction -/

/-- The only error of placing an entry is `invalid config file flag` for
its key. -/
theorem placeTokens_error_eq (f v : String) :
    ∀ (toks : List String) (cur : Level) (e : ConfigError),
      placeTokens f v toks cur = Except.error e → e = ConfigError.invalidFlag f := by
  intro toks
  induction toks with
  | nil =>
    intro cur e h
    simp [placeTokens] at h
  | cons t rest ih =>
    intro cur e h
    obtain ⟨h1, h2⟩ := placeTokens_slot f v t rest cur
    cases hs : slotOf f v rest (cur t) with
    | ok x =>
      rw [h1 x hs] at h
      cases h
    | error e2 =>
      rw [h2 e2 hs] at h
      injection h with h
      subst h
      cases rest with
      | nil =>
        cases hc : cur t with
        | none =>
          rw [hc, slotOf_nil_leaf f v none (by intro y hy; cases hy)] at hs
          cases hs
        | some y =>
          cases hm : y.asMap with
          | none =>
            rw [hc, slotOf_nil_leaf f v (some y) (by
              intro z hz
              injection hz with hz
              rw [← hz]
              exact hm)] at hs
            cases hs
          | some m =>
            have hy := asMap_eq_some hm
            subst hy
            rw [hc, slotOf_nil_map] at hs
            injection hs with hs
            exact hs.symm
      | cons t2 ts =>
        cases hc : cur t with
        | none =>
          rw [hc] at hs
          cases hr : placeTokens f v (t2 :: ts) Level.empty with
          | ok next =>
            rw [slotOf_cons_none_ok f v t2 ts next hr] at hs
            cases hs
          | error e3 =>
            rw [slotOf_cons_none_error f v t2 ts e3 hr] at hs
            injection hs with hs
            rw [← hs]
            exact ih Level.empty e3 hr
        | some y =>
          rw [hc] at hs
          cases hm : y.asMap with
          | none =>
            rw [slotOf_cons_leaf f v t2 ts y hm] at hs
            injection hs with hs
            exact hs.symm
          | some m =>
            have hy := asMap_eq_some hm
            subst hy
            cases hr : placeTokens f v (t2 :: ts) m with
            | ok next =>
              rw [slotOf_cons_map_ok f v t2 ts m next hr] at hs
              cases hs
            | error e3 =>
              rw [slotOf_cons_map_error f v t2 ts m e3 hr] at hs
              injection hs with hs
              rw [← hs]
              exact ih m e3 hr

/-- The only error of the tree construction is `invalid config file flag`
for one of the keys. -/
theorem buildTree_error_eq :
    ∀ (entries : List (String × String)) (cur : Level) (e : ConfigError),
      buildTree entries cur = Except.error e →
      ∃ f ∈ entries.map Prod.fst, e = ConfigError.invalidFlag f := by
  intro entries
  induction entries with
  | nil =>
    intro cur e h
    simp [buildTree] at h
  | cons x rest ih =>
    intro cur e h
    obtain ⟨f, v⟩ := x
    cases hr : placeTokens f v (segments f) cur with
    | error err =>
      rw [buildTree_cons_error f v rest cur err hr] at h
      injection h with h
      subst h
      exact ⟨f, by simp, placeTokens_error_eq f v _ cur err hr⟩
    | ok cur1 =>
      rw [buildTree_cons_ok f v rest cur cur1 hr] at h
      obtain ⟨g, hg, he⟩ := ih cur1 e h
      exact ⟨g, List.mem_cons_of_mem _ hg, he⟩

/-- An error of `prepareConfigFile` on a non-nil map is a collision at one
of the keys, or the error of marshalling and writing the document. -/
theorem prepareConfigFile_error (filepathJoin : String → String → String)
    (persist : String → Level → Option ConfigError) (mc : MountConfig) (cm : StrMap)
    (e : ConfigError) (hmap : mc.ConfigFileFlagMap = some cm)
    (h : prepareConfigFile filepathJoin persist mc = Except.error e) :
    (∃ f ∈ cm.keys, e = ConfigError.invalidFlag f ∧
      isError (buildTree cm.entries Level.empty) = true) ∨
    (∃ doc, configDocument filepathJoin mc = Except.ok doc ∧
      persist mc.ConfigFile doc = some e) := by
  unfold prepareConfigFile at h
  cases hd : configDocument filepathJoin mc with
  | error e2 =>
    rw [hd] at h
    simp only at h
    injection h with h
    subst h
    left
    cases ht : buildTree cm.entries Level.empty with
    | error e3 =>
      unfold configDocument at hd
      rw [hmap] at hd
      simp only at hd
      rw [ht] at hd
      simp only at hd
      injection hd with hd
      subst hd
      obtain ⟨f, hf, he⟩ := buildTree_error_eq cm.entries Level.empty e3 ht
      exact ⟨f, hf, he, rfl⟩
    | ok tree =>
      obtain ⟨h1, h2⟩ := configDocument_of_tree filepathJoin mc cm tree hmap ht
      by_cases hc : addsAuthBlock mc
      · rw [h1 hc] at hd
        cases hd
      · rw [h2 hc] at hd
        cases hd
  | ok doc =>
    rw [hd] at h
    simp only at h
    right
    cases hp : persist mc.ConfigFile doc with
    | none =>
      rw [hp] at h
      cases h
    | some e2 =>
      rw [hp] at h
      simp only at h
      injection h with h
      subst h
      exact ⟨doc, rfl, hp⟩

/-- The outcome of `prepareConfigFile` depends on the config-file map, the
two authentication fields, the temp directory and the config file path
only. -/
theorem prepareConfigFile_congr (filepathJoin : String → String → String)
    (persist : String → Level → Option ConfigError) (mc mc2 : MountConfig)
    (h1 : mc.ConfigFileFlagMap = mc2.ConfigFileFlagMap)
    (h2 : mc.TokenServerIdentityProvider = mc2.TokenServerIdentityProvider)
    (h3 : mc.HostNetworkKSAOptIn = mc2.HostNetworkKSAOptIn)
    (h4 : mc.TempDir = mc2.TempDir) (h5 : mc.ConfigFile = mc2.ConfigFile) :
    prepareConfigFile filepathJoin persist mc = prepareConfigFile filepathJoin persist mc2 := by
  unfold prepareConfigFile configDocument
  rw [h1, h2, h3, h4, h5]

theorem processArg_path_fields (D : String) (st : LoopState) (arg : String) :
    (processArg D st arg).mc.TempDir = st.mc.TempDir ∧
    (processArg D st arg).mc.ConfigFile = st.mc.ConfigFile := by
  have h := processArg_effect D st arg
  generalize processArg D st arg = st2 at h
  cases h <;> exact ⟨rfl, rfl⟩

theorem runLoop_path_fields (D : String) (args : List String) (st : LoopState) :
    (runLoop D st args).mc.TempDir = st.mc.TempDir ∧
    (runLoop D st args).mc.ConfigFile = st.mc.ConfigFile := by
  induction args generalizing st with
  | nil => exact ⟨rfl, rfl⟩
  | cons a rest ih =>
    rw [runLoop_cons]
    obtain ⟨h1, h2⟩ := ih (processArg D st a)
    obtain ⟨h3, h4⟩ := processArg_path_fields D st a
    exact ⟨h1.trans h3, h2.trans h4⟩

/-! ## NewMountConfig -/

theorem NewMountConfig_dial (ext : Externals) (port : Int) (sp : String) (driver : StrMap)
    (err : String) (h : ext.dial sp = some err) :
    NewMountConfig ext port sp driver =
      { result := none, messages := [Diagnostic.connectFailed sp err], port := port } := by
  unfold NewMountConfig
  rw [h]

theorem NewMountConfig_recv (ext : Externals) (port : Int) (sp : String) (driver : StrMap)
    (err : String) (h : ext.dial sp = none) (hr : ext.recvMsg sp = Except.error err) :
    NewMountConfig ext port sp driver =
      { result := none, messages := [Diagnostic.receiveFailed sp err], port := port } := by
  unfold NewMountConfig
  rw [h, hr]

theorem NewMountConfig_unmarshal (ext : Externals) (port : Int) (sp : String) (driver : StrMap)
    (fd : Int) (msg err : String) (h : ext.dial sp = none)
    (hr : ext.recvMsg sp = Except.ok (fd, msg)) (hu : ext.unmarshal msg = Except.error err) :
    NewMountConfig ext port sp driver =
      { result := none, messages := [Diagnostic.unmarshalFailed err], port := port } := by
  unfold NewMountConfig
  rw [h, hr]
  simp only
  rw [hu]

theorem NewMountConfig_bucket (ext : Externals) (port : Int) (sp : String) (driver : StrMap)
    (fd : Int) (msg : String) (p : Payload) (h : ext.dial sp = none)
    (hr : ext.recvMsg sp = Except.ok (fd, msg)) (hu : ext.unmarshal msg = Except.ok p)
    (hb : (decodedConfig ext sp fd p).BucketName = "") :
    NewMountConfig ext port sp driver =
      { result := none, messages := [Diagnostic.missingBucketName], port := port } := by
  unfold NewMountConfig
  rw [h, hr]
  simp only
  rw [hu]
  simp only
  rw [if_pos hb]

theorem NewMountConfig_config_error (ext : Externals) (port : Int) (sp : String)
    (driver : StrMap) (fd : Int) (msg : String) (p : Payload) (e : ConfigError)
    (h : ext.dial sp = none)
    (hr : ext.recvMsg sp = Except.ok (fd, msg)) (hu : ext.unmarshal msg = Except.ok p)
    (hb : (decodedConfig ext sp fd p).BucketName ≠ "")
    (hc : prepareConfigFile (fun a b => ext.filepathJoin [a, b]) ext.persist
      (visitedConfig ext.rangeOrder
        (preparedConfig ext port driver (decodedConfig ext sp fd p))) = Except.error e) :
    NewMountConfig ext port sp driver =
      { result := none
        messages := [Diagnostic.configFileFailed
          (preparedConfig ext port driver (decodedConfig ext sp fd p)).ConfigFile e]
        port := wrapInt (port + 1) } := by
  unfold NewMountConfig
  rw [h, hr]
  simp only
  rw [hu]
  simp only
  rw [if_neg hb, hc]
  rfl

theorem NewMountConfig_ok (ext : Externals) (port : Int) (sp : String)
    (driver : StrMap) (fd : Int) (msg : String) (p : Payload) (doc : Level)
    (h : ext.dial sp = none)
    (hr : ext.recvMsg sp = Except.ok (fd, msg)) (hu : ext.unmarshal msg = Except.ok p)
    (hb : (decodedConfig ext sp fd p).BucketName ≠ "")
    (hc : prepareConfigFile (fun a b => ext.filepathJoin [a, b]) ext.persist
      (visitedConfig ext.rangeOrder
        (preparedConfig ext port driver (decodedConfig ext sp fd p))) = Except.ok doc) :
    NewMountConfig ext port sp driver =
      { result := some (preparedConfig ext port driver (decodedConfig ext sp fd p))
        messages := []
        port := wrapInt (port + 1) } := by
  unfold NewMountConfig
  rw [h, hr]
  simp only
  rw [hu]
  simp only
  rw [if_neg hb, hc]
  rfl


/-! ## The keys of the config-file map are distinct -/

theorem mem_keys_set (m : StrMap) (k v x : String) :
    x ∈ (m.set k v).keys ↔ x = k ∨ x ∈ m.keys := by
  induction m with
  | nil => simp [StrMap.set, StrMap.keys, StrMap.entries]
  | cons e rest ih =>
    obtain ⟨k2, v2⟩ := e
    by_cases h : k2 = k
    · have hs : StrMap.set ((k2, v2) :: rest) k v = (k, v) :: rest := by
        simp [StrMap.set, h]
      rw [hs]
      simp [StrMap.keys, StrMap.entries, h]
    · have hs : StrMap.set ((k2, v2) :: rest) k v = (k2, v2) :: StrMap.set rest k v := by
        simp [StrMap.set, h]
      rw [hs]
      have hk : StrMap.keys ((k2, v2) :: StrMap.set rest k v) =
          k2 :: StrMap.keys (StrMap.set rest k v) := rfl
      have hk2 : StrMap.keys ((k2, v2) :: rest) = k2 :: StrMap.keys rest := rfl
      rw [hk, hk2, List.mem_cons, List.mem_cons, ih]
      tauto

theorem keys_set_nodup (m : StrMap) (k v : String) (h : m.keys.Nodup) :
    (m.set k v).keys.Nodup := by
  induction m with
  | nil => simp [StrMap.set, StrMap.keys, StrMap.entries]
  | cons e rest ih =>
    obtain ⟨k2, v2⟩ := e
    have hk2 : StrMap.keys ((k2, v2) :: rest) = k2 :: StrMap.keys rest := rfl
    rw [hk2, List.nodup_cons] at h
    by_cases hk : k2 = k
    · have hs : StrMap.set ((k2, v2) :: rest) k v = (k, v) :: rest := by
        simp [StrMap.set, hk]
      rw [hs]
      have hk3 : StrMap.keys ((k, v) :: rest) = k :: StrMap.keys rest := rfl
      rw [hk3, List.nodup_cons, ← hk]
      exact h
    · have hs : StrMap.set ((k2, v2) :: rest) k v = (k2, v2) :: StrMap.set rest k v := by
        simp [StrMap.set, hk]
      rw [hs]
      have hk3 : StrMap.keys ((k2, v2) :: StrMap.set rest k v) =
          k2 :: StrMap.keys (StrMap.set rest k v) := rfl
      rw [hk3, List.nodup_cons]
      refine ⟨?_, ih h.2⟩
      rw [mem_keys_set]
      rintro (e | e)
      · exact hk e
      · exact h.1 e

theorem processArg_config_nodup (D : String) (st : LoopState) (arg : String)
    (h : st.configFileFlagMap.keys.Nodup) :
    (processArg D st arg).configFileFlagMap.keys.Nodup := by
  have he := processArg_effect D st arg
  generalize processArg D st arg = st2 at he
  cases he with
  | none => exact h
  | port => exact h
  | invalid x => exact h
  | config f v _ => exact keys_set_nodup _ f v h
  | configCache f v _ => exact keys_set_nodup _ _ _ (keys_set_nodup _ f v h)
  | identity x => exact h
  | hostNetwork b => exact h
  | flat k v _ => exact h

theorem mergeFlags_nodup (driver m : StrMap) (h : m.keys.Nodup) :
    (mergeFlags m driver).1.keys.Nodup := by
  unfold mergeFlags
  show (List.foldl (fun m kv => if m.has kv.1 then m else m.set kv.1 kv.2) m
    driver.entries).keys.Nodup
  generalize driver.entries = l
  induction l generalizing m with
  | nil => exact h
  | cons kv rest ih =>
    rw [List.foldl_cons]
    apply ih
    by_cases hh : m.has kv.1 = true
    · rw [if_pos hh]
      exact h
    · rw [if_neg hh]
      exact keys_set_nodup m kv.1 kv.2 h

/-- After `prepareMountArgs` and `mergeFlags` the config-file map is not nil
and its keys are distinct. -/
theorem preparedConfig_map (ext : Externals) (port : Int) (driver : StrMap)
    (mc : MountConfig) :
    ∃ cm, (preparedConfig ext port driver mc).ConfigFileFlagMap = some cm ∧
      cm.keys.Nodup := by
  refine ⟨_, rfl, ?_⟩
  apply mergeFlags_nodup
  exact runLoop_invariant ext.disableMetricsForGKE
    (fun st => st.configFileFlagMap.keys.Nodup)
    (fun st arg h => processArg_config_nodup _ st arg h) mc.Options _
    (show baseConfigFileFlagMap.keys.Nodup by decide)

/-! ## The visit order of the config-file map -/

/-- The outcome of `prepareConfigFile` for two visit orders of one map with
distinct keys: the same document, or the same error, or two collision
errors, each naming a key of the map. -/
theorem prepareConfigFile_perm (filepathJoin : String → String → String)
    (persist : String → Level → Option ConfigError) (mc mc2 : MountConfig) (l1 l2 : StrMap)
    (h1 : mc.ConfigFileFlagMap = some l1) (h2 : mc2.ConfigFileFlagMap = some l2)
    (hperm : l1.entries.Perm l2.entries) (hnodup : l1.keys.Nodup)
    (hts : mc.TokenServerIdentityProvider = mc2.TokenServerIdentityProvider)
    (hhn : mc.HostNetworkKSAOptIn = mc2.HostNetworkKSAOptIn)
    (htemp : mc.TempDir = mc2.TempDir) (hfile : mc.ConfigFile = mc2.ConfigFile) :
    (∃ doc, prepareConfigFile filepathJoin persist mc = Except.ok doc ∧
      prepareConfigFile filepathJoin persist mc2 = Except.ok doc) ∨
    (∃ e, prepareConfigFile filepathJoin persist mc = Except.error e ∧
      prepareConfigFile filepathJoin persist mc2 = Except.error e) ∨
    (∃ f1 f2, prepareConfigFile filepathJoin persist mc =
        Except.error (ConfigError.invalidFlag f1) ∧
      prepareConfigFile filepathJoin persist mc2 =
        Except.error (ConfigError.invalidFlag f2) ∧
      f1 ∈ l1.keys ∧ f2 ∈ l1.keys) := by
  have hnodup2 : l2.keys.Nodup := (hperm.map Prod.fst).nodup_iff.1 hnodup
  cases ht1 : buildTree l1.entries Level.empty with
  | ok tree =>
    have ht2 := buildTree_perm hperm Level.empty tree hnodup ht1
    have heq : prepareConfigFile filepathJoin persist mc =
        prepareConfigFile filepathJoin persist mc2 := by
      unfold prepareConfigFile configDocument
      rw [h1, h2]
      simp only
      rw [ht1, ht2]
      simp only
      rw [hts, hhn, htemp, hfile]
    cases hr : prepareConfigFile filepathJoin persist mc2 with
    | ok doc => exact Or.inl ⟨doc, heq.trans hr, rfl⟩
    | error e => exact Or.inr (Or.inl ⟨e, heq.trans hr, rfl⟩)
  | error e1 =>
    cases ht2 : buildTree l2.entries Level.empty with
    | ok tree =>
      have := buildTree_perm hperm.symm Level.empty tree hnodup2 ht2
      rw [ht1] at this
      cases this
    | error e2 =>
      obtain ⟨f1, hf1, he1⟩ := buildTree_error_eq l1.entries Level.empty e1 ht1
      obtain ⟨f2, hf2, he2⟩ := buildTree_error_eq l2.entries Level.empty e2 ht2
      refine Or.inr (Or.inr ⟨f1, f2, ?_, ?_, hf1, (hperm.map Prod.fst).mem_iff.2 hf2⟩)
      · unfold prepareConfigFile configDocument
        rw [h1]
        simp only
        rw [ht1, he1]
      · unfold prepareConfigFile configDocument
        rw [h2]
        simp only
        rw [ht2, he2]

/-- Under every visit order `prepareConfigFile` looks at the same fields
of the `MountConfig`, the config-file map apart. -/
theorem visitedConfig_map (order : StrMap → StrMap) (mc : MountConfig) (cm : StrMap)
    (h : mc.ConfigFileFlagMap = some cm) :
    (visitedConfig order mc).ConfigFileFlagMap = some (order cm) := by
  unfold visitedConfig
  rw [h]
  rfl

/-- The outcome of `prepareConfigFile` in `NewMountConfig` for two visit
orders of the config-file map. -/
theorem prepareConfigFile_visited (ext : Externals) (port : Int) (driver : StrMap)
    (mc : MountConfig) (order1 order2 : StrMap → StrMap)
    (h1 : ∀ m : StrMap, (order1 m).entries.Perm m.entries)
    (h2 : ∀ m : StrMap, (order2 m).entries.Perm m.entries) :
    (∃ doc, prepareConfigFile (fun a b => ext.filepathJoin [a, b]) ext.persist
        (visitedConfig order1 (preparedConfig ext port driver mc)) = Except.ok doc ∧
      prepareConfigFile (fun a b => ext.filepathJoin [a, b]) ext.persist
        (visitedConfig order2 (preparedConfig ext port driver mc)) = Except.ok doc) ∨
    (∃ e, prepareConfigFile (fun a b => ext.filepathJoin [a, b]) ext.persist
        (visitedConfig order1 (preparedConfig ext port driver mc)) = Except.error e ∧
      prepareConfigFile (fun a b => ext.filepathJoin [a, b]) ext.persist
        (visitedConfig order2 (preparedConfig ext port driver mc)) = Except.error e) ∨
    (∃ f1 f2, prepareConfigFile (fun a b => ext.filepathJoin [a, b]) ext.persist
        (visitedConfig order1 (preparedConfig ext port driver mc)) =
          Except.error (ConfigError.invalidFlag f1) ∧
      prepareConfigFile (fun a b => ext.filepathJoin [a, b]) ext.persist
        (visitedConfig order2 (preparedConfig ext port driver mc)) =
          Except.error (ConfigError.invalidFlag f2)) := by
  obtain ⟨cm, hcm, hnodup⟩ := preparedConfig_map ext port driver mc
  have hp : (order1 cm).entries.Perm (order2 cm).entries := (h1 cm).trans (h2 cm).symm
  have hn : (order1 cm).keys.Nodup := ((h1 cm).map Prod.fst).nodup_iff.2 hnodup
  rcases prepareConfigFile_perm (fun a b => ext.filepathJoin [a, b]) ext.persist
      (visitedConfig order1 (preparedConfig ext port driver mc))
      (visitedConfig order2 (preparedConfig ext port driver mc)) (order1 cm) (order2 cm)
      (visitedConfig_map order1 _ cm hcm) (visitedConfig_map order2 _ cm hcm) hp hn
      rfl rfl rfl rfl with h | h | ⟨f1, f2, ha, hb, _, _⟩
  · exact Or.inl h
  · exact Or.inr (Or.inl h)
  · exact Or.inr (Or.inr ⟨f1, f2, ha, hb⟩)

/-- Removing the rejected options from the options of a `MountConfig` does
not change what `prepareConfigFile` reads after `prepareMountArgs` and
`mergeFlags`. -/
theorem preparedConfig_filter_rejected (ext : Externals) (port : Int) (driver : StrMap)
    (mc : MountConfig) (hD : disallowedFlags ext.disableMetricsForGKE = false) :
    prepareConfigFile (fun a b => ext.filepathJoin [a, b]) ext.persist
        (visitedConfig ext.rangeOrder (preparedConfig ext port driver
          { mc with Options := mc.Options.filter (fun a => !isRejected a) })) =
      prepareConfigFile (fun a b => ext.filepathJoin [a, b]) ext.persist
        (visitedConfig ext.rangeOrder (preparedConfig ext port driver mc)) ∧
    (preparedConfig ext port driver
        { mc with Options := mc.Options.filter (fun a => !isRejected a) }).ConfigFile =
      (preparedConfig ext port driver mc).ConfigFile := by
  have hinit : SameOutputs (initLoop port mc)
      (initLoop port { mc with Options := mc.Options.filter (fun a => !isRejected a) }) :=
    ⟨rfl, rfl, rfl, rfl, rfl⟩
  obtain ⟨hs, _, _⟩ := runLoop_filter_rejected ext.disableMetricsForGKE hD mc.Options _ _ hinit
  obtain ⟨p1, p2⟩ := runLoop_path_fields ext.disableMetricsForGKE mc.Options (initLoop port mc)
  obtain ⟨q1, q2⟩ := runLoop_path_fields ext.disableMetricsForGKE
    (mc.Options.filter (fun a => !isRejected a))
    (initLoop port { mc with Options := mc.Options.filter (fun a => !isRejected a) })
  have hcf : (preparedConfig ext port driver
        { mc with Options := mc.Options.filter (fun a => !isRejected a) }).ConfigFile =
      (preparedConfig ext port driver mc).ConfigFile := by
    show (runLoop _ _ _).mc.ConfigFile = (runLoop _ _ _).mc.ConfigFile
    exact q2.trans p2.symm
  refine ⟨?_, hcf⟩
  apply prepareConfigFile_congr
  · show some (ext.rangeOrder (mergeFlags (runLoop _ _ _).configFileFlagMap driver).1) =
      some (ext.rangeOrder (mergeFlags (runLoop _ _ _).configFileFlagMap driver).1)
    rw [← hs.configFileFlagMap]
  · exact hs.identity.symm
  · exact hs.hostNetwork.symm
  · show (runLoop _ _ _).mc.TempDir = (runLoop _ _ _).mc.TempDir
    exact q1.trans p1.symm
  · exact hcf


theorem decodedConfig_withoutRejected (ext : Externals) (sp : String) (fd : Int) (p : Payload) :
    decodedConfig (withoutRejected ext) sp fd
        { p with options := p.options.map (List.filter (fun a => !isRejected a)) } =
      { decodedConfig ext sp fd p with
        Options := (decodedConfig ext sp fd p).Options.filter (fun a => !isRejected a) } := by
  obtain ⟨vn, bn, opts⟩ := p
  cases opts <;> rfl

/-- `NewMountConfig` on the options without the rejected ones, the visit
order being the same: the same messages, and nil exactly when it is nil on
all the options. -/
theorem NewMountConfig_withoutRejected (ext : Externals) (port : Int) (sp : String)
    (driver : StrMap) (hD : disallowedFlags ext.disableMetricsForGKE = false) :
    (NewMountConfig (withoutRejected ext) port sp driver).messages =
      (NewMountConfig ext port sp driver).messages ∧
    ((NewMountConfig (withoutRejected ext) port sp driver).result = none ↔
      (NewMountConfig ext port sp driver).result = none) := by
  cases hd : ext.dial sp with
  | some err =>
    rw [NewMountConfig_dial ext port sp driver err hd,
      NewMountConfig_dial (withoutRejected ext) port sp driver err hd]
    exact ⟨rfl, Iff.rfl⟩
  | none =>
    cases hr : ext.recvMsg sp with
    | error err =>
      rw [NewMountConfig_recv ext port sp driver err hd hr,
        NewMountConfig_recv (withoutRejected ext) port sp driver err hd hr]
      exact ⟨rfl, Iff.rfl⟩
    | ok x =>
      obtain ⟨fd, msg⟩ := x
      cases hu : ext.unmarshal msg with
      | error err =>
        have hu2 : (withoutRejected ext).unmarshal msg = Except.error err := by
          show (match ext.unmarshal msg with
            | Except.ok p => Except.ok
                { p with options := p.options.map (List.filter (fun a => !isRejected a)) }
            | Except.error e => Except.error e) = _
          rw [hu]
        rw [NewMountConfig_unmarshal ext port sp driver fd msg err hd hr hu,
          NewMountConfig_unmarshal (withoutRejected ext) port sp driver fd msg err hd hr hu2]
        exact ⟨rfl, Iff.rfl⟩
      | ok p =>
        have hu2 : (withoutRejected ext).unmarshal msg = Except.ok
            { p with options := p.options.map (List.filter (fun a => !isRejected a)) } := by
          show (match ext.unmarshal msg with
            | Except.ok p => Except.ok
                { p with options := p.options.map (List.filter (fun a => !isRejected a)) }
            | Except.error e => Except.error e) = _
          rw [hu]
        have hdec := decodedConfig_withoutRejected ext sp fd p
        by_cases hb : (decodedConfig ext sp fd p).BucketName = ""
        · have hb2 : (decodedConfig (withoutRejected ext) sp fd
              { p with options := p.options.map (List.filter (fun a => !isRejected a)) }).BucketName
              = "" := by
            rw [hdec]
            exact hb
          rw [NewMountConfig_bucket ext port sp driver fd msg p hd hr hu hb,
            NewMountConfig_bucket (withoutRejected ext) port sp driver fd msg _ hd hr hu2 hb2]
          exact ⟨rfl, Iff.rfl⟩
        · have hb2 : (decodedConfig (withoutRejected ext) sp fd
              { p with options := p.options.map (List.filter (fun a => !isRejected a)) }).BucketName
              ≠ "" := by
            rw [hdec]
            exact hb
          obtain ⟨hsame, hfile⟩ := preparedConfig_filter_rejected ext port driver
            (decodedConfig ext sp fd p) hD
          have hsame2 : prepareConfigFile (fun a b => (withoutRejected ext).filepathJoin [a, b])
              (withoutRejected ext).persist
              (visitedConfig (withoutRejected ext).rangeOrder
                (preparedConfig (withoutRejected ext) port driver
                  (decodedConfig (withoutRejected ext) sp fd
                    { p with options :=
                        p.options.map (List.filter (fun a => !isRejected a)) }))) =
              prepareConfigFile (fun a b => ext.filepathJoin [a, b]) ext.persist
                (visitedConfig ext.rangeOrder
                  (preparedConfig ext port driver (decodedConfig ext sp fd p))) := by
            rw [hdec]
            exact hsame
          have hfile2 : (preparedConfig (withoutRejected ext) port driver
                (decodedConfig (withoutRejected ext) sp fd
                  { p with options :=
                      p.options.map (List.filter (fun a => !isRejected a)) })).ConfigFile =
              (preparedConfig ext port driver (decodedConfig ext sp fd p)).ConfigFile := by
            rw [hdec]
            exact hfile
          cases hc : prepareConfigFile (fun a b => ext.filepathJoin [a, b]) ext.persist
              (visitedConfig ext.rangeOrder
                (preparedConfig ext port driver (decodedConfig ext sp fd p))) with
          | error e =>
            rw [NewMountConfig_config_error ext port sp driver fd msg p e hd hr hu hb hc,
              NewMountConfig_config_error (withoutRejected ext) port sp driver fd msg _ e hd hr
                hu2 hb2 (hsame2.trans hc)]
            refine ⟨?_, Iff.rfl⟩
            show [Diagnostic.configFileFailed _ e] = [Diagnostic.configFileFailed _ e]
            rw [hfile2]
          | ok doc =>
            rw [NewMountConfig_ok ext port sp driver fd msg p doc hd hr hu hb hc,
              NewMountConfig_ok (withoutRejected ext) port sp driver fd msg _ doc hd hr
                hu2 hb2 (hsame2.trans hc)]
            simp

/-- `NewMountConfig` under two visit orders of the config-file map: the same
outcome, up to the flag named in a collision error. -/
theorem NewMountConfig_rangeOrder (ext : Externals) (port : Int) (sp : String)
    (driver : StrMap) (order2 : StrMap → StrMap)
    (h1 : ∀ m : StrMap, (ext.rangeOrder m).entries.Perm m.entries)
    (h2 : ∀ m : StrMap, (order2 m).entries.Perm m.entries) :
    SameOutcome (NewMountConfig (withRangeOrder ext order2) port sp driver)
      (NewMountConfig ext port sp driver) := by
  unfold SameOutcome
  cases hd : ext.dial sp with
  | some err =>
    rw [NewMountConfig_dial ext port sp driver err hd,
      NewMountConfig_dial (withRangeOrder ext order2) port sp driver err hd]
    exact ⟨Iff.rfl, Or.inl rfl⟩
  | none =>
    cases hr : ext.recvMsg sp with
    | error err =>
      rw [NewMountConfig_recv ext port sp driver err hd hr,
        NewMountConfig_recv (withRangeOrder ext order2) port sp driver err hd hr]
      exact ⟨Iff.rfl, Or.inl rfl⟩
    | ok x =>
      obtain ⟨fd, msg⟩ := x
      cases hu : ext.unmarshal msg with
      | error err =>
        rw [NewMountConfig_unmarshal ext port sp driver fd msg err hd hr hu,
          NewMountConfig_unmarshal (withRangeOrder ext order2) port sp driver fd msg err hd hr hu]
        exact ⟨Iff.rfl, Or.inl rfl⟩
      | ok p =>
        by_cases hb : (decodedConfig ext sp fd p).BucketName = ""
        · rw [NewMountConfig_bucket ext port sp driver fd msg p hd hr hu hb,
            NewMountConfig_bucket (withRangeOrder ext order2) port sp driver fd msg p hd hr hu hb]
          exact ⟨Iff.rfl, Or.inl rfl⟩
        · rcases prepareConfigFile_visited ext port driver (decodedConfig ext sp fd p)
              order2 ext.rangeOrder h2 h1 with
            ⟨doc, ha, hb2⟩ | ⟨e, ha, hb2⟩ | ⟨f1, f2, ha, hb2⟩
          · rw [NewMountConfig_ok ext port sp driver fd msg p doc hd hr hu hb hb2,
              NewMountConfig_ok (withRangeOrder ext order2) port sp driver fd msg p doc hd hr hu
                hb ha]
            exact ⟨Iff.rfl, Or.inl rfl⟩
          · rw [NewMountConfig_config_error ext port sp driver fd msg p e hd hr hu hb hb2,
              NewMountConfig_config_error (withRangeOrder ext order2) port sp driver fd msg p e
                hd hr hu hb ha]
            exact ⟨Iff.rfl, Or.inl rfl⟩
          · rw [NewMountConfig_config_error ext port sp driver fd msg p _ hd hr hu hb hb2,
              NewMountConfig_config_error (withRangeOrder ext order2) port sp driver fd msg p _
                hd hr hu hb ha]
            exact ⟨Iff.rfl, Or.inr ⟨_, f1, f2, rfl, rfl⟩⟩

/-! ## C15: fatal failures short-circuit the pipeline -/

/-- C15: fatal failures short-circuit the pipeline.  Whatever order `range`
visits the config-file map in, `NewMountConfig` returns nil exactly in the
five cases: the socket dial fails, receiving the message fails, the payload
does not unmarshal, the decoded bucket name is empty, or `prepareConfigFile`
returns an error; it then writes exactly one diagnostic message, the one of
the first failing step, and the error of `prepareConfigFile` is a path/leaf
collision at one of the keys of the map or the failure to marshal and write
the document.  In every other case it returns a non-nil `MountConfig` and
writes no message.  The outcome does not depend on the visit order, up to
the flag that a collision error names.  Rejected option strings never make
it return nil: with the metrics toggle not deny-listed, a run on the payload
without its rejected options, under any visit order, has the same
outcome. -/
theorem C15_fatal_failures_short_circuit (ext : Externals) (port : Int) (sp : String)
    (driver : StrMap)
    (hrange : ∀ m : StrMap, (ext.rangeOrder m).entries.Perm m.entries) :
    ((NewMountConfig ext port sp driver).result = none ↔ FatalFailure ext port sp driver) ∧
    ((NewMountConfig ext port sp driver).result = none →
      ∃ d, (NewMountConfig ext port sp driver).messages = [d]) ∧
    ((NewMountConfig ext port sp driver).result ≠ none →
      (NewMountConfig ext port sp driver).messages = []) ∧
    (∀ err, ext.dial sp = some err →
      (NewMountConfig ext port sp driver).messages = [Diagnostic.connectFailed sp err]) ∧
    (ext.dial sp = none → ∀ err, ext.recvMsg sp = Except.error err →
      (NewMountConfig ext port sp driver).messages = [Diagnostic.receiveFailed sp err]) ∧
    (ext.dial sp = none → ∀ fd msg, ext.recvMsg sp = Except.ok (fd, msg) →
      (∀ err, ext.unmarshal msg = Except.error err →
        (NewMountConfig ext port sp driver).messages = [Diagnostic.unmarshalFailed err]) ∧
      (∀ p, ext.unmarshal msg = Except.ok p →
        ((decodedConfig ext sp fd p).BucketName = "" →
          (NewMountConfig ext port sp driver).messages = [Diagnostic.missingBucketName]) ∧
        ((decodedConfig ext sp fd p).BucketName ≠ "" →
          (∀ e, prepareConfigFile (fun a b => ext.filepathJoin [a, b]) ext.persist
              (visitedConfig ext.rangeOrder
                (preparedConfig ext port driver (decodedConfig ext sp fd p))) =
                Except.error e →
            (NewMountConfig ext port sp driver).messages =
              [Diagnostic.configFileFailed
                (preparedConfig ext port driver (decodedConfig ext sp fd p)).ConfigFile e] ∧
            ((∃ f cm, e = ConfigError.invalidFlag f ∧
                (preparedConfig ext port driver
                  (decodedConfig ext sp fd p)).ConfigFileFlagMap = some cm ∧ f ∈ cm.keys) ∨
              ∃ doc, ext.persist
                (preparedConfig ext port driver (decodedConfig ext sp fd p)).ConfigFile doc =
                  some e)) ∧
          (∀ doc, prepareConfigFile (fun a b => ext.filepathJoin [a, b]) ext.persist
              (visitedConfig ext.rangeOrder
                (preparedConfig ext port driver (decodedConfig ext sp fd p))) =
                Except.ok doc →
            (NewMountConfig ext port sp driver).result =
              some (preparedConfig ext port driver (decodedConfig ext sp fd p)))))) ∧
    (∀ order2 : StrMap → StrMap, (∀ m : StrMap, (order2 m).entries.Perm m.entries) →
      SameOutcome (NewMountConfig (withRangeOrder ext order2) port sp driver)
        (NewMountConfig ext port sp driver)) ∧
    (disallowedFlags ext.disableMetricsForGKE = false →
      ∀ order2 : StrMap → StrMap, (∀ m : StrMap, (order2 m).entries.Perm m.entries) →
        SameOutcome
          (NewMountConfig (withoutRejected (withRangeOrder ext order2)) port sp driver)
          (NewMountConfig ext port sp driver)) := by
  have hcases : ((NewMountConfig ext port sp driver).result = none ↔
        FatalFailure ext port sp driver) ∧
      ((NewMountConfig ext port sp driver).result = none →
        ∃ d, (NewMountConfig ext port sp driver).messages = [d]) ∧
      ((NewMountConfig ext port sp driver).result ≠ none →
        (NewMountConfig ext port sp driver).messages = []) := by
    cases hd : ext.dial sp with
    | some err =>
      rw [NewMountConfig_dial ext port sp driver err hd]
      exact ⟨⟨fun _ => Or.inl ⟨err, hd⟩, fun _ => rfl⟩, fun _ => ⟨_, rfl⟩,
        fun h => absurd rfl h⟩
    | none =>
      cases hr : ext.recvMsg sp with
      | error err =>
        rw [NewMountConfig_recv ext port sp driver err hd hr]
        exact ⟨⟨fun _ => Or.inr (Or.inl ⟨err, hr⟩), fun _ => rfl⟩, fun _ => ⟨_, rfl⟩,
          fun h => absurd rfl h⟩
      | ok x =>
        obtain ⟨fd, msg⟩ := x
        cases hu : ext.unmarshal msg with
        | error err =>
          rw [NewMountConfig_unmarshal ext port sp driver fd msg err hd hr hu]
          exact ⟨⟨fun _ => Or.inr (Or.inr ⟨fd, msg, hr, Or.inl ⟨err, hu⟩⟩), fun _ => rfl⟩,
            fun _ => ⟨_, rfl⟩, fun h => absurd rfl h⟩
        | ok p =>
          by_cases hb : (decodedConfig ext sp fd p).BucketName = ""
          · rw [NewMountConfig_bucket ext port sp driver fd msg p hd hr hu hb]
            exact ⟨⟨fun _ => Or.inr (Or.inr ⟨fd, msg, hr, Or.inr ⟨p, hu, Or.inl hb⟩⟩),
              fun _ => rfl⟩, fun _ => ⟨_, rfl⟩, fun h => absurd rfl h⟩
          · cases hc : prepareConfigFile (fun a b => ext.filepathJoin [a, b]) ext.persist
                (visitedConfig ext.rangeOrder
                  (preparedConfig ext port driver (decodedConfig ext sp fd p))) with
            | error e =>
              rw [NewMountConfig_config_error ext port sp driver fd msg p e hd hr hu hb hc]
              exact ⟨⟨fun _ => Or.inr (Or.inr ⟨fd, msg, hr, Or.inr ⟨p, hu, Or.inr ⟨e, hc⟩⟩⟩),
                fun _ => rfl⟩, fun _ => ⟨_, rfl⟩, fun h => absurd rfl h⟩
            | ok doc =>
              rw [NewMountConfig_ok ext port sp driver fd msg p doc hd hr hu hb hc]
              refine ⟨⟨?_, fun h => ?_⟩, fun h => ?_, fun _ => rfl⟩
              · intro h
                cases h
              · exfalso
                rcases h with ⟨err, he⟩ | ⟨err, he⟩ | ⟨fd2, msg2, hr2, h⟩
                · rw [hd] at he
                  cases he
                · rw [hr] at he
                  cases he
                · rw [hr] at hr2
                  injection hr2 with hr2
                  injection hr2 with hfd hmsg
                  subst hfd
                  subst hmsg
                  rcases h with ⟨err, he⟩ | ⟨p2, hp2, h⟩
                  · rw [hu] at he
                    cases he
                  · rw [hu] at hp2
                    injection hp2 with hp2
                    subst hp2
                    rcases h with h | ⟨e, he⟩
                    · exact hb h
                    · rw [hc] at he
                      cases he
              · cases h
  refine ⟨hcases.1, hcases.2.1, hcases.2.2, ?_, ?_, ?_, ?_, ?_⟩
  · intro err hd
    rw [NewMountConfig_dial ext port sp driver err hd]
  · intro hd err hr
    rw [NewMountConfig_recv ext port sp driver err hd hr]
  · intro hd fd msg hr
    refine ⟨?_, ?_⟩
    · intro err hu
      rw [NewMountConfig_unmarshal ext port sp driver fd msg err hd hr hu]
    · intro p hu
      refine ⟨?_, ?_⟩
      · intro hb
        rw [NewMountConfig_bucket ext port sp driver fd msg p hd hr hu hb]
      · intro hb
        refine ⟨?_, ?_⟩
        · intro e hc
          rw [NewMountConfig_config_error ext port sp driver fd msg p e hd hr hu hb hc]
          refine ⟨rfl, ?_⟩
          obtain ⟨cm, hcm, _⟩ := preparedConfig_map ext port driver (decodedConfig ext sp fd p)
          rcases prepareConfigFile_error _ ext.persist
              (visitedConfig ext.rangeOrder
                (preparedConfig ext port driver (decodedConfig ext sp fd p)))
              (ext.rangeOrder cm) e (visitedConfig_map _ _ cm hcm) hc with
            ⟨f, hf, he, _⟩ | ⟨doc, _, hp⟩
          · exact Or.inl ⟨f, cm, he, hcm, ((hrange cm).map Prod.fst).mem_iff.1 hf⟩
          · exact Or.inr ⟨doc, hp⟩
        · intro doc hc
          rw [NewMountConfig_ok ext port sp driver fd msg p doc hd hr hu hb hc]
  · intro order2 h2
    exact NewMountConfig_rangeOrder ext port sp driver order2 hrange h2
  · intro hD order2 h2
    obtain ⟨hm, hr⟩ := NewMountConfig_withoutRejected (withRangeOrder ext order2) port sp
      driver hD
    obtain ⟨hr2, hm2⟩ := NewMountConfig_rangeOrder ext port sp driver order2 hrange h2
    unfold SameOutcome
    rw [hm]
    exact ⟨hr.trans hr2, hm2⟩

/-- C15 at two volumes whose socket connects and delivers a bucket name,
`range` visiting the map last to first: with the options `o=rw` and
`implicit-dirs=maybe`, both rejected, the result is non-nil and nothing is
written; with the option `logging:file-path:sub:1`, whose path runs through
the leaf `logging:file-path`, the result is nil and the one message is that
of the config file, for a collision at one of these two keys. -/
theorem C15_fatal_failures_witness :
    (∀ m : StrMap, ((exampleExternals []).rangeOrder m).entries.Perm m.entries) ∧
    (NewMountConfig (exampleExternals ["o=rw", "implicit-dirs=maybe"]) 62990
        "/gcsfuse-tmp/.volumes/vol/socket" []).result ≠ none ∧
    (NewMountConfig (exampleExternals ["o=rw", "implicit-dirs=maybe"]) 62990
        "/gcsfuse-tmp/.volumes/vol/socket" []).messages = [] ∧
    (NewMountConfig (exampleExternals ["logging:file-path:sub:1"]) 62990
        "/gcsfuse-tmp/.volumes/vol/socket" []).result = none ∧
    (∃ f, (f = "logging:file-path" ∨ f = "logging:file-path:sub") ∧
      (NewMountConfig (exampleExternals ["logging:file-path:sub:1"]) 62990
          "/gcsfuse-tmp/.volumes/vol/socket" []).messages =
        [Diagnostic.configFileFailed "/gcsfuse-tmp/.volumes/vol/config.yaml"
          (ConfigError.invalidFlag f)]) := by
  have hrev : ∀ (o : List String) (m : StrMap),
      ((exampleExternals o).rangeOrder m).entries.Perm m.entries :=
    fun _ m => List.reverse_perm m
  have hok : (NewMountConfig (exampleExternals ["o=rw", "implicit-dirs=maybe"]) 62990
      "/gcsfuse-tmp/.volumes/vol/socket" []).result ≠ none := by
    intro h
    have hf := (C15_fatal_failures_short_circuit
      (exampleExternals ["o=rw", "implicit-dirs=maybe"]) 62990
      "/gcsfuse-tmp/.volumes/vol/socket" [] (hrev _)).1.1 h
    rcases hf with ⟨err, he⟩ | ⟨err, he⟩ | ⟨fd, msg, _, h2⟩
    · cases he
    · cases he
    · rcases h2 with ⟨err, he⟩ | ⟨p, hp, h3⟩
      · cases he
      · injection hp with hp
        subst hp
        rcases h3 with hb | ⟨e, he⟩
        · have hname : (decodedConfig (exampleExternals ["o=rw", "implicit-dirs=maybe"])
              "/gcsfuse-tmp/.volumes/vol/socket" fd
              { volumeName := none, bucketName := some "bucket"
                options := some ["o=rw", "implicit-dirs=maybe"] }).BucketName = "bucket" := rfl
          rw [hname] at hb
          exact absurd hb (by decide)
        · have hnone : isError (prepareConfigFile
              (fun a b => (exampleExternals ["o=rw", "implicit-dirs=maybe"]).filepathJoin [a, b])
              (exampleExternals ["o=rw", "implicit-dirs=maybe"]).persist
              (visitedConfig (exampleExternals ["o=rw", "implicit-dirs=maybe"]).rangeOrder
                (preparedConfig (exampleExternals ["o=rw", "implicit-dirs=maybe"]) 62990 []
                  (decodedConfig (exampleExternals ["o=rw", "implicit-dirs=maybe"])
                    "/gcsfuse-tmp/.volumes/vol/socket" fd
                    { volumeName := none, bucketName := some "bucket"
                      options := some ["o=rw", "implicit-dirs=maybe"] })))) = false := by
            rfl
          rw [he] at hnone
          cases hnone
  have hbad := (C15_fatal_failures_short_circuit
    (exampleExternals ["logging:file-path:sub:1"]) 62990
    "/gcsfuse-tmp/.volumes/vol/socket" [] (hrev _)).2.2.2.2.2.1 rfl 3 "" rfl
  have hbad2 := ((hbad.2 _ rfl).2 (by decide)).1
    (ConfigError.invalidFlag "logging:file-path") rfl
  refine ⟨hrev [], hok,
    (C15_fatal_failures_short_circuit _ _ _ _ (hrev _)).2.2.1 hok, ?_,
    ⟨"logging:file-path", Or.inl rfl, hbad2.1⟩⟩
  exact (C15_fatal_failures_short_circuit _ _ _ _ (hrev _)).1.2
    (Or.inr (Or.inr ⟨3, "", rfl, Or.inr ⟨_, rfl, Or.inr ⟨_, rfl⟩⟩⟩))

end sidecarmounter
